import Mathlib

/-!
# SplineProblem (include/r3/path/Spline2.cpp)

A shallow embedding of the constrained piecewise-polynomial fitting engine
`SplineProblem` and a verification of its contract.

Conventions of the embedding.

* `Scalar` is the field of rationals: every statement is about exact arithmetic,
  except where a definition carries `Double` in its name. Those definitions keep
  what the C++ type `double` adds where the code can see it: a query time can be
  NaN (`getSegmentIndexDouble`, `interpolateDouble`), and the products that build
  the coefficient-derivative matrix are rounded to 53 significant bits
  (`createCoefficientMatrixDouble`).
* `Index` (the C++ `ptrdiff_t`) is `ℤ` for every index that a caller passes in
  or gets back; sizes and positions that the code has already checked to be
  non-negative are natural numbers.
* A dense Eigen matrix is a function from (row, column) to `Scalar` together
  with the sizes stored in the object; entries outside the sizes are never read.
* A failing `assert` (or Eigen's own index assertion) ends the call: a mutating
  operation returns an `Outcome` holding the state reached when the call ended
  and the assertion that fired, a query returns `none`.
* The linear solve `mA.householderQr().solve(b)` of Eigen is a parameter of
  `fit` (a `Solver`).

The last section embeds `ConcreteRobot::planToConfiguration`
(src/robot/ConcreteRobot.cpp), whose returned pointer is an `Option`.
-/

namespace Spline2

abbrev Scalar := ℚ

abbrev Index := ℤ

/-- The members of `SplineProblem`, in declaration order. -/
structure SplineProblem where
  mNumKnots : Nat
  mNumSegments : Nat
  mNumCoefficients : Nat
  mNumOutputs : Nat
  mDimension : Nat
  mCoefficientMatrix : Nat → Nat → Scalar
  mRowIndex : Nat
  mTimes : List Scalar
  mA : Nat → Nat → Scalar
  mB : Nat → Nat → Scalar
  mSolution : Nat → Nat → Nat → Scalar

/-- The assertions of the mutating member functions, in source order. -/
inductive Violation where
  | knotOutOfRange
  | notInteriorKnot
  | derivativeOutOfRange
  | valueSizeMismatch
  | rowOverflow
  | rowCountMismatch
  deriving DecidableEq, Repr

/-- The result of a mutating call: the state when the call ended and the
assertion that ended it, if any. -/
structure Outcome where
  state : SplineProblem
  violation : Option Violation

/-- The linear solver used by `fit`: dimension, matrix, right-hand side to solution. -/
abbrev Solver := Nat → (Nat → Nat → Scalar) → (Nat → Scalar) → Nat → Scalar

/-- The check `std::is_sorted` over the knot times: no element is less than its
predecessor (equal neighbours pass). -/
def is_sorted : List Scalar → Bool
  | [] => true
  | [_] => true
  | a :: b :: rest => !(decide (b < a)) && is_sorted (b :: rest)

/-- The loop of `std::lower_bound` over positions `first .. first + len` of `xs`;
`fuel` bounds the number of iterations (`len` halves at every iteration). -/
def lowerBoundLoop (xs : List Scalar) (t : Scalar) : Nat → Nat → Nat → Nat
  | 0, first, _ => first
  | fuel + 1, first, len =>
    if len = 0 then first
    else
      let half := len / 2
      let middle := first + half
      if xs.getD middle 0 < t then lowerBoundLoop xs t fuel (middle + 1) (len - half - 1)
      else lowerBoundLoop xs t fuel first half

/-- The position `std::lower_bound(xs.begin(), xs.end(), t) - xs.begin()`. -/
def lower_bound (xs : List Scalar) (t : Scalar) : Nat :=
  lowerBoundLoop xs t xs.length 0 xs.length

/-- Member `createCoefficientMatrix`: row 0 is all ones; entry `(i, j)` of a later row is
`(j - i + 1) * coefficients(i - 1, j)` for `j ≥ i`; everything else stays zero. -/
def createCoefficientMatrix (numCoefficients : Nat) : Nat → Nat → Scalar
  | 0, j => if j < numCoefficients then 1 else 0
  | i + 1, j =>
    if i + 1 ≤ j ∧ j < numCoefficients then
      (((j : ℤ) - ((i : ℤ) + 1) + 1 : ℤ) : Scalar) * createCoefficientMatrix numCoefficients i j
    else 0

/-- Member `createTimeVector(_t, _i)`: entry `j` is `_t^(j - _i)` for `j > _i`, `1` for
`j = _i` and `0` for `j < _i`. -/
def createTimeVector (p : SplineProblem) (_t : Scalar) (_i : Index) (j : Nat) : Scalar :=
  if j < p.mNumCoefficients then
    if (j : ℤ) > _i then _t ^ ((j : ℤ) - _i).toNat
    else if (j : ℤ) = _i then 1
    else 0
  else 0

/-- Eigen: `m.block(row, col, 1, n) = v.transpose()`. -/
def setBlock (m : Nat → Nat → Scalar) (row col n : Nat) (v : Nat → Scalar) :
    Nat → Nat → Scalar :=
  fun i c => if i = row ∧ col ≤ c ∧ c < col + n then v (c - col) else m i c

/-- Eigen: `m.row(row) = v` for a matrix with `n` columns. -/
def setRow (m : Nat → Nat → Scalar) (row n : Nat) (v : Nat → Scalar) :
    Nat → Nat → Scalar :=
  fun i c => if i = row ∧ c < n then v c else m i c

/-- The constructor `SplineProblem(_times, _numCoefficients, _numOutputs)`; it
throws (`none`) when the times are not sorted. `mA` and `mB` are set to zero;
Eigen leaves the entries of `mSolution` unspecified until `fit` writes them, and
they are `0` here. -/
def SplineProblem.new (_times : List Scalar) (_numCoefficients _numOutputs : Nat) :
    Option SplineProblem :=
  let numKnots := _times.length
  let numSegments := (max ((numKnots : ℤ) - 1) 0).toNat
  if is_sorted _times then
    some
      { mNumKnots := numKnots
        mNumSegments := numSegments
        mNumCoefficients := _numCoefficients
        mNumOutputs := _numOutputs
        mDimension := numSegments * _numCoefficients
        mCoefficientMatrix := createCoefficientMatrix _numCoefficients
        mRowIndex := 0
        mTimes := _times
        mA := fun _ _ => 0
        mB := fun _ _ => 0
        mSolution := fun _ _ _ => 0 }
  else none

/-- The vector `coeffVector` of both constraint functions:
`mCoefficientMatrix.row(_derivative).cwiseProduct(createTimeVector(mTimes[_knot], _derivative))`. -/
def coeffVector (p : SplineProblem) (_knot _derivative : Index) (j : Nat) : Scalar :=
  p.mCoefficientMatrix _derivative.toNat j
    * createTimeVector p (p.mTimes.getD _knot.toNat 0) _derivative j

/-- One guarded block of `addConstantConstraint`: assert that a row is free,
write `coeffVector` into the column block of `segment`, the value into `mB`,
and advance the row cursor. -/
def writeConstantRow (p : SplineProblem) (segment : Nat) (v : Nat → Scalar)
    (_value : List Scalar) : Outcome :=
  if p.mRowIndex < p.mDimension then
    { state :=
        { p with
          mA := setBlock p.mA p.mRowIndex (segment * p.mNumCoefficients) p.mNumCoefficients v
          mB := setRow p.mB p.mRowIndex p.mNumOutputs (fun o => _value.getD o 0)
          mRowIndex := p.mRowIndex + 1 }
      violation := none }
  else { state := p, violation := some Violation.rowOverflow }

/-- Member `addConstantConstraint(_knot, _derivative, _value)`: three assertions on
the arguments, then one guarded row per adjoining segment, the segment before
the knot first. -/
def addConstantConstraint (p : SplineProblem) (_knot _derivative : Index)
    (_value : List Scalar) : Outcome :=
  if 0 ≤ _knot ∧ _knot < (p.mNumKnots : ℤ) then
    if 0 ≤ _derivative ∧ _derivative < (p.mNumCoefficients : ℤ) then
      if _value.length = p.mNumOutputs then
        let v := coeffVector p _knot _derivative
        -- Position constraint on segment before this knot.
        let before : Outcome :=
          if _knot > 0 then writeConstantRow p (_knot - 1).toNat v _value
          else { state := p, violation := none }
        if before.violation = none then
          -- Position constraint on segment after this knot.
          if _knot + 1 < (before.state.mNumKnots : ℤ) then
            writeConstantRow before.state _knot.toNat v _value
          else before
        else before
      else { state := p, violation := some Violation.valueSizeMismatch }
    else { state := p, violation := some Violation.derivativeOutOfRange }
  else { state := p, violation := some Violation.knotOutOfRange }

/-- Member `addContinuityConstraint(_knot, _derivative)`: four assertions, then one
row with `coeffVector` in the block of the earlier segment and its negation in
the block of the later segment, and a zero right-hand side. -/
def addContinuityConstraint (p : SplineProblem) (_knot _derivative : Index) : Outcome :=
  if 0 ≤ _knot ∧ _knot < (p.mNumKnots : ℤ) then
    if _knot ≠ 0 ∧ _knot + 1 ≠ (p.mNumKnots : ℤ) then
      if 0 ≤ _derivative ∧ _derivative < (p.mNumCoefficients : ℤ) then
        if p.mRowIndex < p.mDimension then
          let v := coeffVector p _knot _derivative
          let a1 := setBlock p.mA p.mRowIndex ((_knot - 1).toNat * p.mNumCoefficients)
            p.mNumCoefficients v
          let a2 := setBlock a1 p.mRowIndex (_knot.toNat * p.mNumCoefficients)
            p.mNumCoefficients (fun j => - v j)
          { state :=
              { p with
                mA := a2
                mB := setRow p.mB p.mRowIndex p.mNumOutputs (fun _ => 0)
                mRowIndex := p.mRowIndex + 1 }
            violation := none }
        else { state := p, violation := some Violation.rowOverflow }
      else { state := p, violation := some Violation.derivativeOutOfRange }
    else { state := p, violation := some Violation.notInteriorKnot }
  else { state := p, violation := some Violation.knotOutOfRange }

/-- Member `fit()`: the assertion on the row cursor, then one solve per output
column, split per segment into blocks of `mNumCoefficients` entries. -/
def fit (solver : Solver) (p : SplineProblem) : Outcome :=
  if p.mRowIndex = p.mDimension then
    { state :=
        { p with
          mSolution := fun isegment ioutput j =>
            if ioutput < p.mNumOutputs ∧ isegment < p.mNumSegments ∧ j < p.mNumCoefficients then
              solver p.mDimension p.mA (fun r => p.mB r ioutput) (isegment * p.mNumCoefficients + j)
            else p.mSolution isegment ioutput j }
      violation := none }
  else { state := p, violation := some Violation.rowCountMismatch }

/-- Member `getSegmentIndex(_t)`; `none` when `mTimes[0]` does not exist (Eigen's
index assertion). -/
def getSegmentIndex (p : SplineProblem) (_t : Scalar) : Option Index :=
  if p.mTimes.length = 0 then none
  else if _t ≤ p.mTimes.getD 0 0 then some 0
  else if _t ≥ p.mTimes.getD (p.mNumKnots - 1) 0 then some ((p.mNumSegments : ℤ) - 1)
  else some ((lower_bound p.mTimes _t : ℤ) - 1)

/-- The vector `evaluationVector` of `interpolate`. -/
def evaluationVector (p : SplineProblem) (_t : Scalar) (_derivative : Index) (j : Nat) : Scalar :=
  p.mCoefficientMatrix _derivative.toNat j * createTimeVector p _t _derivative j

/-- Member `interpolate(_t, _derivative)`; `none` when the row of the derivative matrix
or the segment looked up does not exist. -/
def interpolate (p : SplineProblem) (_t : Scalar) (_derivative : Index) :
    Option (List Scalar) :=
  if 0 ≤ _derivative ∧ _derivative < (p.mNumCoefficients : ℤ) then
    match getSegmentIndex p _t with
    | none => none
    | some segmentIndex =>
      if 0 ≤ segmentIndex ∧ segmentIndex < (p.mNumSegments : ℤ) then
        some ((List.range p.mNumOutputs).map fun ioutput =>
          ∑ j in Finset.range p.mNumCoefficients,
            evaluationVector p _t _derivative j * p.mSolution segmentIndex.toNat ioutput j)
      else none
  else none

/-! ## Call sequences and the vocabulary of the contract -/

/-- A constraint registration, as a value. -/
inductive Constraint where
  | constant (knot derivative : Index) (value : List Scalar)
  | continuity (knot derivative : Index)

/-- Perform one constraint registration. -/
def Constraint.register (p : SplineProblem) : Constraint → Outcome
  | Constraint.constant k d v => addConstantConstraint p k d v
  | Constraint.continuity k d => addContinuityConstraint p k d

/-- A call of a mutating member function. -/
inductive Call where
  | register (c : Constraint)
  | fit

/-- Perform one call. -/
def Call.run (solver : Solver) (p : SplineProblem) : Call → Outcome
  | Call.register c => c.register p
  | Call.fit => Spline2.fit solver p

/-- The states that a problem constructed from `times`, `numCoefficients` and
`numOutputs` can be in: the constructed state, and the state left by any call
(whether it succeeded or ended in a violation) made in such a state. -/
inductive Reachable (solver : Solver) (times : List Scalar) (numCoefficients numOutputs : Nat) :
    SplineProblem → Prop where
  | new {p : SplineProblem} :
      SplineProblem.new times numCoefficients numOutputs = some p →
      Reachable solver times numCoefficients numOutputs p
  | call {p : SplineProblem} (c : Call) :
      Reachable solver times numCoefficients numOutputs p →
      Reachable solver times numCoefficients numOutputs (c.run solver p).state

/-- Register a list of constraints in order; `none` as soon as one of them
ends in a violation. -/
def registerAll : SplineProblem → List Constraint → Option SplineProblem
  | p, [] => some p
  | p, c :: cs =>
    match (c.register p).violation with
    | none => registerAll (c.register p).state cs
    | some _ => none

/-- The solver solved `mA * x = mB.col(o)` exactly for every output column `o`. -/
def SolvesExactly (solver : Solver) (p : SplineProblem) : Prop :=
  ∀ o, o < p.mNumOutputs → ∀ r, r < p.mDimension →
    ∑ c in Finset.range p.mDimension,
      p.mA r c * solver p.mDimension p.mA (fun i => p.mB i o) c = p.mB r o

/-- The vector that the spec calls the time-power/derivative product:
entry `j` is `factor(d, j) * t^(j - d)` for `j ≥ d` and `0` for `j < d`. -/
def derivativeWeights (t : Scalar) (d j : Nat) : Scalar :=
  if d ≤ j then (Nat.descFactorial j d : Scalar) * t ^ (j - d) else 0

/-- What every reachable state of a problem built from `times`, `numCoefficients`
and `numOutputs` satisfies. -/
structure Inv (times : List Scalar) (numCoefficients numOutputs : Nat) (p : SplineProblem) :
    Prop where
  numKnots : p.mNumKnots = times.length
  times_eq : p.mTimes = times
  numSegments : p.mNumSegments = times.length - 1
  numCoefficients_eq : p.mNumCoefficients = numCoefficients
  numOutputs_eq : p.mNumOutputs = numOutputs
  dimension : p.mDimension = (times.length - 1) * numCoefficients
  coefficientMatrix : p.mCoefficientMatrix = createCoefficientMatrix numCoefficients
  sorted : is_sorted times = true
  rowIndex_le : p.mRowIndex ≤ p.mDimension
  clearA : ∀ i, p.mRowIndex ≤ i → ∀ c, p.mA i c = 0
  clearB : ∀ i, p.mRowIndex ≤ i → ∀ o, p.mB i o = 0

/-- A row of `mA` that is zero except for the entries `w 0, ..., w (n-1)` in the
columns `col, ..., col + n - 1`. -/
def blockRow (col n : Nat) (w : Nat → Scalar) (c : Nat) : Scalar :=
  if col ≤ c ∧ c < col + n then w (c - col) else 0

/-- Row `r` has been registered in state `p` and reads `rowA · x = rowB`. -/
structure HasRow (p : SplineProblem) (r : Nat) (rowA rowB : Nat → Scalar) : Prop where
  registered : r < p.mRowIndex
  rowOfA : ∀ c, p.mA r c = rowA c
  rowOfB : ∀ o, o < p.mNumOutputs → p.mB r o = rowB o

/-- State `q` keeps every row that was registered in state `p`. -/
structure Frame (p q : SplineProblem) : Prop where
  rowIndex_le : p.mRowIndex ≤ q.mRowIndex
  rowsA : ∀ i, i < p.mRowIndex → ∀ c, q.mA i c = p.mA i c
  rowsB : ∀ i, i < p.mRowIndex → ∀ o, q.mB i o = p.mB i o

/-! ## Concrete problems used to exercise the theorems -/

/-- The problem that `main` constructs: knot times `0, 1, 3`, four coefficients
per segment, two outputs. -/
def mainProblem : SplineProblem :=
  { mNumKnots := 3
    mNumSegments := 2
    mNumCoefficients := 4
    mNumOutputs := 2
    mDimension := 8
    mCoefficientMatrix := createCoefficientMatrix 4
    mRowIndex := 0
    mTimes := [0, 1, 3]
    mA := fun _ _ => 0
    mB := fun _ _ => 0
    mSolution := fun _ _ _ => 0 }

/-- A solver that returns the vector of ones whatever the system. -/
def onesSolver : Solver := fun _ _ _ _ => 1

/-- A problem with knot times `0, 1, 2`, two coefficients per segment (lines) and
one output, as constructed. -/
def lineProblem : SplineProblem :=
  { mNumKnots := 3
    mNumSegments := 2
    mNumCoefficients := 2
    mNumOutputs := 1
    mDimension := 4
    mCoefficientMatrix := createCoefficientMatrix 2
    mRowIndex := 0
    mTimes := [0, 1, 2]
    mA := fun _ _ => 0
    mB := fun _ _ => 0
    mSolution := fun _ _ _ => 0 }

/-- Four rows for `lineProblem`: value `1` at the first knot, continuity of value
and slope at the interior knot, value `3` at the last knot. The solution is the
line `1 + t` on both segments. -/
def lineConstraints : List Constraint :=
  [Constraint.constant 0 0 [1], Constraint.continuity 1 0, Constraint.continuity 1 1,
    Constraint.constant 2 0 [3]]

/-- The state of `lineProblem` after the registration of `lineConstraints`. -/
def lineRegistered : SplineProblem :=
  (registerAll lineProblem lineConstraints).getD lineProblem

/-- Perform a sequence of calls one after the other, going on from the state that
each call leaves (whether it succeeded or ended in a violation). -/
def runCalls (solver : Solver) : SplineProblem → List Call → SplineProblem
  | p, [] => p
  | p, c :: cs => runCalls solver (c.run solver p).state cs

/-- The leading `n × n` part of `mA` as a matrix. -/
def systemMatrix (n : Nat) (p : SplineProblem) : Matrix (Fin n) (Fin n) Scalar :=
  Matrix.of fun i j => p.mA i.val j.val

/-- The registration sequence of `main`. -/
def mainConstraints : List Constraint :=
  [Constraint.constant 0 1 [0, 0], Constraint.constant 0 0 [5, 7],
    Constraint.constant 1 0 [6, 8], Constraint.continuity 1 1, Constraint.continuity 1 2,
    Constraint.constant 2 0 [0, 2], Constraint.constant 2 1 [0, 0]]

/-- The state of `mainProblem` after the registration sequence of `main`. -/
def mainRegistered : SplineProblem :=
  (registerAll mainProblem mainConstraints).getD mainProblem

/-- The clamped cubic: knot times `0, 1`, four coefficients, one output, as
constructed. -/
def cubicProblem : SplineProblem :=
  { mNumKnots := 2
    mNumSegments := 1
    mNumCoefficients := 4
    mNumOutputs := 1
    mDimension := 4
    mCoefficientMatrix := createCoefficientMatrix 4
    mRowIndex := 0
    mTimes := [0, 1]
    mA := fun _ _ => 0
    mB := fun _ _ => 0
    mSolution := fun _ _ _ => 0 }

/-- The four constraints of the clamped cubic: value `0` and slope `0` at knot 0,
value `1` and slope `0` at knot 1. -/
def cubicConstraints : List Constraint :=
  [Constraint.constant 0 0 [0], Constraint.constant 0 1 [0], Constraint.constant 1 0 [1],
    Constraint.constant 1 1 [0]]

/-- The state of `cubicProblem` after the registration of `cubicConstraints`. -/
def cubicRegistered : SplineProblem :=
  (registerAll cubicProblem cubicConstraints).getD cubicProblem

/-- A solver that returns the coefficients of `3 t^2 - 2 t^3` whatever the system. -/
def cubicSolver : Solver := fun _ _ _ c => ([0, 0, 3, -2] : List Scalar).getD c 0

/-- A two-knot problem with two coefficients and one output, as constructed. -/
def twoKnotProblem : SplineProblem :=
  { mNumKnots := 2
    mNumSegments := 1
    mNumCoefficients := 2
    mNumOutputs := 1
    mDimension := 2
    mCoefficientMatrix := createCoefficientMatrix 2
    mRowIndex := 0
    mTimes := [0, 1]
    mA := fun _ _ => 0
    mB := fun _ _ => 0
    mSolution := fun _ _ _ => 0 }

/-- The same constant constraint registered `N = 2` times. -/
def repeatedConstraints : List Constraint :=
  [Constraint.constant 0 0 [1], Constraint.constant 0 0 [1]]

/-- The state of `twoKnotProblem` after the registration of `repeatedConstraints`:
both rows of `mA` are `1, 0`. -/
def repeatedRegistered : SplineProblem :=
  (registerAll twoKnotProblem repeatedConstraints).getD twoKnotProblem

/-- State `q` differs from state `p` only in the rows of `mA` and `mB` from the
cursor of `p` up to (not including) the cursor of `q`, and in the cursor. -/
structure OnlyRows (p q : SplineProblem) : Prop where
  rowIndex_le : p.mRowIndex ≤ q.mRowIndex
  rowsA : ∀ i, i < p.mRowIndex ∨ q.mRowIndex ≤ i → ∀ c, q.mA i c = p.mA i c
  rowsB : ∀ i, i < p.mRowIndex ∨ q.mRowIndex ≤ i → ∀ o, q.mB i o = p.mB i o
  times_eq : q.mTimes = p.mTimes
  coefficientMatrix_eq : q.mCoefficientMatrix = p.mCoefficientMatrix
  solution_eq : q.mSolution = p.mSolution
  numKnots_eq : q.mNumKnots = p.mNumKnots
  numSegments_eq : q.mNumSegments = p.mNumSegments
  numCoefficients_eq : q.mNumCoefficients = p.mNumCoefficients
  numOutputs_eq : q.mNumOutputs = p.mNumOutputs
  dimension_eq : q.mDimension = p.mDimension

/-- The first three rows of the line example: the cursor is one short of `N = 4`. -/
def lineThreeConstraints : List Constraint :=
  [Constraint.constant 0 0 [1], Constraint.continuity 1 0, Constraint.continuity 1 1]

/-- The state of `lineProblem` after the registration of `lineThreeConstraints`. -/
def lineThreeRows : SplineProblem :=
  (registerAll lineProblem lineThreeConstraints).getD lineProblem

/-! ## The functions on binary64 arguments

The definitions above read the source in exact arithmetic on numbers. The
definitions of this section keep two things that a `double` adds and that the
segment lookup and the coefficient-derivative matrix can see.

* A query time can be NaN: every comparison with NaN is false, every sum and
  product with NaN is NaN. The type `Double` adds NaN to the numbers; sums and
  products of numbers stay exact (their rounding is not modelled), so that on a
  number the functions of this section agree with the ones above.
* The entries of the coefficient-derivative matrix are whole numbers, and a
  product of whole numbers is rounded to the nearest binary64 value (53
  significant bits, ties to even, infinity on overflow): `roundToDouble`. -/

/-- A query time or an output value of the C++ type `double`: a (finite) number
or NaN. -/
inductive Double where
  | number (x : Scalar)
  | nan
  deriving DecidableEq

/-- The comparison `a <= b` of two doubles: false as soon as an operand is NaN. -/
def Double.le : Double → Double → Bool
  | Double.number a, Double.number b => decide (a ≤ b)
  | _, _ => false

/-- The comparison `a < b` of two doubles: false as soon as an operand is NaN. -/
def Double.lt : Double → Double → Bool
  | Double.number a, Double.number b => decide (a < b)
  | _, _ => false

/-- The sum of two doubles: NaN as soon as an operand is NaN. -/
def Double.add : Double → Double → Double
  | Double.number a, Double.number b => Double.number (a + b)
  | _, _ => Double.nan

/-- The product of two doubles: NaN as soon as an operand is NaN. -/
def Double.mul : Double → Double → Double
  | Double.number a, Double.number b => Double.number (a * b)
  | _, _ => Double.nan

/-- The power `std::pow(t, n)` for a whole exponent `n`: `pow(NaN, 0)` is `1`, every
other power of NaN is NaN. -/
def Double.pow : Double → Nat → Double
  | Double.number a, n => Double.number (a ^ n)
  | Double.nan, 0 => Double.number 1
  | Double.nan, _ + 1 => Double.nan

/-- The loop of `std::lower_bound` for a query time that may be NaN; the comparison
`*middle < value` is the comparison of doubles. -/
def lowerBoundLoopDouble (xs : List Scalar) (t : Double) : Nat → Nat → Nat → Nat
  | 0, first, _ => first
  | fuel + 1, first, len =>
    if len = 0 then first
    else
      let half := len / 2
      let middle := first + half
      if Double.lt (Double.number (xs.getD middle 0)) t then
        lowerBoundLoopDouble xs t fuel (middle + 1) (len - half - 1)
      else lowerBoundLoopDouble xs t fuel first half

/-- The position `std::lower_bound(xs.begin(), xs.end(), t) - xs.begin()` for a
query time that may be NaN. -/
def lower_boundDouble (xs : List Scalar) (t : Double) : Nat :=
  lowerBoundLoopDouble xs t xs.length 0 xs.length

/-- Member `getSegmentIndex(_t)` for a query time that may be NaN: the two guards
`_t <= mTimes[0]` and `_t >= mTimes[mNumKnots - 1]` and the binary search compare
doubles. -/
def getSegmentIndexDouble (p : SplineProblem) (_t : Double) : Option Index :=
  if p.mTimes.length = 0 then none
  else if Double.le _t (Double.number (p.mTimes.getD 0 0)) then some 0
  else if Double.le (Double.number (p.mTimes.getD (p.mNumKnots - 1) 0)) _t then
    some ((p.mNumSegments : ℤ) - 1)
  else some ((lower_boundDouble p.mTimes _t : ℤ) - 1)

/-- Member `createTimeVector(_t, _i)` for a time that may be NaN. -/
def createTimeVectorDouble (p : SplineProblem) (_t : Double) (_i : Index) (j : Nat) : Double :=
  if j < p.mNumCoefficients then
    if (j : ℤ) > _i then Double.pow _t ((j : ℤ) - _i).toNat
    else if (j : ℤ) = _i then Double.number 1
    else Double.number 0
  else Double.number 0

/-- The vector `evaluationVector` of `interpolate` for a time that may be NaN. -/
def evaluationVectorDouble (p : SplineProblem) (_t : Double) (_derivative : Index) (j : Nat) :
    Double :=
  Double.mul (Double.number (p.mCoefficientMatrix _derivative.toNat j))
    (createTimeVectorDouble p _t _derivative j)

/-- Eigen: `u.dot(v)` for two vectors of `n` doubles. -/
def dotDouble (n : Nat) (u v : Nat → Double) : Double :=
  (List.range n).foldl (fun acc j => Double.add acc (Double.mul (u j) (v j))) (Double.number 0)

/-- Member `interpolate(_t, _derivative)` for a query time that may be NaN; `none`
when the row of the derivative matrix or the segment looked up does not exist. -/
def interpolateDouble (p : SplineProblem) (_t : Double) (_derivative : Index) :
    Option (List Double) :=
  if 0 ≤ _derivative ∧ _derivative < (p.mNumCoefficients : ℤ) then
    match getSegmentIndexDouble p _t with
    | none => none
    | some segmentIndex =>
      if 0 ≤ segmentIndex ∧ segmentIndex < (p.mNumSegments : ℤ) then
        some ((List.range p.mNumOutputs).map fun ioutput =>
          dotDouble p.mNumCoefficients (evaluationVectorDouble p _t _derivative)
            (fun j => Double.number (p.mSolution segmentIndex.toNat ioutput j)))
      else none
  else none

/-- The number of low bits by which `n` exceeds 53 significant bits: the least `e`
with `n / 2^e < 2^53`, found by halving (`fuel` bounds the number of halvings). -/
def excessBits : Nat → Nat → Nat
  | 0, _ => 0
  | fuel + 1, n => if n < 2 ^ 53 then 0 else excessBits fuel (n / 2) + 1

/-- The binary64 value nearest to the whole number `n`, ties to even: the 53
leading bits are kept; `none` is the infinity that every `n` from
`2^1024 - 2^970` on rounds to. -/
def roundToDouble (n : Nat) : Option Nat :=
  if n < 2 ^ 53 then some n
  else
    let e := excessBits n n
    let q := n / 2 ^ e
    let r := n % 2 ^ e
    let half := 2 ^ (e - 1)
    let m := if r < half then q else if half < r then q + 1 else if q % 2 = 0 then q else q + 1
    if m * 2 ^ e < 2 ^ 1024 then some (m * 2 ^ e) else none

/-- The product `n * x` of a positive `Index` and a `double` holding a whole number
(or infinity, `none`): the index is converted to `double`, the product is rounded. -/
def mulIndexDouble (n : Nat) (x : Option Nat) : Option Nat :=
  match roundToDouble n, x with
  | some m, some y => roundToDouble (m * y)
  | _, _ => none

/-- Member `createCoefficientMatrix` as binary64 arithmetic builds it: row 0 is all
ones; entry `(i, j)` of a later row is the rounded product
`(j - i + 1) * coefficients(i - 1, j)` for `j ≥ i`; everything else stays zero. An
entry is a whole number, or infinity (`none`). -/
def createCoefficientMatrixDouble (numCoefficients : Nat) : Nat → Nat → Option Nat
  | 0, j => if j < numCoefficients then some 1 else some 0
  | i + 1, j =>
    if i + 1 ≤ j ∧ j < numCoefficients then
      mulIndexDouble ((j : ℤ) - ((i : ℤ) + 1) + 1).toNat
        (createCoefficientMatrixDouble numCoefficients i j)
    else some 0

/-- The line example after `fit` with the solver that returns the vector of ones:
both segments hold the line `1 + t`. -/
def lineFitted : SplineProblem :=
  (fit onesSolver lineRegistered).state

/-- A problem with the single knot time `5`, four coefficients and one output, as
constructed. -/
def singleKnotProblem : SplineProblem :=
  { mNumKnots := 1
    mNumSegments := 0
    mNumCoefficients := 4
    mNumOutputs := 1
    mDimension := 0
    mCoefficientMatrix := createCoefficientMatrix 4
    mRowIndex := 0
    mTimes := [5]
    mA := fun _ _ => 0
    mB := fun _ _ => 0
    mSolution := fun _ _ _ => 0 }

end Spline2

/-! # ConcreteRobot (src/robot/ConcreteRobot.cpp) -/

namespace ConcreteRobot

/-- A `TrajectoryPtr`: a shared pointer, either null (`none`) or pointing to a
trajectory. -/
abbrev TrajectoryPtr (Trajectory : Type) := Option Trajectory

/-- Member `ConcreteRobot::planToConfiguration`. The collision constraint, the
start and goal states and the planning problem built from the arguments are
summarised by `problem`, the member `plan` of the wrapped planner by `plan`; the
value returned depends on them only through `plan problem`. -/
def planToConfiguration {Problem Trajectory : Type} (plan : Problem → TrajectoryPtr Trajectory)
    (problem : Problem) : TrajectoryPtr Trajectory :=
  -- Call plan on the problem
  let trajectory := plan problem
  if trajectory.isNone then trajectory
  else none

end ConcreteRobot

namespace Spline2

/-! # Theorems -/

/-! ## The coefficient-derivative matrix and the evaluation vector -/

theorem createCoefficientMatrix_eq (n : Nat) : ∀ d j : Nat,
    createCoefficientMatrix n d j = if j < n then (Nat.descFactorial j d : Scalar) else 0
  | 0, j => by simp [createCoefficientMatrix]
  | i + 1, j => by
    rw [createCoefficientMatrix, createCoefficientMatrix_eq n i j]
    by_cases hj : j < n
    · by_cases hij : i + 1 ≤ j
      · have hcast : ((j : ℤ) - ((i : ℤ) + 1) + 1) = ((j - i : ℕ) : ℤ) := by omega
        rw [if_pos ⟨hij, hj⟩, if_pos hj, if_pos hj, hcast, Nat.descFactorial_succ]
        push_cast
        rfl
      · have hlt : j < i + 1 := by omega
        rw [if_neg (fun h => hij h.1), if_pos hj, Nat.descFactorial_of_lt hlt]
        simp
    · rw [if_neg (fun h => hj h.2), if_neg hj]

theorem createTimeVector_natCast (p : SplineProblem) (t : Scalar) (d j : Nat)
    (hj : j < p.mNumCoefficients) :
    createTimeVector p t (d : ℤ) j = if d ≤ j then t ^ (j - d) else 0 := by
  unfold createTimeVector
  rw [if_pos hj]
  by_cases h1 : (j : ℤ) > (d : ℤ)
  · have hdj : d ≤ j := by omega
    have hexp : ((j : ℤ) - (d : ℤ)).toNat = j - d := by omega
    rw [if_pos h1, if_pos hdj, hexp]
  · by_cases h2 : (j : ℤ) = (d : ℤ)
    · have hjd : j = d := by omega
      subst hjd
      simp
    · have hdj : ¬ d ≤ j := by omega
      rw [if_neg h1, if_neg h2, if_neg hdj]

theorem evaluationVector_eq (p : SplineProblem)
    (hM : p.mCoefficientMatrix = createCoefficientMatrix p.mNumCoefficients)
    (t : Scalar) (d j : Nat) (hj : j < p.mNumCoefficients) :
    evaluationVector p t (d : ℤ) j = derivativeWeights t d j := by
  unfold evaluationVector derivativeWeights
  rw [createTimeVector_natCast p t d j hj, hM, Int.toNat_ofNat, createCoefficientMatrix_eq,
    if_pos hj]
  by_cases hdj : d ≤ j
  · rw [if_pos hdj, if_pos hdj]
  · rw [if_neg hdj, if_neg hdj, mul_zero]

theorem coeffVector_eq (p : SplineProblem)
    (hM : p.mCoefficientMatrix = createCoefficientMatrix p.mNumCoefficients)
    (k : ℤ) (d j : Nat) (hj : j < p.mNumCoefficients) :
    coeffVector p k (d : ℤ) j = derivativeWeights (p.mTimes.getD k.toNat 0) d j :=
  evaluationVector_eq p hM (p.mTimes.getD k.toNat 0) d j hj

/-- The sum `∑ c_j * factor(d, j) * t^(j - d)` is the value at `t` of the `d`-th
derivative of the polynomial `∑ c_j x^j`. -/
theorem derivativeWeights_sum_eq_eval (c : Nat → Scalar) (n d : Nat) (t : Scalar) :
    ∑ j in Finset.range n, derivativeWeights t d j * c j =
      Polynomial.eval t (Polynomial.derivative^[d]
        (∑ j in Finset.range n, Polynomial.C (c j) * Polynomial.X ^ j)) := by
  rw [Polynomial.iterate_derivative_sum, Polynomial.eval_finset_sum]
  refine Finset.sum_congr rfl (fun j _ => ?_)
  rw [Polynomial.iterate_derivative_C_mul, Polynomial.iterate_derivative_X_pow_eq_natCast_mul]
  unfold derivativeWeights
  by_cases hdj : d ≤ j
  · rw [if_pos hdj]
    simp
    ring
  · rw [if_neg hdj, Nat.descFactorial_of_lt (by omega)]
    simp

/-! ## Sorted knot times and the binary search -/

theorem is_sorted_iff_chain (xs : List Scalar) :
    is_sorted xs = true ↔ List.Chain' (· ≤ ·) xs := by
  induction xs with
  | nil => simp [is_sorted]
  | cons a tl ih =>
    cases tl with
    | nil => simp [is_sorted]
    | cons b rest =>
      rw [is_sorted, List.chain'_cons, Bool.and_eq_true, ih]
      simp

theorem is_sorted_iff_sorted (xs : List Scalar) :
    is_sorted xs = true ↔ List.Sorted (· ≤ ·) xs := by
  rw [is_sorted_iff_chain]
  exact List.chain'_iff_pairwise

theorem is_sorted_of_strict (xs : List Scalar) (h : List.Sorted (· < ·) xs) :
    is_sorted xs = true :=
  (is_sorted_iff_sorted xs).2 (List.Pairwise.imp (fun hab => le_of_lt hab) h)

theorem getD_mono (xs : List Scalar) (h : is_sorted xs = true) (i j : Nat) (hij : i ≤ j)
    (hj : j < xs.length) : xs.getD i 0 ≤ xs.getD j 0 := by
  have hs := (is_sorted_iff_sorted xs).1 h
  have hi : i < xs.length := lt_of_le_of_lt hij hj
  rw [List.getD_eq_getElem xs 0 hj, List.getD_eq_getElem xs 0 hi]
  exact hs.rel_get_of_le (a := ⟨i, hi⟩) (b := ⟨j, hj⟩) (Fin.mk_le_mk.2 hij)

theorem getD_strictMono (xs : List Scalar) (h : List.Sorted (· < ·) xs) (i j : Nat)
    (hij : i < j) (hj : j < xs.length) : xs.getD i 0 < xs.getD j 0 := by
  have hi : i < xs.length := lt_trans hij hj
  rw [List.getD_eq_getElem xs 0 hj, List.getD_eq_getElem xs 0 hi]
  exact h.rel_get_of_lt (a := ⟨i, hi⟩) (b := ⟨j, hj⟩) (Fin.mk_lt_mk.2 hij)

theorem lowerBoundLoop_spec (xs : List Scalar) (t : Scalar) (hs : is_sorted xs = true) :
    ∀ fuel first len : Nat, len ≤ fuel → first + len ≤ xs.length →
      (∀ j, j < first → xs.getD j 0 < t) →
      (∀ j, first + len ≤ j → j < xs.length → t ≤ xs.getD j 0) →
      first ≤ lowerBoundLoop xs t fuel first len ∧
      lowerBoundLoop xs t fuel first len ≤ first + len ∧
      (∀ j, j < lowerBoundLoop xs t fuel first len → xs.getD j 0 < t) ∧
      (∀ j, lowerBoundLoop xs t fuel first len ≤ j → j < xs.length → t ≤ xs.getD j 0) := by
  intro fuel
  induction fuel with
  | zero =>
    intro first len hlen hbound hlow hhigh
    have h0 : len = 0 := by omega
    subst h0
    exact ⟨le_refl _, le_refl _, hlow, hhigh⟩
  | succ fuel ih =>
    intro first len hlen hbound hlow hhigh
    rw [lowerBoundLoop]
    by_cases h0 : len = 0
    · subst h0
      rw [if_pos rfl]
      exact ⟨le_refl _, le_refl _, hlow, hhigh⟩
    · rw [if_neg h0]
      have hhalf : len / 2 < len := Nat.div_lt_self (Nat.pos_of_ne_zero h0) (by decide)
      by_cases hmid : xs.getD (first + len / 2) 0 < t
      · simp only [if_pos hmid]
        have hrec := ih (first + len / 2 + 1) (len - len / 2 - 1) (by omega) (by omega)
          (fun j hj => lt_of_le_of_lt
            (getD_mono xs hs j (first + len / 2) (by omega) (by omega)) hmid)
          (fun j hj hjl => hhigh j (by omega) hjl)
        refine ⟨by omega, by omega, hrec.2.2.1, hrec.2.2.2⟩
      · simp only [if_neg hmid]
        have hrec := ih first (len / 2) (by omega) (by omega) hlow
          (fun j hj hjl => le_trans (not_lt.1 hmid)
            (getD_mono xs hs (first + len / 2) j hj hjl))
        refine ⟨hrec.1, by omega, hrec.2.2.1, hrec.2.2.2⟩

theorem lower_bound_spec (xs : List Scalar) (t : Scalar) (hs : is_sorted xs = true) :
    lower_bound xs t ≤ xs.length ∧
    (∀ j, j < lower_bound xs t → xs.getD j 0 < t) ∧
    (∀ j, lower_bound xs t ≤ j → j < xs.length → t ≤ xs.getD j 0) := by
  have h := lowerBoundLoop_spec xs t hs xs.length 0 xs.length (le_refl _) (by omega)
    (fun j hj => absurd hj (Nat.not_lt_zero j)) (fun j hj hjl => by omega)
  unfold lower_bound
  exact ⟨by omega, h.2.2.1, h.2.2.2⟩

/-! ## The invariant of reachable states -/

theorem setBlock_of_ne (m : Nat → Nat → Scalar) (row col n : Nat) (v : Nat → Scalar)
    (i c : Nat) (h : i ≠ row) : setBlock m row col n v i c = m i c := by
  unfold setBlock
  rw [if_neg (fun hc => h hc.1)]

theorem setRow_of_ne (m : Nat → Nat → Scalar) (row n : Nat) (v : Nat → Scalar)
    (i c : Nat) (h : i ≠ row) : setRow m row n v i c = m i c := by
  unfold setRow
  rw [if_neg (fun hc => h hc.1)]

theorem new_eq_some (times : List Scalar) (C D : Nat) (p : SplineProblem)
    (h : SplineProblem.new times C D = some p) :
    is_sorted times = true ∧
    p = { mNumKnots := times.length
          mNumSegments := times.length - 1
          mNumCoefficients := C
          mNumOutputs := D
          mDimension := (times.length - 1) * C
          mCoefficientMatrix := createCoefficientMatrix C
          mRowIndex := 0
          mTimes := times
          mA := fun _ _ => 0
          mB := fun _ _ => 0
          mSolution := fun _ _ _ => 0 } := by
  unfold SplineProblem.new at h
  have hseg : (max ((times.length : ℤ) - 1) 0).toNat = times.length - 1 := by omega
  by_cases hs : is_sorted times = true
  · simp only [hs, if_true, Option.some.injEq, hseg] at h
    exact ⟨hs, h.symm⟩
  · simp [hs] at h

theorem new_inv (times : List Scalar) (C D : Nat) (p : SplineProblem)
    (h : SplineProblem.new times C D = some p) : Inv times C D p := by
  obtain ⟨hs, rfl⟩ := new_eq_some times C D p h
  exact
    { numKnots := rfl, times_eq := rfl, numSegments := rfl, numCoefficients_eq := rfl,
      numOutputs_eq := rfl, dimension := rfl, coefficientMatrix := rfl, sorted := hs,
      rowIndex_le := Nat.zero_le _, clearA := fun _ _ _ => rfl, clearB := fun _ _ _ => rfl }

theorem writeConstantRow_of_lt (p : SplineProblem) (segment : Nat) (v : Nat → Scalar)
    (value : List Scalar) (hr : p.mRowIndex < p.mDimension) :
    writeConstantRow p segment v value =
      { state :=
          { p with
            mA := setBlock p.mA p.mRowIndex (segment * p.mNumCoefficients) p.mNumCoefficients v
            mB := setRow p.mB p.mRowIndex p.mNumOutputs (fun o => value.getD o 0)
            mRowIndex := p.mRowIndex + 1 }
        violation := none } :=
  if_pos hr

theorem writeConstantRow_of_not_lt (p : SplineProblem) (segment : Nat) (v : Nat → Scalar)
    (value : List Scalar) (hr : ¬ p.mRowIndex < p.mDimension) :
    writeConstantRow p segment v value = { state := p, violation := some Violation.rowOverflow } :=
  if_neg hr

theorem writeConstantRow_inv (times : List Scalar) (C D : Nat) (p : SplineProblem)
    (segment : Nat) (v : Nat → Scalar) (value : List Scalar) (h : Inv times C D p) :
    Inv times C D (writeConstantRow p segment v value).state := by
  by_cases hr : p.mRowIndex < p.mDimension
  · rw [writeConstantRow_of_lt p segment v value hr]
    refine
      { numKnots := h.numKnots, times_eq := h.times_eq, numSegments := h.numSegments,
        numCoefficients_eq := h.numCoefficients_eq, numOutputs_eq := h.numOutputs_eq,
        dimension := h.dimension, coefficientMatrix := h.coefficientMatrix, sorted := h.sorted,
        rowIndex_le := hr, clearA := ?_, clearB := ?_ }
    · intro i hi c
      dsimp only at hi ⊢
      rw [setBlock_of_ne _ _ _ _ _ _ _ (by omega)]
      exact h.clearA i (by omega) c
    · intro i hi o
      dsimp only at hi ⊢
      rw [setRow_of_ne _ _ _ _ _ _ (by omega)]
      exact h.clearB i (by omega) o
  · rw [writeConstantRow_of_not_lt p segment v value hr]
    exact h

theorem addConstantConstraint_inv (times : List Scalar) (C D : Nat) (p : SplineProblem)
    (k d : ℤ) (value : List Scalar) (h : Inv times C D p) :
    Inv times C D (addConstantConstraint p k d value).state := by
  unfold addConstantConstraint
  by_cases h1 : 0 ≤ k ∧ k < (p.mNumKnots : ℤ)
  swap
  · rw [if_neg h1]
    exact h
  by_cases h2 : 0 ≤ d ∧ d < (p.mNumCoefficients : ℤ)
  swap
  · rw [if_pos h1, if_neg h2]
    exact h
  by_cases h3 : value.length = p.mNumOutputs
  swap
  · rw [if_pos h1, if_pos h2, if_neg h3]
    exact h
  rw [if_pos h1, if_pos h2, if_pos h3]
  dsimp only
  have hb : Inv times C D
      (if k > 0 then writeConstantRow p (k - 1).toNat (coeffVector p k d) value
        else { state := p, violation := none }).state := by
    by_cases hk : k > 0
    · rw [if_pos hk]
      exact writeConstantRow_inv times C D p _ _ _ h
    · rw [if_neg hk]
      exact h
  split_ifs
  all_goals first
    | exact hb
    | exact writeConstantRow_inv times C D _ _ _ _ hb
    | exact writeConstantRow_inv times C D _ _ _ _ (writeConstantRow_inv times C D p _ _ _ h)
    | exact writeConstantRow_inv times C D p _ _ _ h
    | exact h

theorem addContinuityConstraint_inv (times : List Scalar) (C D : Nat) (p : SplineProblem)
    (k d : ℤ) (h : Inv times C D p) :
    Inv times C D (addContinuityConstraint p k d).state := by
  unfold addContinuityConstraint
  by_cases h1 : 0 ≤ k ∧ k < (p.mNumKnots : ℤ)
  swap
  · rw [if_neg h1]
    exact h
  by_cases h2 : k ≠ 0 ∧ k + 1 ≠ (p.mNumKnots : ℤ)
  swap
  · rw [if_pos h1, if_neg h2]
    exact h
  by_cases h3 : 0 ≤ d ∧ d < (p.mNumCoefficients : ℤ)
  swap
  · rw [if_pos h1, if_pos h2, if_neg h3]
    exact h
  by_cases hr : p.mRowIndex < p.mDimension
  swap
  · rw [if_pos h1, if_pos h2, if_pos h3, if_neg hr]
    exact h
  rw [if_pos h1, if_pos h2, if_pos h3, if_pos hr]
  refine
    { numKnots := h.numKnots, times_eq := h.times_eq, numSegments := h.numSegments,
      numCoefficients_eq := h.numCoefficients_eq, numOutputs_eq := h.numOutputs_eq,
      dimension := h.dimension, coefficientMatrix := h.coefficientMatrix, sorted := h.sorted,
      rowIndex_le := hr, clearA := ?_, clearB := ?_ }
  · intro i hi c
    dsimp only at hi ⊢
    rw [setBlock_of_ne _ _ _ _ _ _ _ (by omega), setBlock_of_ne _ _ _ _ _ _ _ (by omega)]
    exact h.clearA i (by omega) c
  · intro i hi o
    dsimp only at hi ⊢
    rw [setRow_of_ne _ _ _ _ _ _ (by omega)]
    exact h.clearB i (by omega) o

theorem fit_inv (solver : Solver) (times : List Scalar) (C D : Nat) (p : SplineProblem)
    (h : Inv times C D p) : Inv times C D (fit solver p).state := by
  unfold fit
  by_cases hr : p.mRowIndex = p.mDimension
  · rw [if_pos hr]
    exact
      { numKnots := h.numKnots, times_eq := h.times_eq, numSegments := h.numSegments,
        numCoefficients_eq := h.numCoefficients_eq, numOutputs_eq := h.numOutputs_eq,
        dimension := h.dimension, coefficientMatrix := h.coefficientMatrix, sorted := h.sorted,
        rowIndex_le := h.rowIndex_le, clearA := h.clearA, clearB := h.clearB }
  · rw [if_neg hr]
    exact h

theorem register_inv (times : List Scalar) (C D : Nat) (p : SplineProblem) (c : Constraint)
    (h : Inv times C D p) : Inv times C D (c.register p).state := by
  cases c with
  | constant k d v => exact addConstantConstraint_inv times C D p k d v h
  | continuity k d => exact addContinuityConstraint_inv times C D p k d h

theorem reachable_inv (solver : Solver) (times : List Scalar) (C D : Nat) (p : SplineProblem)
    (h : Reachable solver times C D p) : Inv times C D p := by
  induction h with
  | new h0 => exact new_inv times C D _ h0
  | call c _ ih =>
    cases c with
    | register c => exact register_inv times C D _ c ih
    | fit => exact fit_inv solver times C D _ ih

/-! ## Segment lookup -/

theorem getSegmentIndex_of_le_first (times : List Scalar) (C D : Nat) (p : SplineProblem)
    (h : Inv times C D p) (hK : 1 ≤ times.length) (t : Scalar) (ht : t ≤ times.getD 0 0) :
    getSegmentIndex p t = some 0 := by
  unfold getSegmentIndex
  rw [h.times_eq, if_neg (by omega), if_pos ht]

theorem getSegmentIndex_of_ge_last (times : List Scalar) (C D : Nat) (p : SplineProblem)
    (h : Inv times C D p) (hK : 1 ≤ times.length) (t : Scalar) (ht0 : times.getD 0 0 < t)
    (ht : times.getD (times.length - 1) 0 ≤ t) :
    getSegmentIndex p t = some ((times.length : ℤ) - 2) := by
  unfold getSegmentIndex
  rw [h.times_eq, h.numKnots, h.numSegments, if_neg (by omega), if_neg (not_le.2 ht0), if_pos ht]
  congr 1
  show (_ : ℤ) = _
  omega

theorem getSegmentIndex_interior (times : List Scalar) (C D : Nat) (p : SplineProblem)
    (h : Inv times C D p) (t : Scalar) (ht0 : times.getD 0 0 < t)
    (ht : t < times.getD (times.length - 1) 0) :
    ∃ i : Nat, getSegmentIndex p t = some (i : ℤ) ∧ i + 1 < times.length ∧
      lower_bound times t = i + 1 ∧ times.getD i 0 < t ∧ t ≤ times.getD (i + 1) 0 := by
  have hlen : 1 ≤ times.length := by
    by_contra hc
    have h0 : times.length = 0 := by omega
    rw [h0] at ht
    exact absurd (lt_trans ht0 ht) (lt_irrefl _)
  obtain ⟨hle, hlow, hhigh⟩ := lower_bound_spec times t h.sorted
  have hpos : 1 ≤ lower_bound times t := by
    by_contra hc
    have hz : lower_bound times t = 0 := by omega
    exact absurd (hhigh 0 (by omega) (by omega)) (not_le.2 ht0)
  have hlt : lower_bound times t < times.length := by
    by_contra hc
    have hz : lower_bound times t = times.length := by omega
    exact absurd (hlow (times.length - 1) (by omega)) (not_lt.2 (le_of_lt ht))
  refine ⟨lower_bound times t - 1, ?_, by omega, by omega, hlow _ (by omega), ?_⟩
  · unfold getSegmentIndex
    rw [h.times_eq, h.numKnots, if_neg (by omega), if_neg (not_le.2 ht0),
      if_neg (not_le.2 ht)]
    congr 1
    show (_ : ℤ) = _
    omega
  · have hidx : lower_bound times t - 1 + 1 = lower_bound times t := by omega
    rw [hidx]
    exact hhigh _ (le_refl _) hlt

theorem getSegmentIndex_in_range (times : List Scalar) (C D : Nat) (p : SplineProblem)
    (h : Inv times C D p) (hK : 2 ≤ times.length) (t : Scalar) :
    ∃ i : Nat, getSegmentIndex p t = some (i : ℤ) ∧ i < p.mNumSegments := by
  rw [h.numSegments]
  by_cases ht0 : t ≤ times.getD 0 0
  · exact ⟨0, getSegmentIndex_of_le_first times C D p h (by omega) t ht0, by omega⟩
  · by_cases ht : times.getD (times.length - 1) 0 ≤ t
    · refine ⟨times.length - 2, ?_, by omega⟩
      rw [getSegmentIndex_of_ge_last times C D p h (by omega) t (not_le.1 ht0) ht]
      congr 1
      show (_ : ℤ) = _
      omega
    · obtain ⟨i, hi, hlt, _⟩ :=
        getSegmentIndex_interior times C D p h t (not_le.1 ht0) (not_le.1 ht)
      exact ⟨i, hi, by omega⟩

/-- The segment that `getSegmentIndex` returns at the time of knot `k`: segment
`k - 1` for every knot but the first, segment `0` for the first. -/
theorem getSegmentIndex_at_knot (times : List Scalar) (C D : Nat) (p : SplineProblem)
    (h : Inv times C D p) (hstrict : List.Sorted (· < ·) times) (hK : 2 ≤ times.length)
    (k : Nat) (hk : k < times.length) :
    getSegmentIndex p (times.getD k 0) = some (((k - 1 : ℕ) : ℤ)) := by
  by_cases hk0 : k = 0
  · subst hk0
    exact getSegmentIndex_of_le_first times C D p h (by omega) _ (le_refl _)
  · have hfirst : times.getD 0 0 < times.getD k 0 :=
      getD_strictMono times hstrict 0 k (by omega) hk
    by_cases hlast : k = times.length - 1
    · rw [getSegmentIndex_of_ge_last times C D p h (by omega) _ hfirst (by rw [hlast])]
      congr 1
      show (_ : ℤ) = _
      omega
    · have hklt : k < times.length - 1 := by omega
      obtain ⟨i, hi, hlt, _, hlow, hhigh⟩ := getSegmentIndex_interior times C D p h _ hfirst
        (getD_strictMono times hstrict k (times.length - 1) hklt (by omega))
      have h1 : i < k := by
        by_contra hc
        have hki : k ≤ i := by omega
        exact absurd (getD_mono times h.sorted k i hki (by omega)) (not_le.2 hlow)
      have h2 : k ≤ i + 1 := by
        by_contra hc
        have hik : i + 1 < k := by omega
        exact absurd (getD_strictMono times hstrict (i + 1) k hik hk) (not_lt.2 hhigh)
      rw [hi]
      congr 2
      omega

/-! ## What a successful registration does -/

theorem addConstantConstraint_of_valid (p : SplineProblem) (k d : ℤ) (value : List Scalar)
    (h1 : 0 ≤ k ∧ k < (p.mNumKnots : ℤ)) (h2 : 0 ≤ d ∧ d < (p.mNumCoefficients : ℤ))
    (h3 : value.length = p.mNumOutputs) :
    addConstantConstraint p k d value =
      if (if k > 0 then writeConstantRow p (k - 1).toNat (coeffVector p k d) value
          else { state := p, violation := none }).violation = none then
        if k + 1 < ((if k > 0 then writeConstantRow p (k - 1).toNat (coeffVector p k d) value
          else { state := p, violation := none }).state.mNumKnots : ℤ) then
          writeConstantRow (if k > 0 then writeConstantRow p (k - 1).toNat (coeffVector p k d) value
            else { state := p, violation := none }).state k.toNat (coeffVector p k d) value
        else (if k > 0 then writeConstantRow p (k - 1).toNat (coeffVector p k d) value
          else { state := p, violation := none })
      else (if k > 0 then writeConstantRow p (k - 1).toNat (coeffVector p k d) value
          else { state := p, violation := none }) := by
  unfold addConstantConstraint
  rw [if_pos h1, if_pos h2, if_pos h3]

theorem addConstantConstraint_args_of_ok (p : SplineProblem) (k d : ℤ) (value : List Scalar)
    (h : (addConstantConstraint p k d value).violation = none) :
    (0 ≤ k ∧ k < (p.mNumKnots : ℤ)) ∧ (0 ≤ d ∧ d < (p.mNumCoefficients : ℤ)) ∧
      value.length = p.mNumOutputs := by
  unfold addConstantConstraint at h
  by_cases h1 : 0 ≤ k ∧ k < (p.mNumKnots : ℤ)
  swap
  · rw [if_neg h1] at h
    exact absurd h (by simp)
  by_cases h2 : 0 ≤ d ∧ d < (p.mNumCoefficients : ℤ)
  swap
  · rw [if_pos h1, if_neg h2] at h
    exact absurd h (by simp)
  by_cases h3 : value.length = p.mNumOutputs
  swap
  · rw [if_pos h1, if_pos h2, if_neg h3] at h
    exact absurd h (by simp)
  exact ⟨h1, h2, h3⟩

/-- The state after one row has been written. -/
theorem writeConstantRow_state_of_ok (p : SplineProblem) (segment : Nat) (v : Nat → Scalar)
    (value : List Scalar) (h : (writeConstantRow p segment v value).violation = none) :
    p.mRowIndex < p.mDimension ∧
    (writeConstantRow p segment v value).state =
      { p with
        mA := setBlock p.mA p.mRowIndex (segment * p.mNumCoefficients) p.mNumCoefficients v
        mB := setRow p.mB p.mRowIndex p.mNumOutputs (fun o => value.getD o 0)
        mRowIndex := p.mRowIndex + 1 } := by
  by_cases hr : p.mRowIndex < p.mDimension
  · rw [writeConstantRow_of_lt p segment v value hr]
    exact ⟨hr, rfl⟩
  · rw [writeConstantRow_of_not_lt p segment v value hr] at h
    exact absurd h (by simp)

theorem addConstantConstraint_first (p : SplineProblem) (k d : ℤ) (value : List Scalar)
    (h : (addConstantConstraint p k d value).violation = none) (hk : k = 0)
    (hK : 2 ≤ p.mNumKnots) :
    p.mRowIndex < p.mDimension ∧
    (addConstantConstraint p k d value).state =
      { p with
        mA := setBlock p.mA p.mRowIndex (0 * p.mNumCoefficients) p.mNumCoefficients
          (coeffVector p k d)
        mB := setRow p.mB p.mRowIndex p.mNumOutputs (fun o => value.getD o 0)
        mRowIndex := p.mRowIndex + 1 } := by
  obtain ⟨h1, h2, h3⟩ := addConstantConstraint_args_of_ok p k d value h
  rw [addConstantConstraint_of_valid p k d value h1 h2 h3] at h ⊢
  have hk0 : ¬ k > 0 := by omega
  have hk1 : k + 1 < (p.mNumKnots : ℤ) := by omega
  have hz : k.toNat = 0 := by omega
  simp only [if_neg hk0, if_true, if_pos hk1, hz] at h ⊢
  exact writeConstantRow_state_of_ok p 0 _ value h

theorem addConstantConstraint_last (p : SplineProblem) (k d : ℤ) (value : List Scalar)
    (h : (addConstantConstraint p k d value).violation = none)
    (hk : k + 1 = (p.mNumKnots : ℤ)) (hK : 2 ≤ p.mNumKnots) :
    p.mRowIndex < p.mDimension ∧
    (addConstantConstraint p k d value).state =
      { p with
        mA := setBlock p.mA p.mRowIndex ((k - 1).toNat * p.mNumCoefficients) p.mNumCoefficients
          (coeffVector p k d)
        mB := setRow p.mB p.mRowIndex p.mNumOutputs (fun o => value.getD o 0)
        mRowIndex := p.mRowIndex + 1 } := by
  obtain ⟨h1, h2, h3⟩ := addConstantConstraint_args_of_ok p k d value h
  rw [addConstantConstraint_of_valid p k d value h1 h2 h3] at h ⊢
  have hk0 : k > 0 := by omega
  rw [if_pos hk0] at h ⊢
  by_cases hr : p.mRowIndex < p.mDimension
  · rw [writeConstantRow_of_lt p _ _ value hr] at h ⊢
    have hk1 : ¬ k + 1 < (p.mNumKnots : ℤ) := by omega
    simp only [if_true, if_neg hk1] at h ⊢
    exact ⟨hr, trivial⟩
  · rw [writeConstantRow_of_not_lt p _ _ value hr] at h
    simp at h

theorem addConstantConstraint_interior (p : SplineProblem) (k d : ℤ) (value : List Scalar)
    (h : (addConstantConstraint p k d value).violation = none)
    (hk0 : 0 < k) (hk1 : k + 1 < (p.mNumKnots : ℤ)) :
    p.mRowIndex + 1 < p.mDimension ∧
    (addConstantConstraint p k d value).state =
      { p with
        mA := setBlock
          (setBlock p.mA p.mRowIndex ((k - 1).toNat * p.mNumCoefficients) p.mNumCoefficients
            (coeffVector p k d))
          (p.mRowIndex + 1) (k.toNat * p.mNumCoefficients) p.mNumCoefficients (coeffVector p k d)
        mB := setRow (setRow p.mB p.mRowIndex p.mNumOutputs (fun o => value.getD o 0))
          (p.mRowIndex + 1) p.mNumOutputs (fun o => value.getD o 0)
        mRowIndex := p.mRowIndex + 1 + 1 } := by
  obtain ⟨h1, h2, h3⟩ := addConstantConstraint_args_of_ok p k d value h
  rw [addConstantConstraint_of_valid p k d value h1 h2 h3] at h ⊢
  rw [if_pos hk0] at h ⊢
  by_cases hr : p.mRowIndex < p.mDimension
  · rw [writeConstantRow_of_lt p _ _ value hr] at h ⊢
    simp only [if_true, if_pos hk1] at h ⊢
    obtain ⟨hr2, hst⟩ := writeConstantRow_state_of_ok _ _ _ value h
    exact ⟨hr2, hst⟩
  · rw [writeConstantRow_of_not_lt p _ _ value hr] at h
    simp at h

theorem addContinuityConstraint_of_ok (p : SplineProblem) (k d : ℤ)
    (h : (addContinuityConstraint p k d).violation = none) :
    (0 < k ∧ k + 1 < (p.mNumKnots : ℤ)) ∧ (0 ≤ d ∧ d < (p.mNumCoefficients : ℤ)) ∧
    p.mRowIndex < p.mDimension ∧
    (addContinuityConstraint p k d).state =
      { p with
        mA := setBlock
          (setBlock p.mA p.mRowIndex ((k - 1).toNat * p.mNumCoefficients) p.mNumCoefficients
            (coeffVector p k d))
          p.mRowIndex (k.toNat * p.mNumCoefficients) p.mNumCoefficients
          (fun j => - coeffVector p k d j)
        mB := setRow p.mB p.mRowIndex p.mNumOutputs (fun _ => 0)
        mRowIndex := p.mRowIndex + 1 } := by
  unfold addContinuityConstraint at h ⊢
  by_cases h1 : 0 ≤ k ∧ k < (p.mNumKnots : ℤ)
  swap
  · rw [if_neg h1] at h
    exact absurd h (by simp)
  by_cases h2 : k ≠ 0 ∧ k + 1 ≠ (p.mNumKnots : ℤ)
  swap
  · rw [if_pos h1, if_neg h2] at h
    exact absurd h (by simp)
  by_cases h3 : 0 ≤ d ∧ d < (p.mNumCoefficients : ℤ)
  swap
  · rw [if_pos h1, if_pos h2, if_neg h3] at h
    exact absurd h (by simp)
  by_cases hr : p.mRowIndex < p.mDimension
  swap
  · rw [if_pos h1, if_pos h2, if_pos h3, if_neg hr] at h
    exact absurd h (by simp)
  rw [if_pos h1, if_pos h2, if_pos h3, if_pos hr]
  exact ⟨⟨by omega, by omega⟩, h3, hr, rfl⟩

/-! ## Entries of a written block -/

theorem setBlock_hit (m : Nat → Nat → Scalar) (row col n : Nat) (v : Nat → Scalar) (j : Nat)
    (hj : j < n) : setBlock m row col n v row (col + j) = v j := by
  unfold setBlock
  rw [if_pos ⟨rfl, by omega, by omega⟩, Nat.add_sub_cancel_left]

theorem setBlock_miss (m : Nat → Nat → Scalar) (row col n : Nat) (v : Nat → Scalar) (i c : Nat)
    (hc : c < col ∨ col + n ≤ c) : setBlock m row col n v i c = m i c := by
  unfold setBlock
  rw [if_neg (by omega)]

theorem setRow_hit (m : Nat → Nat → Scalar) (row n : Nat) (v : Nat → Scalar) (o : Nat)
    (ho : o < n) : setRow m row n v row o = v o := by
  unfold setRow
  rw [if_pos ⟨rfl, ho⟩]

theorem toNat_pred_mul_add (k : ℤ) (hk : 0 < k) (C : Nat) :
    (k - 1).toNat * C + C = k.toNat * C := by
  have hs : k.toNat = (k - 1).toNat + 1 := by omega
  rw [hs, Nat.add_mul, Nat.one_mul]

theorem new_mainProblem : SplineProblem.new [0, 1, 3] 4 2 = some mainProblem := by
  rfl

theorem reachable_mainProblem (solver : Solver) : Reachable solver [0, 1, 3] 4 2 mainProblem :=
  Reachable.new new_mainProblem

/-! ## The claims about segment lookup and evaluation -/

theorem interpolate_of_segment (times : List Scalar) (C D : Nat) (p : SplineProblem)
    (h : Inv times C D p) (t : Scalar) (d : Nat) (hd : d < C) (seg : Nat)
    (hseg : getSegmentIndex p t = some (seg : ℤ)) (hlt : seg < times.length - 1) :
    interpolate p t (d : ℤ) =
      some ((List.range D).map fun o =>
        ∑ j in Finset.range C, derivativeWeights t d j * p.mSolution seg o j) := by
  have hdC : 0 ≤ (d : ℤ) ∧ (d : ℤ) < (p.mNumCoefficients : ℤ) := by
    rw [h.numCoefficients_eq]
    omega
  have hsegS : 0 ≤ (seg : ℤ) ∧ (seg : ℤ) < (p.mNumSegments : ℤ) := by
    rw [h.numSegments]
    omega
  unfold interpolate
  rw [if_pos hdC, hseg]
  dsimp only
  rw [if_pos hsegS, h.numOutputs_eq, h.numCoefficients_eq, Int.toNat_ofNat]
  congr 1
  refine List.map_congr_left (fun o _ => Finset.sum_congr rfl (fun j hj => ?_))
  rw [evaluationVector_eq p (by rw [h.coefficientMatrix, h.numCoefficients_eq]) t d j
    (by rw [h.numCoefficients_eq]; exact Finset.mem_range.1 hj)]

theorem getD_map_range (D : Nat) (f : Nat → Scalar) (o : Nat) (ho : o < D) :
    ((List.range D).map f).getD o 0 = f o := by
  rw [List.getD_eq_getElem _ 0 (by rw [List.length_map, List.length_range]; exact ho),
    List.getElem_map, List.getElem_range]

/-- C4 (as stated) fails: in the problem of `main` the knot times `0, 1, 3` are
strictly increasing and `t = 1` is the interior knot `time[1]`, strictly between
the first and the last knot; the last knot `≤ t` is knot `1`, yet
`getSegmentIndex(1)` returns `0`. -/
theorem C4_counterexample :
    SplineProblem.new [0, 1, 3] 4 2 = some mainProblem ∧
    List.Sorted (· < ·) ([0, 1, 3] : List Scalar) ∧
    mainProblem.mTimes.getD 0 0 < 1 ∧ (1 : Scalar) < mainProblem.mTimes.getD 2 0 ∧
    mainProblem.mTimes.getD 1 0 = 1 ∧
    getSegmentIndex mainProblem 1 = some 0 ∧
    getSegmentIndex mainProblem 1 ≠ some 1 := by
  refine ⟨rfl, by decide, by decide, by decide, rfl, by decide, by decide⟩

/-- C4 (amended): for strictly increasing knot times with `K ≥ 2` and every `t` with
`time[0] < t < time[K-1]`, `getSegmentIndex(t)` returns the index `i` of the last
knot that is strictly less than `t`, so `time[i] < t ≤ time[i+1]`; in particular
for `t` equal to an interior knot `time[i]` it returns `i - 1`, so that segment `i`
owns the half-open interval `(time[i], time[i+1]]`. -/
theorem C4_getSegmentIndex_last_knot_below (solver : Solver) (times : List Scalar)
    (C D : Nat) (p : SplineProblem) (hreach : Reachable solver times C D p)
    (hstrict : List.Sorted (· < ·) times) (hK : 2 ≤ times.length) :
    (∀ t, times.getD 0 0 < t → t < times.getD (times.length - 1) 0 →
      ∃ i : Nat, getSegmentIndex p t = some (i : ℤ) ∧ i + 1 < times.length ∧
        times.getD i 0 < t ∧ t ≤ times.getD (i + 1) 0 ∧
        ∀ j, j < times.length → (times.getD j 0 < t ↔ j ≤ i)) ∧
    (∀ i : Nat, 0 < i → i + 1 < times.length →
      getSegmentIndex p (times.getD i 0) = some ((i : ℤ) - 1)) := by
  have hinv := reachable_inv solver times C D p hreach
  constructor
  · intro t ht0 ht
    obtain ⟨i, hi, hlt, _, hlow, hhigh⟩ := getSegmentIndex_interior times C D p hinv t ht0 ht
    refine ⟨i, hi, hlt, hlow, hhigh, fun j hj => ⟨fun hjt => ?_, fun hji => ?_⟩⟩
    · by_contra hc
      have hij : i + 1 ≤ j := by omega
      exact absurd (le_trans hhigh (getD_mono times hinv.sorted (i + 1) j hij hj))
        (not_le.2 hjt)
    · exact lt_of_le_of_lt (getD_mono times hinv.sorted j i hji (by omega)) hlow
  · intro i hi0 hi
    rw [getSegmentIndex_at_knot times C D p hinv hstrict hK i (by omega)]
    congr 1
    show (_ : ℤ) = _
    omega

/-- Witness of C4 (amended): the problem of `main`, at its interior knot. -/
theorem C4_getSegmentIndex_last_knot_below_witness :
    getSegmentIndex mainProblem (([0, 1, 3] : List Scalar).getD 1 0) = some (((1 : Nat) : ℤ) - 1) :=
  (C4_getSegmentIndex_last_knot_below onesSolver [0, 1, 3] 4 2 mainProblem
    (reachable_mainProblem onesSolver) (by decide) (by decide)).2 1 (by decide) (by decide)

/-- C5: in every reachable state of a problem with `K ≥ 2` knots,
`getSegmentIndex(t)` returns `0` for every `t ≤ time[0]`, returns `S - 1 = K - 2`
for every `t ≥ time[K-1]` with `t > time[0]`, and returns an index (no error) for
every query time. -/
theorem C5_getSegmentIndex_boundary_clamp (solver : Solver) (times : List Scalar)
    (C D : Nat) (p : SplineProblem) (hreach : Reachable solver times C D p)
    (hK : 2 ≤ times.length) :
    (∀ t, t ≤ times.getD 0 0 → getSegmentIndex p t = some 0) ∧
    (∀ t, times.getD (times.length - 1) 0 ≤ t → times.getD 0 0 < t →
      getSegmentIndex p t = some ((p.mNumSegments : ℤ) - 1) ∧
      (p.mNumSegments : ℤ) - 1 = (times.length : ℤ) - 2) ∧
    (∀ t, ∃ i : ℤ, getSegmentIndex p t = some i) := by
  have hinv := reachable_inv solver times C D p hreach
  refine ⟨fun t ht => getSegmentIndex_of_le_first times C D p hinv (by omega) t ht,
    fun t ht ht0 => ?_, fun t => ?_⟩
  · have hS : (p.mNumSegments : ℤ) - 1 = (times.length : ℤ) - 2 := by
      rw [hinv.numSegments]
      omega
    rw [hS]
    exact ⟨getSegmentIndex_of_ge_last times C D p hinv (by omega) t ht0 ht, rfl⟩
  · obtain ⟨i, hi, _⟩ := getSegmentIndex_in_range times C D p hinv hK t
    exact ⟨i, hi⟩

/-- Witness of C5: the problem of `main`, queried far above its last knot. -/
theorem C5_getSegmentIndex_boundary_clamp_witness :
    getSegmentIndex mainProblem 100 = some ((mainProblem.mNumSegments : ℤ) - 1) ∧
    (mainProblem.mNumSegments : ℤ) - 1 = (([0, 1, 3] : List Scalar).length : ℤ) - 2 :=
  (C5_getSegmentIndex_boundary_clamp onesSolver [0, 1, 3] 4 2 mainProblem
    (reachable_mainProblem onesSolver) (by decide)).2.1 100 (by decide) (by decide)

/-! ## The claims about `fit` and the registration functions -/

/-- C7: in every reachable state, `fit()` succeeds if and only if the row cursor
equals `N = S * C`; with the cursor below `N` it ends in the row-count assertion
and stores nothing (the state is unchanged). -/
theorem C7_fit_requires_full_cursor (solver : Solver) (times : List Scalar) (C D : Nat)
    (p : SplineProblem) (hreach : Reachable solver times C D p) :
    ((fit solver p).violation = none ↔ p.mRowIndex = p.mNumSegments * p.mNumCoefficients) ∧
    (p.mRowIndex < p.mNumSegments * p.mNumCoefficients →
      (fit solver p).violation = some Violation.rowCountMismatch ∧ (fit solver p).state = p) := by
  have hinv := reachable_inv solver times C D p hreach
  have hN : p.mDimension = p.mNumSegments * p.mNumCoefficients := by
    rw [hinv.dimension, hinv.numSegments, hinv.numCoefficients_eq]
  rw [← hN]
  unfold fit
  by_cases hr : p.mRowIndex = p.mDimension
  · rw [if_pos hr]
    exact ⟨⟨fun _ => hr, fun _ => rfl⟩, fun hlt => absurd hr (Nat.ne_of_lt hlt)⟩
  · rw [if_neg hr]
    exact ⟨⟨fun h => absurd h (by simp), fun h => absurd h hr⟩, fun _ => ⟨rfl, rfl⟩⟩

/-- Witness of C7: the freshly constructed problem of `main` has cursor `0 < 8`. -/
theorem C7_fit_requires_full_cursor_witness :
    (fit onesSolver mainProblem).violation = some Violation.rowCountMismatch ∧
    (fit onesSolver mainProblem).state = mainProblem :=
  (C7_fit_requires_full_cursor onesSolver [0, 1, 3] 4 2 mainProblem
    (reachable_mainProblem onesSolver)).2 (by decide)

/-- C8: in every reachable state of a problem with `K ≥ 2` knots, a successful
`addConstantConstraint(k, d, v)` advances the row cursor by exactly 1 when `k` is
a boundary knot (`k = 0` or `k = K - 1`) and by exactly 2 when `k` is an interior
knot (`0 < k < K - 1`). -/
theorem C8_constant_constraint_cursor_advance (solver : Solver) (times : List Scalar)
    (C D : Nat) (p : SplineProblem) (hreach : Reachable solver times C D p)
    (hK : 2 ≤ times.length) (k d : ℤ) (v : List Scalar)
    (hok : (addConstantConstraint p k d v).violation = none) :
    ((k = 0 ∨ k = (times.length : ℤ) - 1) →
      (addConstantConstraint p k d v).state.mRowIndex = p.mRowIndex + 1) ∧
    ((0 < k ∧ k < (times.length : ℤ) - 1) →
      (addConstantConstraint p k d v).state.mRowIndex = p.mRowIndex + 2) := by
  have hinv := reachable_inv solver times C D p hreach
  have hKp : 2 ≤ p.mNumKnots := by rw [hinv.numKnots]; exact hK
  constructor
  · rintro (hk | hk)
    · rw [(addConstantConstraint_first p k d v hok hk hKp).2]
    · rw [(addConstantConstraint_last p k d v hok (by rw [hinv.numKnots]; omega) hKp).2]
  · rintro ⟨hk0, hk1⟩
    rw [(addConstantConstraint_interior p k d v hok hk0 (by rw [hinv.numKnots]; omega)).2]

/-- Witness of C8: the interior knot of the problem of `main`. -/
theorem C8_constant_constraint_cursor_advance_witness :
    (addConstantConstraint mainProblem 1 0 [6, 8]).state.mRowIndex = mainProblem.mRowIndex + 2 :=
  (C8_constant_constraint_cursor_advance onesSolver [0, 1, 3] 4 2 mainProblem
    (reachable_mainProblem onesSolver) (by decide) 1 0 [6, 8] (by decide)).2
    ⟨by decide, by decide⟩

theorem Frame.refl (p : SplineProblem) : Frame p p :=
  { rowIndex_le := le_refl _, rowsA := fun _ _ _ => rfl, rowsB := fun _ _ _ => rfl }

theorem Frame.trans {p q s : SplineProblem} (h1 : Frame p q) (h2 : Frame q s) : Frame p s :=
  { rowIndex_le := le_trans h1.rowIndex_le h2.rowIndex_le
    rowsA := fun i hi c => by
      rw [h2.rowsA i (lt_of_lt_of_le hi h1.rowIndex_le) c, h1.rowsA i hi c]
    rowsB := fun i hi o => by
      rw [h2.rowsB i (lt_of_lt_of_le hi h1.rowIndex_le) o, h1.rowsB i hi o] }

theorem writeConstantRow_frame (p : SplineProblem) (segment : Nat) (v : Nat → Scalar)
    (value : List Scalar) : Frame p (writeConstantRow p segment v value).state := by
  by_cases hr : p.mRowIndex < p.mDimension
  · rw [writeConstantRow_of_lt p segment v value hr]
    refine { rowIndex_le := Nat.le_succ _, rowsA := ?_, rowsB := ?_ }
    · intro i hi c
      dsimp only
      rw [setBlock_of_ne _ _ _ _ _ _ _ (by omega)]
    · intro i hi o
      dsimp only
      rw [setRow_of_ne _ _ _ _ _ _ (by omega)]
  · rw [writeConstantRow_of_not_lt p segment v value hr]
    exact Frame.refl p

theorem addConstantConstraint_frame (p : SplineProblem) (k d : ℤ) (value : List Scalar) :
    Frame p (addConstantConstraint p k d value).state := by
  unfold addConstantConstraint
  by_cases h1 : 0 ≤ k ∧ k < (p.mNumKnots : ℤ)
  swap
  · rw [if_neg h1]
    exact Frame.refl p
  by_cases h2 : 0 ≤ d ∧ d < (p.mNumCoefficients : ℤ)
  swap
  · rw [if_pos h1, if_neg h2]
    exact Frame.refl p
  by_cases h3 : value.length = p.mNumOutputs
  swap
  · rw [if_pos h1, if_pos h2, if_neg h3]
    exact Frame.refl p
  rw [if_pos h1, if_pos h2, if_pos h3]
  dsimp only
  have hb : Frame p
      (if k > 0 then writeConstantRow p (k - 1).toNat (coeffVector p k d) value
        else { state := p, violation := none }).state := by
    by_cases hk : k > 0
    · rw [if_pos hk]
      exact writeConstantRow_frame p _ _ _
    · rw [if_neg hk]
      exact Frame.refl p
  split_ifs
  all_goals first
    | exact hb
    | exact Frame.trans hb (writeConstantRow_frame _ _ _ _)
    | exact Frame.trans (writeConstantRow_frame p _ _ _) (writeConstantRow_frame _ _ _ _)
    | exact writeConstantRow_frame p _ _ _
    | exact Frame.refl p

theorem addContinuityConstraint_frame (p : SplineProblem) (k d : ℤ) :
    Frame p (addContinuityConstraint p k d).state := by
  by_cases hok : (addContinuityConstraint p k d).violation = none
  · obtain ⟨_, _, _, hst⟩ := addContinuityConstraint_of_ok p k d hok
    rw [hst]
    refine { rowIndex_le := Nat.le_succ _, rowsA := ?_, rowsB := ?_ }
    · intro i hi c
      dsimp only
      rw [setBlock_of_ne _ _ _ _ _ _ _ (by omega), setBlock_of_ne _ _ _ _ _ _ _ (by omega)]
    · intro i hi o
      dsimp only
      rw [setRow_of_ne _ _ _ _ _ _ (by omega)]
  · have hst : (addContinuityConstraint p k d).state = p := by
      unfold addContinuityConstraint at hok ⊢
      split_ifs at hok ⊢
      all_goals first
        | rfl
        | exact absurd rfl hok
    rw [hst]
    exact Frame.refl p

theorem register_frame (p : SplineProblem) (c : Constraint) : Frame p (c.register p).state := by
  cases c with
  | constant k d v => exact addConstantConstraint_frame p k d v
  | continuity k d => exact addContinuityConstraint_frame p k d

theorem registerAll_cons (p p1 : SplineProblem) (c : Constraint) (cs : List Constraint)
    (h : registerAll p (c :: cs) = some p1) :
    (c.register p).violation = none ∧ registerAll (c.register p).state cs = some p1 := by
  rw [registerAll] at h
  cases hv : (c.register p).violation with
  | none =>
    rw [hv] at h
    exact ⟨rfl, h⟩
  | some e =>
    rw [hv] at h
    exact absurd h (by simp)

theorem registerAll_frame_inv (times : List Scalar) (C D : Nat) :
    ∀ (cs : List Constraint) (p p1 : SplineProblem), Inv times C D p →
      registerAll p cs = some p1 → Frame p p1 ∧ Inv times C D p1
  | [], p, p1, hinv, h => by
    rw [registerAll, Option.some.injEq] at h
    subst h
    exact ⟨Frame.refl p, hinv⟩
  | c :: cs, p, p1, hinv, h => by
    obtain ⟨_, hrest⟩ := registerAll_cons p p1 c cs h
    obtain ⟨hf, hi⟩ := registerAll_frame_inv times C D cs _ p1
      (register_inv times C D p c hinv) hrest
    exact ⟨Frame.trans (register_frame p c) hf, hi⟩

theorem registerAll_reachable (solver : Solver) (times : List Scalar) (C D : Nat) :
    ∀ (cs : List Constraint) (p p1 : SplineProblem), Reachable solver times C D p →
      registerAll p cs = some p1 → Reachable solver times C D p1
  | [], p, p1, hreach, h => by
    rw [registerAll, Option.some.injEq] at h
    subst h
    exact hreach
  | c :: cs, p, p1, hreach, h => by
    obtain ⟨_, hrest⟩ := registerAll_cons p p1 c cs h
    exact registerAll_reachable solver times C D cs _ p1
      (Reachable.call (Call.register c) hreach) hrest

theorem HasRow.of_frame {p q : SplineProblem} {r : Nat} {rowA rowB : Nat → Scalar}
    (h : HasRow p r rowA rowB) (hf : Frame p q) (hD : q.mNumOutputs = p.mNumOutputs) :
    HasRow q r rowA rowB :=
  { registered := lt_of_lt_of_le h.registered hf.rowIndex_le
    rowOfA := fun c => by rw [hf.rowsA r h.registered c, h.rowOfA c]
    rowOfB := fun o ho => by rw [hf.rowsB r h.registered o, h.rowOfB o (by rw [← hD]; exact ho)] }

theorem setBlock_clear_row (m : Nat → Nat → Scalar) (row col n : Nat) (v w : Nat → Scalar)
    (hclear : ∀ c, m row c = 0) (hw : ∀ j, j < n → v j = w j) (c : Nat) :
    setBlock m row col n v row c = blockRow col n w c := by
  unfold setBlock blockRow
  by_cases hc : col ≤ c ∧ c < col + n
  · rw [if_pos ⟨rfl, hc⟩, if_pos hc]
    exact hw _ (by omega)
  · rw [if_neg (fun h => hc h.2), if_neg hc]
    exact hclear c

/-! ## The row that a successful registration leaves in the system -/

theorem coeffVector_weights (times : List Scalar) (C D : Nat) (p : SplineProblem)
    (hinv : Inv times C D p) (k d : ℤ) (hd : 0 ≤ d) (j : Nat) (hj : j < C) :
    coeffVector p k d j = derivativeWeights (times.getD k.toNat 0) d.toNat j := by
  have hM : p.mCoefficientMatrix = createCoefficientMatrix p.mNumCoefficients := by
    rw [hinv.coefficientMatrix, hinv.numCoefficients_eq]
  have h := coeffVector_eq p hM k d.toNat j (by rw [hinv.numCoefficients_eq]; exact hj)
  rw [Int.toNat_of_nonneg hd, hinv.times_eq] at h
  exact h

theorem addConstantConstraint_row (times : List Scalar) (C D : Nat) (p : SplineProblem)
    (hinv : Inv times C D p) (hK : 2 ≤ times.length) (k d : ℤ) (v : List Scalar)
    (hok : (addConstantConstraint p k d v).violation = none) :
    HasRow (addConstantConstraint p k d v).state p.mRowIndex
      (blockRow ((k - 1).toNat * C) C (derivativeWeights (times.getD k.toNat 0) d.toNat))
      (fun o => v.getD o 0) := by
  have hKp : 2 ≤ p.mNumKnots := by rw [hinv.numKnots]; exact hK
  obtain ⟨h1, h2, _⟩ := addConstantConstraint_args_of_ok p k d v hok
  have hC := hinv.numCoefficients_eq
  have hclear : ∀ c, p.mA p.mRowIndex c = 0 := hinv.clearA p.mRowIndex (le_refl _)
  have hw := coeffVector_weights times C D p hinv k d h2.1
  by_cases hk0 : 0 < k
  · by_cases hk1 : k + 1 < (p.mNumKnots : ℤ)
    · obtain ⟨_, hst⟩ := addConstantConstraint_interior p k d v hok hk0 hk1
      rw [hst, hC]
      refine { registered := by dsimp only; omega, rowOfA := fun c => ?_, rowOfB := fun o ho => ?_ }
      · dsimp only
        rw [setBlock_of_ne _ _ _ _ _ _ _ (by omega)]
        exact setBlock_clear_row _ _ _ _ _ _ hclear hw c
      · dsimp only at ho ⊢
        rw [setRow_of_ne _ _ _ _ _ _ (by omega), setRow_hit _ _ _ _ _ ho]
    · obtain ⟨_, hst⟩ := addConstantConstraint_last p k d v hok (by omega) hKp
      rw [hst, hC]
      refine { registered := by dsimp only; omega, rowOfA := fun c => ?_, rowOfB := fun o ho => ?_ }
      · dsimp only
        exact setBlock_clear_row _ _ _ _ _ _ hclear hw c
      · dsimp only at ho ⊢
        rw [setRow_hit _ _ _ _ _ ho]
  · have hkz : k = 0 := by omega
    obtain ⟨_, hst⟩ := addConstantConstraint_first p k d v hok hkz hKp
    have hz : (k - 1).toNat = 0 := by omega
    rw [hst, hC, hz]
    refine { registered := by dsimp only; omega, rowOfA := fun c => ?_, rowOfB := fun o ho => ?_ }
    · dsimp only
      exact setBlock_clear_row _ _ _ _ _ _ hclear hw c
    · dsimp only at ho ⊢
      rw [setRow_hit _ _ _ _ _ ho]

theorem addContinuityConstraint_row (times : List Scalar) (C D : Nat) (p : SplineProblem)
    (hinv : Inv times C D p) (k d : ℤ)
    (hok : (addContinuityConstraint p k d).violation = none) :
    HasRow (addContinuityConstraint p k d).state p.mRowIndex
      (fun c =>
        blockRow ((k - 1).toNat * C) C (derivativeWeights (times.getD k.toNat 0) d.toNat) c
          - blockRow (k.toNat * C) C (derivativeWeights (times.getD k.toNat 0) d.toNat) c)
      (fun _ => 0) := by
  obtain ⟨hk, h2, _, hst⟩ := addContinuityConstraint_of_ok p k d hok
  have hC := hinv.numCoefficients_eq
  have hclear : ∀ c, p.mA p.mRowIndex c = 0 := hinv.clearA p.mRowIndex (le_refl _)
  have hw := coeffVector_weights times C D p hinv k d h2.1
  have hblocks := toNat_pred_mul_add k hk.1 C
  rw [hst, hC]
  refine { registered := by dsimp only; omega, rowOfA := fun c => ?_, rowOfB := fun o ho => ?_ }
  · dsimp only
    by_cases hc : k.toNat * C ≤ c ∧ c < k.toNat * C + C
    · have h1 : blockRow ((k - 1).toNat * C) C
          (derivativeWeights (times.getD k.toNat 0) d.toNat) c = 0 := by
        unfold blockRow
        rw [if_neg (by omega)]
      have h2 : blockRow (k.toNat * C) C
          (derivativeWeights (times.getD k.toNat 0) d.toNat) c
          = coeffVector p k d (c - k.toNat * C) := by
        unfold blockRow
        rw [if_pos hc, hw _ (by omega)]
      rw [h1, h2, zero_sub]
      unfold setBlock
      rw [if_pos ⟨rfl, hc⟩]
    · have h2 : blockRow (k.toNat * C) C
          (derivativeWeights (times.getD k.toNat 0) d.toNat) c = 0 := by
        unfold blockRow
        rw [if_neg hc]
      rw [h2, sub_zero, setBlock_miss _ _ _ _ _ _ _ (by omega)]
      exact setBlock_clear_row _ _ _ _ _ _ hclear hw c
  · dsimp only at ho ⊢
    rw [setRow_hit _ _ _ _ _ ho]

theorem registerAll_constant_row (times : List Scalar) (C D : Nat) (hK : 2 ≤ times.length) :
    ∀ (cs : List Constraint) (p p1 : SplineProblem), Inv times C D p →
      registerAll p cs = some p1 → ∀ (k d : ℤ) (v : List Scalar),
      Constraint.constant k d v ∈ cs →
      ((0 ≤ k ∧ k < (times.length : ℤ)) ∧ (0 ≤ d ∧ d < (C : ℤ)) ∧ v.length = D) ∧
      ∃ r, HasRow p1 r
        (blockRow ((k - 1).toNat * C) C (derivativeWeights (times.getD k.toNat 0) d.toNat))
        (fun o => v.getD o 0)
  | [], _, _, _, _, _, _, _, hmem => absurd hmem (List.not_mem_nil _)
  | c :: cs, p, p1, hinv, h, k, d, v, hmem => by
    obtain ⟨hok, hrest⟩ := registerAll_cons p p1 c cs h
    have hq := register_inv times C D p c hinv
    rcases List.mem_cons.1 hmem with hhead | htail
    · subst hhead
      obtain ⟨hf, hi⟩ := registerAll_frame_inv times C D cs _ p1 hq hrest
      have hargs := addConstantConstraint_args_of_ok p k d v hok
      rw [hinv.numKnots, hinv.numCoefficients_eq, hinv.numOutputs_eq] at hargs
      refine ⟨hargs, p.mRowIndex, ?_⟩
      exact (addConstantConstraint_row times C D p hinv hK k d v hok).of_frame hf
        (by rw [hi.numOutputs_eq]; exact hq.numOutputs_eq.symm)
    · exact registerAll_constant_row times C D hK cs _ p1 hq hrest k d v htail

theorem registerAll_continuity_row (times : List Scalar) (C D : Nat) :
    ∀ (cs : List Constraint) (p p1 : SplineProblem), Inv times C D p →
      registerAll p cs = some p1 → ∀ (k d : ℤ),
      Constraint.continuity k d ∈ cs →
      ((0 < k ∧ k + 1 < (times.length : ℤ)) ∧ (0 ≤ d ∧ d < (C : ℤ))) ∧
      ∃ r, HasRow p1 r
        (fun c =>
          blockRow ((k - 1).toNat * C) C (derivativeWeights (times.getD k.toNat 0) d.toNat) c
            - blockRow (k.toNat * C) C (derivativeWeights (times.getD k.toNat 0) d.toNat) c)
        (fun _ => 0)
  | [], _, _, _, _, _, _, hmem => absurd hmem (List.not_mem_nil _)
  | c :: cs, p, p1, hinv, h, k, d, hmem => by
    obtain ⟨hok, hrest⟩ := registerAll_cons p p1 c cs h
    have hq := register_inv times C D p c hinv
    rcases List.mem_cons.1 hmem with hhead | htail
    · subst hhead
      obtain ⟨hf, hi⟩ := registerAll_frame_inv times C D cs _ p1 hq hrest
      obtain ⟨hk, hd, _, _⟩ := addContinuityConstraint_of_ok p k d hok
      rw [hinv.numKnots] at hk
      rw [hinv.numCoefficients_eq] at hd
      refine ⟨⟨hk, hd⟩, p.mRowIndex, ?_⟩
      exact (addContinuityConstraint_row times C D p hinv k d hok).of_frame hf
        (by rw [hi.numOutputs_eq]; exact hq.numOutputs_eq.symm)
    · exact registerAll_continuity_row times C D cs _ p1 hq hrest k d htail

/-! ## Sums over a row -/

theorem sum_blockRow (N col n : Nat) (w x : Nat → Scalar) (h : col + n ≤ N) :
    ∑ c in Finset.range N, blockRow col n w c * x c =
      ∑ j in Finset.range n, w j * x (col + j) := by
  have hterm : ∀ c ∈ Finset.range N, blockRow col n w c * x c =
      if c ∈ Finset.Ico col (col + n) then w (c - col) * x c else 0 := by
    intro c _
    unfold blockRow
    by_cases hc : col ≤ c ∧ c < col + n
    · rw [if_pos hc, if_pos (Finset.mem_Ico.2 hc)]
    · rw [if_neg hc, if_neg (fun hm => hc (Finset.mem_Ico.1 hm)), zero_mul]
  have hsub : Finset.range N ∩ Finset.Ico col (col + n) = Finset.Ico col (col + n) := by
    apply Finset.inter_eq_right.2
    intro c hc
    have := Finset.mem_Ico.1 hc
    exact Finset.mem_range.2 (by omega)
  rw [Finset.sum_congr rfl hterm, Finset.sum_ite_mem, hsub, Finset.sum_Ico_eq_sum_range,
    Nat.add_sub_cancel_left]
  refine Finset.sum_congr rfl (fun j _ => ?_)
  rw [Nat.add_sub_cancel_left]

theorem map_getD_range (v : List Scalar) (D : Nat) (h : v.length = D) :
    (List.range D).map (fun o => v.getD o 0) = v := by
  apply List.ext_getElem
  · rw [List.length_map, List.length_range, h]
  · intro i h1 h2
    rw [List.getElem_map, List.getElem_range, List.getD_eq_getElem v 0 h2]

theorem fit_of_full (solver : Solver) (p : SplineProblem) (hr : p.mRowIndex = p.mDimension) :
    fit solver p =
      { state :=
          { p with
            mSolution := fun isegment ioutput j =>
              if ioutput < p.mNumOutputs ∧ isegment < p.mNumSegments ∧ j < p.mNumCoefficients then
                solver p.mDimension p.mA (fun r => p.mB r ioutput) (isegment * p.mNumCoefficients + j)
              else p.mSolution isegment ioutput j }
        violation := none } :=
  if_pos hr

/-! ## The claims about the fitted spline -/

/-- The stored coefficients after a `fit` on a full system. -/
theorem fit_solution_entry (solver : Solver) (times : List Scalar) (C D : Nat)
    (p : SplineProblem) (hinv : Inv times C D p) (hr : p.mRowIndex = p.mDimension)
    (s o j : Nat) (hs : s < times.length - 1) (ho : o < D) (hj : j < C) :
    (fit solver p).state.mSolution s o j =
      solver ((times.length - 1) * C) p.mA (fun r => p.mB r o) (s * C + j) := by
  rw [fit_of_full solver p hr]
  dsimp only
  rw [if_pos ⟨by rw [hinv.numOutputs_eq]; exact ho, by rw [hinv.numSegments]; exact hs,
    by rw [hinv.numCoefficients_eq]; exact hj⟩, hinv.dimension, hinv.numCoefficients_eq]

/-- The equation that a registered block row imposes on the stored coefficients. -/
theorem fit_block_sum (solver : Solver) (times : List Scalar) (C D : Nat)
    (p : SplineProblem) (hinv : Inv times C D p) (hr : p.mRowIndex = p.mDimension)
    (s o : Nat) (hs : s < times.length - 1) (ho : o < D) (w : Nat → Scalar) :
    ∑ c in Finset.range ((times.length - 1) * C),
        blockRow (s * C) C w c * solver ((times.length - 1) * C) p.mA (fun r => p.mB r o) c =
      ∑ j in Finset.range C, w j * (fit solver p).state.mSolution s o j := by
  have hle : s * C + C ≤ (times.length - 1) * C := by
    have h1 : (s + 1) * C ≤ (times.length - 1) * C := Nat.mul_le_mul_right C (by omega)
    rw [Nat.add_mul, Nat.one_mul] at h1
    exact h1
  rw [sum_blockRow _ _ _ _ _ hle]
  refine Finset.sum_congr rfl (fun j hj => ?_)
  rw [fit_solution_entry solver times C D p hinv hr s o j hs ho (Finset.mem_range.1 hj)]

/-- C6: in every reachable state in which `fit()` succeeds and the solver solved
`A * x = B(:, o)` exactly, the stored per-segment coefficients of every output `o`
are the split of that solution into `S` contiguous blocks of length `C`:
`solution[s](o, j) = x[s*C + j]`, and the concatenation of the blocks satisfies
every equation of `A * x = B(:, o)`. -/
theorem C6_fit_splits_solution (solver : Solver) (times : List Scalar) (C D : Nat)
    (p : SplineProblem) (hreach : Reachable solver times C D p)
    (hfit : (fit solver p).violation = none) (hexact : SolvesExactly solver p) :
    ∀ o, o < D →
      (∀ s, s < times.length - 1 → ∀ j, j < C →
        (fit solver p).state.mSolution s o j =
          solver ((times.length - 1) * C) p.mA (fun r => p.mB r o) (s * C + j)) ∧
      (∀ r, r < (times.length - 1) * C →
        ∑ c in Finset.range ((times.length - 1) * C),
          (fit solver p).state.mA r c * (fit solver p).state.mSolution (c / C) o (c % C) =
        (fit solver p).state.mB r o) := by
  have hinv := reachable_inv solver times C D p hreach
  have hr : p.mRowIndex = p.mDimension := by
    by_contra hc
    unfold fit at hfit
    rw [if_neg hc] at hfit
    exact absurd hfit (by simp)
  intro o ho
  refine ⟨fun s hs j hj => fit_solution_entry solver times C D p hinv hr s o j hs ho hj,
    fun r hrN => ?_⟩
  have hex := hexact o (by rw [hinv.numOutputs_eq]; exact ho) r (by rw [hinv.dimension]; exact hrN)
  rw [hinv.dimension] at hex
  have hA : (fit solver p).state.mA = p.mA := by rw [fit_of_full solver p hr]
  have hB : (fit solver p).state.mB = p.mB := by rw [fit_of_full solver p hr]
  rw [hA, hB, ← hex]
  refine Finset.sum_congr rfl (fun c hc => ?_)
  have hcN := Finset.mem_range.1 hc
  have hCpos : 0 < C := by
    rcases Nat.eq_zero_or_pos C with h0 | h0
    · rw [h0, Nat.mul_zero] at hcN
      exact absurd hcN (Nat.not_lt_zero c)
    · exact h0
  have hdiv : c / C < times.length - 1 := by
    rw [Nat.div_lt_iff_lt_mul hCpos]
    exact hcN
  rw [fit_solution_entry solver times C D p hinv hr (c / C) o (c % C) hdiv ho
    (Nat.mod_lt c hCpos), Nat.div_add_mod']

/-- C1: for every problem with `K ≥ 2` strictly increasing knot times in which
exactly `N = (K-1)*C` rows were registered by a sequence of successful
registrations and `fit()` solved `A * x = B` exactly, `fit()` succeeds and for
every constant constraint registered at (knot `k`, derivative `d`, value `v`),
`interpolate(time[k], d)` equals `v`. -/
theorem C1_exact_interpolation_at_knots (solver : Solver) (times : List Scalar) (C D : Nat)
    (p0 p1 : SplineProblem) (cs : List Constraint)
    (hnew : SplineProblem.new times C D = some p0)
    (hK : 2 ≤ times.length) (hstrict : List.Sorted (· < ·) times)
    (hreg : registerAll p0 cs = some p1)
    (hN : p1.mRowIndex = (times.length - 1) * C)
    (hexact : SolvesExactly solver p1)
    (k d : ℤ) (v : List Scalar) (hmem : Constraint.constant k d v ∈ cs) :
    (fit solver p1).violation = none ∧
    interpolate (fit solver p1).state (times.getD k.toNat 0) d = some v := by
  have hinv0 := new_inv times C D p0 hnew
  obtain ⟨_, hinv⟩ := registerAll_frame_inv times C D cs p0 p1 hinv0 hreg
  obtain ⟨⟨hk, hd, hv⟩, r, hrow⟩ :=
    registerAll_constant_row times C D hK cs p0 p1 hinv0 hreg k d v hmem
  have hr : p1.mRowIndex = p1.mDimension := by rw [hN, hinv.dimension]
  have hinvq := fit_inv solver times C D p1 hinv
  refine ⟨by rw [fit_of_full solver p1 hr], ?_⟩
  have hseg : (k - 1).toNat = k.toNat - 1 := by omega
  have hsegS : (k - 1).toNat < times.length - 1 := by omega
  have hat := getSegmentIndex_at_knot times C D _ hinvq hstrict hK k.toNat (by omega)
  rw [← hseg] at hat
  have hint := interpolate_of_segment times C D _ hinvq (times.getD k.toNat 0) d.toNat
    (by omega) (k - 1).toNat hat hsegS
  rw [Int.toNat_of_nonneg hd.1] at hint
  rw [hint]
  refine congrArg some (Eq.trans (List.map_congr_left (fun o ho => ?_)) (map_getD_range v D hv))
  have hoD : o < D := List.mem_range.1 ho
  have hex := hexact o (by rw [hinv.numOutputs_eq]; exact hoD) r
    (by rw [← hr]; exact hrow.registered)
  rw [hrow.rowOfB o (by rw [hinv.numOutputs_eq]; exact hoD), hinv.dimension] at hex
  rw [← hex, ← fit_block_sum solver times C D p1 hinv hr _ o hsegS hoD]
  exact Finset.sum_congr rfl (fun c _ => by rw [hrow.rowOfA c])

/-- C2: for every problem in which exactly `N = (K-1)*C` rows were registered by a
sequence of successful registrations and `fit()` solved `A * x = B` exactly,
`fit()` succeeds and for every continuity constraint registered at (knot `k`,
derivative `d`), `k` is an interior knot and the `d`-th derivatives of the
polynomials stored for segment `k - 1` and for segment `k`, both evaluated at
`time[k]`, are equal for every output. -/
theorem C2_continuity_at_interior_knots (solver : Solver) (times : List Scalar) (C D : Nat)
    (p0 p1 : SplineProblem) (cs : List Constraint)
    (hnew : SplineProblem.new times C D = some p0)
    (hreg : registerAll p0 cs = some p1)
    (hN : p1.mRowIndex = (times.length - 1) * C)
    (hexact : SolvesExactly solver p1)
    (k d : ℤ) (hmem : Constraint.continuity k d ∈ cs) :
    (fit solver p1).violation = none ∧ (0 < k ∧ k < (times.length : ℤ) - 1) ∧
    ∀ o, o < D →
      Polynomial.eval (times.getD k.toNat 0) (Polynomial.derivative^[d.toNat]
        (∑ j in Finset.range C,
          Polynomial.C ((fit solver p1).state.mSolution (k - 1).toNat o j) * Polynomial.X ^ j)) =
      Polynomial.eval (times.getD k.toNat 0) (Polynomial.derivative^[d.toNat]
        (∑ j in Finset.range C,
          Polynomial.C ((fit solver p1).state.mSolution k.toNat o j) * Polynomial.X ^ j)) := by
  have hinv0 := new_inv times C D p0 hnew
  obtain ⟨_, hinv⟩ := registerAll_frame_inv times C D cs p0 p1 hinv0 hreg
  obtain ⟨⟨hk, hd⟩, r, hrow⟩ :=
    registerAll_continuity_row times C D cs p0 p1 hinv0 hreg k d hmem
  have hr : p1.mRowIndex = p1.mDimension := by rw [hN, hinv.dimension]
  refine ⟨by rw [fit_of_full solver p1 hr], ⟨hk.1, by omega⟩, fun o hoD => ?_⟩
  have hs1 : (k - 1).toNat < times.length - 1 := by omega
  have hs2 : k.toNat < times.length - 1 := by omega
  have hex := hexact o (by rw [hinv.numOutputs_eq]; exact hoD) r
    (by rw [← hr]; exact hrow.registered)
  rw [hrow.rowOfB o (by rw [hinv.numOutputs_eq]; exact hoD), hinv.dimension] at hex
  have hsplit : ∑ c in Finset.range ((times.length - 1) * C),
        p1.mA r c * solver ((times.length - 1) * C) p1.mA (fun i => p1.mB i o) c =
      ∑ j in Finset.range C, derivativeWeights (times.getD k.toNat 0) d.toNat j
          * (fit solver p1).state.mSolution (k - 1).toNat o j
        - ∑ j in Finset.range C, derivativeWeights (times.getD k.toNat 0) d.toNat j
          * (fit solver p1).state.mSolution k.toNat o j := by
    rw [← fit_block_sum solver times C D p1 hinv hr _ o hs1 hoD,
      ← fit_block_sum solver times C D p1 hinv hr _ o hs2 hoD, ← Finset.sum_sub_distrib]
    exact Finset.sum_congr rfl (fun c _ => by rw [hrow.rowOfA c, sub_mul])
  rw [hsplit, sub_eq_zero] at hex
  rw [← derivativeWeights_sum_eq_eval, ← derivativeWeights_sum_eq_eval]
  exact hex

/-! ## The line example: three knots, two lines, one output -/

theorem new_lineProblem : SplineProblem.new [0, 1, 2] 2 1 = some lineProblem := by
  rfl

theorem registerAll_lineConstraints :
    registerAll lineProblem lineConstraints = some lineRegistered := by
  rfl

/-- The vector of ones solves the system of the line example: both segments are
the line `1 + t`. -/
theorem solvesExactly_lineRegistered : SolvesExactly onesSolver lineRegistered := by
  intro o ho r hr
  have ho1 : o < 1 := ho
  have hr4 : r < 4 := hr
  have ho0 : o = 0 := by omega
  subst ho0
  interval_cases r
  all_goals
    simp [lineRegistered, lineConstraints, lineProblem, registerAll, Constraint.register,
      addConstantConstraint, addContinuityConstraint, writeConstantRow, setBlock, setRow,
      coeffVector, createTimeVector, createCoefficientMatrix, onesSolver,
      Finset.sum_range_succ]
  all_goals norm_num

/-- Witness of C6: the line example, at its only output. -/
theorem C6_fit_splits_solution_witness :
    (∀ s, s < ([0, 1, 2] : List Scalar).length - 1 → ∀ j, j < 2 →
      (fit onesSolver lineRegistered).state.mSolution s 0 j =
        onesSolver ((([0, 1, 2] : List Scalar).length - 1) * 2) lineRegistered.mA
          (fun r => lineRegistered.mB r 0) (s * 2 + j)) ∧
    (∀ r, r < (([0, 1, 2] : List Scalar).length - 1) * 2 →
      ∑ c in Finset.range ((([0, 1, 2] : List Scalar).length - 1) * 2),
        (fit onesSolver lineRegistered).state.mA r c
          * (fit onesSolver lineRegistered).state.mSolution (c / 2) 0 (c % 2) =
      (fit onesSolver lineRegistered).state.mB r 0) :=
  C6_fit_splits_solution onesSolver [0, 1, 2] 2 1 lineRegistered
    (registerAll_reachable onesSolver [0, 1, 2] 2 1 lineConstraints lineProblem lineRegistered
      (Reachable.new new_lineProblem) registerAll_lineConstraints)
    (by decide) solvesExactly_lineRegistered 0 (by decide)

/-- Witness of C1: the line example, value `3` registered at the last knot. -/
theorem C1_exact_interpolation_at_knots_witness :
    (fit onesSolver lineRegistered).violation = none ∧
    interpolate (fit onesSolver lineRegistered).state
      (([0, 1, 2] : List Scalar).getD (2 : ℤ).toNat 0) 0 = some [3] :=
  C1_exact_interpolation_at_knots onesSolver [0, 1, 2] 2 1 lineProblem lineRegistered
    lineConstraints new_lineProblem (by decide) (by decide) registerAll_lineConstraints
    (by decide) solvesExactly_lineRegistered 2 0 [3]
    (List.mem_cons_of_mem _ (List.mem_cons_of_mem _ (List.mem_cons_of_mem _
      (List.mem_cons_self _ _))))

/-- Witness of C2: the line example, continuity of the slope at the interior knot. -/
theorem C2_continuity_at_interior_knots_witness :
    Polynomial.eval (([0, 1, 2] : List Scalar).getD (1 : ℤ).toNat 0)
      (Polynomial.derivative^[(1 : ℤ).toNat]
        (∑ j in Finset.range 2,
          Polynomial.C ((fit onesSolver lineRegistered).state.mSolution ((1 : ℤ) - 1).toNat 0 j)
            * Polynomial.X ^ j)) =
    Polynomial.eval (([0, 1, 2] : List Scalar).getD (1 : ℤ).toNat 0)
      (Polynomial.derivative^[(1 : ℤ).toNat]
        (∑ j in Finset.range 2,
          Polynomial.C ((fit onesSolver lineRegistered).state.mSolution (1 : ℤ).toNat 0 j)
            * Polynomial.X ^ j)) :=
  (C2_continuity_at_interior_knots onesSolver [0, 1, 2] 2 1 lineProblem lineRegistered
    lineConstraints new_lineProblem registerAll_lineConstraints (by decide)
    solvesExactly_lineRegistered 1 1
    (List.mem_cons_of_mem _ (List.mem_cons_of_mem _ (List.mem_cons_self _ _)))).2.2 0
    (by decide)

/-! ## Which calls are accepted -/

theorem addContinuityConstraint_of_valid (p : SplineProblem) (k d : ℤ)
    (hk : 0 < k ∧ k + 1 < (p.mNumKnots : ℤ)) (hd : 0 ≤ d ∧ d < (p.mNumCoefficients : ℤ))
    (hr : p.mRowIndex < p.mDimension) :
    (addContinuityConstraint p k d).violation = none := by
  have h1 : 0 ≤ k ∧ k < (p.mNumKnots : ℤ) := ⟨by omega, by omega⟩
  have h2 : k ≠ 0 ∧ k + 1 ≠ (p.mNumKnots : ℤ) := ⟨by omega, by omega⟩
  unfold addContinuityConstraint
  rw [if_pos h1, if_pos h2, if_pos hd, if_pos hr]

/-- C11: in every reachable state, `addContinuityConstraint(k, d)` fails when
`k = 0`, when `k = K - 1`, when `k` is outside `[0, K)`, when `d` is outside
`[0, C)` and when the cursor already equals `N`; it succeeds for every interior
knot `0 < k < K - 1` with `0 ≤ d < C` and cursor `< N`. -/
theorem C11_continuity_constraint_acceptance (solver : Solver) (times : List Scalar)
    (C D : Nat) (p : SplineProblem) (hreach : Reachable solver times C D p) (k d : ℤ) :
    (k = 0 → (addContinuityConstraint p k d).violation ≠ none) ∧
    (k = (times.length : ℤ) - 1 → (addContinuityConstraint p k d).violation ≠ none) ∧
    ((k < 0 ∨ (times.length : ℤ) ≤ k) → (addContinuityConstraint p k d).violation ≠ none) ∧
    ((d < 0 ∨ (C : ℤ) ≤ d) → (addContinuityConstraint p k d).violation ≠ none) ∧
    (p.mRowIndex = (times.length - 1) * C →
      (addContinuityConstraint p k d).violation ≠ none) ∧
    ((0 < k ∧ k < (times.length : ℤ) - 1) → (0 ≤ d ∧ d < (C : ℤ)) →
      p.mRowIndex < (times.length - 1) * C →
      (addContinuityConstraint p k d).violation = none) := by
  have hinv := reachable_inv solver times C D p hreach
  have hK := hinv.numKnots
  have hC := hinv.numCoefficients_eq
  have hN := hinv.dimension
  refine ⟨fun hk hok => ?_, fun hk hok => ?_, fun hk hok => ?_, fun hd hok => ?_,
    fun hr hok => ?_, fun hk hd hr => ?_⟩
  · obtain ⟨h1, _, _, _⟩ := addContinuityConstraint_of_ok p k d hok
    omega
  · obtain ⟨h1, _, _, _⟩ := addContinuityConstraint_of_ok p k d hok
    omega
  · obtain ⟨h1, _, _, _⟩ := addContinuityConstraint_of_ok p k d hok
    omega
  · obtain ⟨_, h2, _, _⟩ := addContinuityConstraint_of_ok p k d hok
    omega
  · obtain ⟨_, _, h3, _⟩ := addContinuityConstraint_of_ok p k d hok
    omega
  · exact addContinuityConstraint_of_valid p k d (by omega) (by omega) (by omega)

/-- Witness of C11: the interior knot of the problem of `main` is accepted. -/
theorem C11_continuity_constraint_acceptance_witness :
    (addContinuityConstraint mainProblem 1 1).violation = none :=
  (C11_continuity_constraint_acceptance onesSolver [0, 1, 3] 4 2 mainProblem
    (reachable_mainProblem onesSolver) 1 1).2.2.2.2.2 ⟨by decide, by decide⟩
    ⟨by decide, by decide⟩ (by decide)

/-- C12 (as stated) fails: the knot times `0, 0` have two equal adjacent times
(they are not strictly increasing) and the single knot time `5` has `K = 1 < 2`,
yet construction succeeds for both. -/
theorem C12_counterexample :
    (SplineProblem.new [0, 0] 4 1).isSome = true ∧
    ([0, 0] : List Scalar).getD 0 0 ≥ ([0, 0] : List Scalar).getD 1 0 ∧
    ¬ List.Sorted (· < ·) ([0, 0] : List Scalar) ∧
    (SplineProblem.new [5] 4 1).isSome = true ∧
    ([5] : List Scalar).length < 2 := by
  refine ⟨by decide, by decide, by decide, by decide, by decide⟩

theorem new_isSome_iff (times : List Scalar) (C D : Nat) :
    (SplineProblem.new times C D).isSome = true ↔ is_sorted times = true := by
  unfold SplineProblem.new
  by_cases hs : is_sorted times = true
  · simp [hs]
  · simp [hs]

/-- C12 (amended): construction succeeds exactly for the non-decreasing knot
sequences, whatever their length: it fails if and only if some knot time is
smaller than its predecessor (`time[i+1] < time[i]`); in particular it succeeds
for every strictly increasing sequence of `K ≥ 2` times. -/
theorem C12_construction_accepts_nondecreasing (times : List Scalar) (C D : Nat) :
    ((SplineProblem.new times C D).isSome = true ↔ List.Sorted (· ≤ ·) times) ∧
    (SplineProblem.new times C D = none ↔
      ∃ i, i + 1 < times.length ∧ times.getD (i + 1) 0 < times.getD i 0) ∧
    (List.Sorted (· < ·) times → 2 ≤ times.length →
      (SplineProblem.new times C D).isSome = true) := by
  have h1 : (SplineProblem.new times C D).isSome = true ↔ List.Sorted (· ≤ ·) times := by
    rw [new_isSome_iff, is_sorted_iff_sorted]
  refine ⟨h1, ?_, fun hs _ => (new_isSome_iff times C D).2 (is_sorted_of_strict times hs)⟩
  rw [← Option.not_isSome_iff_eq_none, h1]
  constructor
  · intro hns
    by_contra hex
    apply hns
    rw [← is_sorted_iff_sorted, is_sorted_iff_chain, List.chain'_iff_get]
    intro i hi
    have hi1 : i + 1 < times.length := by omega
    have hi0 : i < times.length := by omega
    by_contra hlt
    apply hex
    refine ⟨i, hi1, ?_⟩
    rw [List.getD_eq_getElem times 0 hi1, List.getD_eq_getElem times 0 hi0]
    exact not_le.1 hlt
  · rintro ⟨i, hi, hlt⟩ hs
    exact absurd (getD_mono times ((is_sorted_iff_sorted times).2 hs) i (i + 1) (Nat.le_succ i) hi)
      (not_le.2 hlt)

/-- Witness of C12 (amended): the knot times of `main`. -/
theorem C12_construction_accepts_nondecreasing_witness :
    (SplineProblem.new [0, 1, 3] 4 2).isSome = true :=
  (C12_construction_accepts_nondecreasing [0, 1, 3] 4 2).2.2 (by decide) (by decide)

/-- C13: whenever `addConstantConstraint` is called with a knot index out of
range, a derivative order outside `[0, C)` or a value vector whose length differs
from `D`, and whenever `addContinuityConstraint` is called with a knot index out
of range or a derivative order outside `[0, C)`, the call fails and the state
(the matrices `A` and `B`, the row cursor, the stored solution and everything
else) is exactly what it was before the call. -/
theorem C13_no_partial_mutation_on_invalid_arguments (p : SplineProblem) (k d : ℤ)
    (v : List Scalar) :
    ((¬ (0 ≤ k ∧ k < (p.mNumKnots : ℤ)) ∨ ¬ (0 ≤ d ∧ d < (p.mNumCoefficients : ℤ)) ∨
        v.length ≠ p.mNumOutputs) →
      (addConstantConstraint p k d v).violation ≠ none ∧
      (addConstantConstraint p k d v).state = p) ∧
    ((¬ (0 ≤ k ∧ k < (p.mNumKnots : ℤ)) ∨ ¬ (0 ≤ d ∧ d < (p.mNumCoefficients : ℤ))) →
      (addContinuityConstraint p k d).violation ≠ none ∧
      (addContinuityConstraint p k d).state = p) := by
  constructor
  · intro h
    unfold addConstantConstraint
    by_cases h1 : 0 ≤ k ∧ k < (p.mNumKnots : ℤ)
    swap
    · rw [if_neg h1]
      exact ⟨by simp, rfl⟩
    by_cases h2 : 0 ≤ d ∧ d < (p.mNumCoefficients : ℤ)
    swap
    · rw [if_pos h1, if_neg h2]
      exact ⟨by simp, rfl⟩
    by_cases h3 : v.length = p.mNumOutputs
    swap
    · rw [if_pos h1, if_pos h2, if_neg h3]
      exact ⟨by simp, rfl⟩
    rcases h with h | h | h
    · exact absurd h1 h
    · exact absurd h2 h
    · exact absurd h3 h
  · intro h
    unfold addContinuityConstraint
    by_cases h1 : 0 ≤ k ∧ k < (p.mNumKnots : ℤ)
    swap
    · rw [if_neg h1]
      exact ⟨by simp, rfl⟩
    by_cases h2 : k ≠ 0 ∧ k + 1 ≠ (p.mNumKnots : ℤ)
    swap
    · rw [if_pos h1, if_neg h2]
      exact ⟨by simp, rfl⟩
    by_cases h3 : 0 ≤ d ∧ d < (p.mNumCoefficients : ℤ)
    swap
    · rw [if_pos h1, if_pos h2, if_neg h3]
      exact ⟨by simp, rfl⟩
    rcases h with h | h
    · exact absurd h1 h
    · exact absurd h3 h

/-- Witness of C13: a value vector of the wrong length in the problem of `main`. -/
theorem C13_no_partial_mutation_on_invalid_arguments_witness :
    (addConstantConstraint mainProblem 1 0 [6]).violation ≠ none ∧
    (addConstantConstraint mainProblem 1 0 [6]).state = mainProblem :=
  (C13_no_partial_mutation_on_invalid_arguments mainProblem 1 0 [6]).1
    (Or.inr (Or.inr (by decide)))

/-! ## What `fit` checks and what it leaves alone -/

theorem new_twoKnotProblem : SplineProblem.new [0, 1] 2 1 = some twoKnotProblem := by
  rfl

theorem registerAll_repeatedConstraints :
    registerAll twoKnotProblem repeatedConstraints = some repeatedRegistered := by
  rfl

theorem fit_of_not_full (solver : Solver) (p : SplineProblem) (hr : ¬ p.mRowIndex = p.mDimension) :
    fit solver p = { state := p, violation := some Violation.rowCountMismatch } :=
  if_neg hr

/-- C14 (as stated) fails: on the two-knot problem with `N = 2` the same constant
constraint registered twice fills the cursor, both rows of `A` are `1, 0` so its
determinant is `0`, and `fit()` reports no violation and stores the coefficients
that the solver returned. -/
theorem C14_counterexample :
    SplineProblem.new [0, 1] 2 1 = some twoKnotProblem ∧
    registerAll twoKnotProblem repeatedConstraints = some repeatedRegistered ∧
    repeatedRegistered.mRowIndex = repeatedRegistered.mDimension ∧
    repeatedRegistered.mDimension = 2 ∧
    (systemMatrix 2 repeatedRegistered).det = 0 ∧
    (fit onesSolver repeatedRegistered).violation = none ∧
    (fit onesSolver repeatedRegistered).state.mSolution 0 0 0 = 1 ∧
    (fit onesSolver repeatedRegistered).state.mSolution 0 0 1 = 1 := by
  refine ⟨rfl, rfl, by decide, by decide, ?_, by decide, ?_, ?_⟩
  · rw [Matrix.det_fin_two]
    simp [systemMatrix, repeatedRegistered, repeatedConstraints, twoKnotProblem, registerAll,
      Constraint.register, addConstantConstraint, writeConstantRow, setBlock, setRow,
      coeffVector, createTimeVector, createCoefficientMatrix]
  · rw [fit_of_full onesSolver repeatedRegistered (by decide)]
    simp [onesSolver, repeatedRegistered, repeatedConstraints, twoKnotProblem, registerAll,
      Constraint.register, addConstantConstraint, writeConstantRow]
  · rw [fit_of_full onesSolver repeatedRegistered (by decide)]
    simp [onesSolver, repeatedRegistered, repeatedConstraints, twoKnotProblem, registerAll,
      Constraint.register, addConstantConstraint, writeConstantRow]

/-- C14 (amended): `fit()` performs no rank check and has no singular-system
condition: its only failure is the row-count assertion, and whenever exactly `N`
rows have been registered it succeeds, whether or not `A` is rank-deficient, and
stores the blocks of whatever vector the solver returned. -/
theorem C14_fit_performs_no_rank_check (solver : Solver) (p : SplineProblem) :
    ((fit solver p).violation = none ∨
      (fit solver p).violation = some Violation.rowCountMismatch) ∧
    (p.mRowIndex = p.mDimension →
      (fit solver p).violation = none ∧
      ∀ s o j, s < p.mNumSegments → o < p.mNumOutputs → j < p.mNumCoefficients →
        (fit solver p).state.mSolution s o j =
          solver p.mDimension p.mA (fun r => p.mB r o) (s * p.mNumCoefficients + j)) := by
  constructor
  · by_cases hr : p.mRowIndex = p.mDimension
    · rw [fit_of_full solver p hr]
      exact Or.inl rfl
    · rw [fit_of_not_full solver p hr]
      exact Or.inr rfl
  · intro hr
    rw [fit_of_full solver p hr]
    refine ⟨rfl, fun s o j hs ho hj => ?_⟩
    dsimp only
    rw [if_pos ⟨ho, hs, hj⟩]

/-- Witness of C14 (amended): the rank-deficient system of the counterexample. -/
theorem C14_fit_performs_no_rank_check_witness :
    (fit onesSolver repeatedRegistered).violation = none ∧
    ∀ s o j, s < repeatedRegistered.mNumSegments → o < repeatedRegistered.mNumOutputs →
      j < repeatedRegistered.mNumCoefficients →
      (fit onesSolver repeatedRegistered).state.mSolution s o j =
        onesSolver repeatedRegistered.mDimension repeatedRegistered.mA
          (fun r => repeatedRegistered.mB r o) (s * repeatedRegistered.mNumCoefficients + j) :=
  (C14_fit_performs_no_rank_check onesSolver repeatedRegistered).2 (by decide)

theorem fit_state_of_full (solver : Solver) (p : SplineProblem)
    (hr : p.mRowIndex = p.mDimension) :
    (fit solver p).state =
      { p with
        mSolution := fun isegment ioutput j =>
          if ioutput < p.mNumOutputs ∧ isegment < p.mNumSegments ∧ j < p.mNumCoefficients then
            solver p.mDimension p.mA (fun r => p.mB r ioutput) (isegment * p.mNumCoefficients + j)
          else p.mSolution isegment ioutput j } := by
  rw [fit_of_full solver p hr]

theorem fit_violation_of_full (solver : Solver) (p : SplineProblem)
    (hr : p.mRowIndex = p.mDimension) : (fit solver p).violation = none := by
  rw [fit_of_full solver p hr]

theorem full_of_fit_ok (solver : Solver) (p : SplineProblem)
    (hfit : (fit solver p).violation = none) : p.mRowIndex = p.mDimension := by
  by_contra hc
  rw [fit_of_not_full solver p hc] at hfit
  exact absurd hfit (by simp)

/-- C15: a successful `fit()` changes only the per-segment solution (`A`, `B`, the
row cursor and every other member are unchanged), so a second `fit()` right after
it succeeds and stores per-segment coefficients identical to those of the first:
the second call leaves the state exactly as the first call left it. -/
theorem C15_fit_idempotent (solver : Solver) (p : SplineProblem)
    (hfit : (fit solver p).violation = none) :
    (fit solver p).state.mA = p.mA ∧ (fit solver p).state.mB = p.mB ∧
    (fit solver p).state.mRowIndex = p.mRowIndex ∧
    (fit solver p).state = { p with mSolution := (fit solver p).state.mSolution } ∧
    (fit solver (fit solver p).state).violation = none ∧
    (fit solver (fit solver p).state).state.mSolution = (fit solver p).state.mSolution ∧
    (fit solver (fit solver p).state).state = (fit solver p).state := by
  have hr := full_of_fit_ok solver p hfit
  have hst := fit_state_of_full solver p hr
  have hA : (fit solver p).state.mA = p.mA := by rw [hst]
  have hB : (fit solver p).state.mB = p.mB := by rw [hst]
  have hRow : (fit solver p).state.mRowIndex = p.mRowIndex := by rw [hst]
  have hN : (fit solver p).state.mDimension = p.mDimension := by rw [hst]
  have hD : (fit solver p).state.mNumOutputs = p.mNumOutputs := by rw [hst]
  have hS : (fit solver p).state.mNumSegments = p.mNumSegments := by rw [hst]
  have hC : (fit solver p).state.mNumCoefficients = p.mNumCoefficients := by rw [hst]
  have hr2 : (fit solver p).state.mRowIndex = (fit solver p).state.mDimension := by
    rw [hRow, hN]
    exact hr
  have hst2 := fit_state_of_full solver (fit solver p).state hr2
  have hsol : (fit solver (fit solver p).state).state.mSolution
      = (fit solver p).state.mSolution := by
    rw [hst2]
    funext s o j
    dsimp only
    rw [hD, hS, hC, hN, hA, hB]
    by_cases hc : o < p.mNumOutputs ∧ s < p.mNumSegments ∧ j < p.mNumCoefficients
    · rw [if_pos hc, hst]
      dsimp only
      rw [if_pos hc]
    · rw [if_neg hc]
  refine ⟨hA, hB, hRow, ?_, fit_violation_of_full solver _ hr2, hsol, ?_⟩
  · rw [hst]
  · have hsol2 := hsol
    rw [hst2] at hsol2
    dsimp only at hsol2
    rw [hst2, hsol2]

/-- Witness of C15: the line example. -/
theorem C15_fit_idempotent_witness :
    (fit onesSolver (fit onesSolver lineRegistered).state).violation = none ∧
    (fit onesSolver (fit onesSolver lineRegistered).state).state.mSolution
      = (fit onesSolver lineRegistered).state.mSolution :=
  ⟨(C15_fit_idempotent onesSolver lineRegistered (by decide)).2.2.2.2.1,
    (C15_fit_idempotent onesSolver lineRegistered (by decide)).2.2.2.2.2.1⟩

/-! ## After `fit`: the full system accepts no further row -/

theorem addConstantConstraint_invalid (p : SplineProblem) (k d : ℤ) (v : List Scalar)
    (h : ¬ (0 ≤ k ∧ k < (p.mNumKnots : ℤ)) ∨ ¬ (0 ≤ d ∧ d < (p.mNumCoefficients : ℤ)) ∨
      ¬ v.length = p.mNumOutputs) :
    (addConstantConstraint p k d v).violation ≠ none ∧
    (addConstantConstraint p k d v).state = p := by
  unfold addConstantConstraint
  by_cases h1 : 0 ≤ k ∧ k < (p.mNumKnots : ℤ)
  swap
  · rw [if_neg h1]
    exact ⟨by simp, rfl⟩
  by_cases h2 : 0 ≤ d ∧ d < (p.mNumCoefficients : ℤ)
  swap
  · rw [if_pos h1, if_neg h2]
    exact ⟨by simp, rfl⟩
  by_cases h3 : v.length = p.mNumOutputs
  swap
  · rw [if_pos h1, if_pos h2, if_neg h3]
    exact ⟨by simp, rfl⟩
  rcases h with h | h | h
  · exact absurd h1 h
  · exact absurd h2 h
  · exact absurd h3 h

theorem addContinuityConstraint_state_of_fail (p : SplineProblem) (k d : ℤ)
    (hfail : (addContinuityConstraint p k d).violation ≠ none) :
    (addContinuityConstraint p k d).state = p := by
  unfold addContinuityConstraint at hfail ⊢
  split_ifs at hfail ⊢
  all_goals first
    | rfl
    | exact absurd rfl hfail

theorem addConstantConstraint_full (p : SplineProblem) (k d : ℤ) (v : List Scalar)
    (hK : 2 ≤ p.mNumKnots) (hfull : p.mRowIndex = p.mDimension) :
    (addConstantConstraint p k d v).violation ≠ none ∧
    (addConstantConstraint p k d v).state = p := by
  have hr : ¬ p.mRowIndex < p.mDimension := by omega
  by_cases h1 : 0 ≤ k ∧ k < (p.mNumKnots : ℤ)
  swap
  · exact (addConstantConstraint_invalid p k d v (Or.inl h1))
  by_cases h2 : 0 ≤ d ∧ d < (p.mNumCoefficients : ℤ)
  swap
  · exact (addConstantConstraint_invalid p k d v (Or.inr (Or.inl h2)))
  by_cases h3 : v.length = p.mNumOutputs
  swap
  · exact (addConstantConstraint_invalid p k d v (Or.inr (Or.inr h3)))
  rw [addConstantConstraint_of_valid p k d v h1 h2 h3]
  by_cases hk : k > 0
  · rw [if_pos hk, writeConstantRow_of_not_lt p _ _ v hr]
    simp
  · have hk1 : k + 1 < (p.mNumKnots : ℤ) := by omega
    rw [if_neg hk]
    simp only [if_true, if_pos hk1]
    rw [writeConstantRow_of_not_lt p _ _ v hr]
    simp

theorem register_full (times : List Scalar) (C D : Nat) (p : SplineProblem)
    (hinv : Inv times C D p) (hK : 2 ≤ times.length) (hfull : p.mRowIndex = p.mDimension)
    (c : Constraint) : (c.register p).violation ≠ none ∧ (c.register p).state = p := by
  cases c with
  | constant k d v =>
    exact addConstantConstraint_full p k d v (by rw [hinv.numKnots]; exact hK) hfull
  | continuity k d =>
    have hfail : (addContinuityConstraint p k d).violation ≠ none := by
      intro hok
      obtain ⟨_, _, hr, _⟩ := addContinuityConstraint_of_ok p k d hok
      omega
    exact ⟨hfail, addContinuityConstraint_state_of_fail p k d hfail⟩

theorem runCalls_full (solver : Solver) (times : List Scalar) (C D : Nat)
    (hK : 2 ≤ times.length) :
    ∀ (calls : List Call) (p : SplineProblem), Inv times C D p →
      p.mRowIndex = p.mDimension →
      Inv times C D (runCalls solver p calls) ∧
      (runCalls solver p calls).mRowIndex = (runCalls solver p calls).mDimension ∧
      (runCalls solver p calls).mA = p.mA ∧ (runCalls solver p calls).mB = p.mB
  | [], p, hinv, hfull => ⟨hinv, hfull, rfl, rfl⟩
  | c :: calls, p, hinv, hfull => by
    rw [runCalls]
    cases c with
    | register c =>
      have hst : (Call.run solver p (Call.register c)).state = p :=
        (register_full times C D p hinv hK hfull c).2
      rw [hst]
      exact runCalls_full solver times C D hK calls p hinv hfull
    | fit =>
      have hst := fit_state_of_full solver p hfull
      have hrec := runCalls_full solver times C D hK calls (fit solver p).state
        (fit_inv solver times C D p hinv) (by rw [hst]; exact hfull)
      refine ⟨hrec.1, hrec.2.1, ?_, ?_⟩
      · show (runCalls solver (fit solver p).state calls).mA = p.mA
        rw [hrec.2.2.1, hst]
      · show (runCalls solver (fit solver p).state calls).mB = p.mB
        rw [hrec.2.2.2, hst]

/-- C16: after a successful `fit()` on a problem with `K ≥ 2` knots, in every state
reached from there by any sequence of calls, every call of
`addConstantConstraint` or `addContinuityConstraint` (with any arguments) fails
and leaves the state (`A`, `B`, the row cursor, the stored solution and
everything else) unchanged; the row cursor stays at `N` and `A` and `B` stay
what they were at the first `fit()`. -/
theorem C16_no_registration_after_fit (solver : Solver) (times : List Scalar) (C D : Nat)
    (p : SplineProblem) (hreach : Reachable solver times C D p) (hK : 2 ≤ times.length)
    (hfit : (fit solver p).violation = none) (calls : List Call) (c : Constraint) :
    (c.register (runCalls solver (fit solver p).state calls)).violation ≠ none ∧
    (c.register (runCalls solver (fit solver p).state calls)).state
      = runCalls solver (fit solver p).state calls ∧
    (runCalls solver (fit solver p).state calls).mRowIndex = (times.length - 1) * C ∧
    (runCalls solver (fit solver p).state calls).mA = p.mA ∧
    (runCalls solver (fit solver p).state calls).mB = p.mB := by
  have hinv := reachable_inv solver times C D p hreach
  have hfull := full_of_fit_ok solver p hfit
  have hst := fit_state_of_full solver p hfull
  obtain ⟨hi, hf, hA, hB⟩ := runCalls_full solver times C D hK calls (fit solver p).state
    (fit_inv solver times C D p hinv) (by rw [hst]; exact hfull)
  obtain ⟨h1, h2⟩ := register_full times C D _ hi hK hf c
  refine ⟨h1, h2, by rw [hf, hi.dimension], ?_, ?_⟩
  · rw [hA, hst]
  · rw [hB, hst]

/-- Witness of C16: the line example, a continuity constraint tried after a
`fit()`, a repeated `fit()` and a rejected constant constraint. -/
theorem C16_no_registration_after_fit_witness :
    (Constraint.register
        (runCalls onesSolver (fit onesSolver lineRegistered).state
          [Call.fit, Call.register (Constraint.constant 0 0 [1])])
        (Constraint.continuity 1 0)).violation ≠ none :=
  (C16_no_registration_after_fit onesSolver [0, 1, 2] 2 1 lineRegistered
    (registerAll_reachable onesSolver [0, 1, 2] 2 1 lineConstraints lineProblem lineRegistered
      (Reachable.new new_lineProblem) registerAll_lineConstraints)
    (by decide) (by decide) [Call.fit, Call.register (Constraint.constant 0 0 [1])]
    (Constraint.continuity 1 0)).1

/-! ## The two scenarios -/

/-- A system whose homogeneous equations only have the zero solution has a
non-zero determinant. -/
theorem det_ne_zero_of_kernel_trivial (n : Nat) (p : SplineProblem)
    (h : ∀ x : Nat → Scalar,
      (∀ r, r < n → ∑ c in Finset.range n, p.mA r c * x c = 0) → ∀ c, c < n → x c = 0) :
    (systemMatrix n p).det ≠ 0 := by
  intro hdet
  obtain ⟨v, hv, hMv⟩ := Matrix.exists_mulVec_eq_zero_iff.2 hdet
  apply hv
  funext i
  have hx := h (fun c => if hc : c < n then v ⟨c, hc⟩ else 0) (fun r hr => by
    have hrow := congrFun hMv ⟨r, hr⟩
    simp only [Matrix.mulVec, Matrix.dotProduct, systemMatrix, Matrix.of_apply,
      Pi.zero_apply] at hrow
    rw [Finset.sum_range]
    refine Eq.trans (Finset.sum_congr rfl (fun j _ => ?_)) hrow
    dsimp only
    rw [dif_pos j.isLt]) i.val i.isLt
  dsimp only at hx
  rw [dif_pos i.isLt] at hx
  exact hx

theorem new_cubicProblem : SplineProblem.new [0, 1] 4 1 = some cubicProblem := by
  rfl

theorem registerAll_cubicConstraints :
    registerAll cubicProblem cubicConstraints = some cubicRegistered := by
  rfl

/-- The four rows of the clamped cubic, applied to a vector `x`. -/
theorem cubicRegistered_rows (x : Nat → Scalar) :
    ∑ c in Finset.range 4, cubicRegistered.mA 0 c * x c = x 0 ∧
    ∑ c in Finset.range 4, cubicRegistered.mA 1 c * x c = x 1 ∧
    ∑ c in Finset.range 4, cubicRegistered.mA 2 c * x c = x 0 + x 1 + x 2 + x 3 ∧
    ∑ c in Finset.range 4, cubicRegistered.mA 3 c * x c = x 1 + 2 * x 2 + 3 * x 3 := by
  refine ⟨?_, ?_, ?_, ?_⟩
  all_goals
    simp [cubicRegistered, cubicConstraints, cubicProblem, registerAll, Constraint.register,
      addConstantConstraint, writeConstantRow, setBlock, setRow, coeffVector,
      createTimeVector, createCoefficientMatrix, Finset.sum_range_succ]

/-- The right-hand side of the clamped cubic. -/
theorem cubicRegistered_rhs :
    cubicRegistered.mB 0 0 = 0 ∧ cubicRegistered.mB 1 0 = 0 ∧
    cubicRegistered.mB 2 0 = 1 ∧ cubicRegistered.mB 3 0 = 0 := by
  refine ⟨?_, ?_, ?_, ?_⟩
  all_goals
    simp [cubicRegistered, cubicConstraints, cubicProblem, registerAll, Constraint.register,
      addConstantConstraint, writeConstantRow, setBlock, setRow]

theorem cubicRegistered_inv : Inv [0, 1] 4 1 cubicRegistered :=
  (registerAll_frame_inv [0, 1] 4 1 cubicConstraints cubicProblem cubicRegistered
    (new_inv [0, 1] 4 1 cubicProblem new_cubicProblem) registerAll_cubicConstraints).2

/-- An exact solve of the clamped cubic returns the coefficients `0, 0, 3, -2`. -/
theorem cubicRegistered_solution (solver : Solver)
    (hexact : SolvesExactly solver cubicRegistered) :
    solver 4 cubicRegistered.mA (fun r => cubicRegistered.mB r 0) 0 = 0 ∧
    solver 4 cubicRegistered.mA (fun r => cubicRegistered.mB r 0) 1 = 0 ∧
    solver 4 cubicRegistered.mA (fun r => cubicRegistered.mB r 0) 2 = 3 ∧
    solver 4 cubicRegistered.mA (fun r => cubicRegistered.mB r 0) 3 = -2 := by
  obtain ⟨r0, r1, r2, r3⟩ :=
    cubicRegistered_rows (solver 4 cubicRegistered.mA (fun r => cubicRegistered.mB r 0))
  obtain ⟨b0, b1, b2, b3⟩ := cubicRegistered_rhs
  have e0 : ∑ c in Finset.range 4, cubicRegistered.mA 0 c
      * solver 4 cubicRegistered.mA (fun r => cubicRegistered.mB r 0) c
      = cubicRegistered.mB 0 0 := hexact 0 (by decide) 0 (by decide)
  have e1 : ∑ c in Finset.range 4, cubicRegistered.mA 1 c
      * solver 4 cubicRegistered.mA (fun r => cubicRegistered.mB r 0) c
      = cubicRegistered.mB 1 0 := hexact 0 (by decide) 1 (by decide)
  have e2 : ∑ c in Finset.range 4, cubicRegistered.mA 2 c
      * solver 4 cubicRegistered.mA (fun r => cubicRegistered.mB r 0) c
      = cubicRegistered.mB 2 0 := hexact 0 (by decide) 2 (by decide)
  have e3 : ∑ c in Finset.range 4, cubicRegistered.mA 3 c
      * solver 4 cubicRegistered.mA (fun r => cubicRegistered.mB r 0) c
      = cubicRegistered.mB 3 0 := hexact 0 (by decide) 3 (by decide)
  rw [r0, b0] at e0
  rw [r1, b1] at e1
  rw [r2, b2] at e2
  rw [r3, b3] at e3
  refine ⟨e0, e1, ?_, ?_⟩
  · linarith
  · linarith

/-- After an exact fit of the clamped cubic, `interpolate(t, d)` is the `d`-th
derivative of the polynomial with coefficients `0, 0, 3, -2` at `t`. -/
theorem cubic_interpolate (solver : Solver) (hexact : SolvesExactly solver cubicRegistered)
    (t : Scalar) (d : Nat) (hd : d < 4) :
    interpolate (fit solver cubicRegistered).state t (d : ℤ) =
      some [derivativeWeights t d 2 * 3 + derivativeWeights t d 3 * (-2)] := by
  have hinv := cubicRegistered_inv
  have hinvq := fit_inv solver [0, 1] 4 1 cubicRegistered hinv
  have hfull : cubicRegistered.mRowIndex = cubicRegistered.mDimension := by decide
  obtain ⟨i, hi, hlt⟩ := getSegmentIndex_in_range [0, 1] 4 1 _ hinvq (by decide) t
  have hS : (fit solver cubicRegistered).state.mNumSegments = 1 := hinvq.numSegments
  have hi0 : i = 0 := by omega
  subst hi0
  rw [interpolate_of_segment [0, 1] 4 1 _ hinvq t d hd 0 hi (by decide)]
  obtain ⟨s0, s1, s2, s3⟩ := cubicRegistered_solution solver hexact
  have hsol : ∀ j, j < 4 → (fit solver cubicRegistered).state.mSolution 0 0 j =
      solver 4 cubicRegistered.mA (fun r => cubicRegistered.mB r 0) j := by
    intro j hj
    have h := fit_solution_entry solver [0, 1] 4 1 cubicRegistered hinv hfull 0 0 j
      (by decide) (by decide) hj
    rw [h]
    congr 1
    omega
  have hrange : List.range 1 = [0] := rfl
  rw [hrange]
  simp only [List.map_cons, List.map_nil, Finset.sum_range_succ, Finset.sum_range_zero]
  rw [hsol 0 (by decide), hsol 1 (by decide), hsol 2 (by decide), hsol 3 (by decide),
    s0, s1, s2, s3]
  refine congrArg (fun y => some [y]) ?_
  ring

/-- C17: the clamped cubic. For knots `0, 1`, `C = 4`, `D = 1` and the four
constant constraints (knot 0: value 0, slope 0; knot 1: value 1, slope 0) every
registration succeeds, the cursor reaches `N = 4`, the system matrix is
nonsingular, and after an exact `fit()` the fitted polynomial is
`3 t^2 - 2 t^3`: `interpolate(0,0) = 0`, `interpolate(1,0) = 1`,
`interpolate(0,1) = 0`, `interpolate(1,1) = 0`, and `interpolate(1/2,0) = 1/2`
lies strictly between `0` and `1`. -/
theorem C17_clamped_cubic (solver : Solver) (hexact : SolvesExactly solver cubicRegistered) :
    SplineProblem.new [0, 1] 4 1 = some cubicProblem ∧
    registerAll cubicProblem cubicConstraints = some cubicRegistered ∧
    cubicRegistered.mRowIndex = 4 ∧ cubicRegistered.mDimension = 4 ∧
    (systemMatrix 4 cubicRegistered).det ≠ 0 ∧
    (fit solver cubicRegistered).violation = none ∧
    interpolate (fit solver cubicRegistered).state 0 0 = some [0] ∧
    interpolate (fit solver cubicRegistered).state 1 0 = some [1] ∧
    interpolate (fit solver cubicRegistered).state 0 1 = some [0] ∧
    interpolate (fit solver cubicRegistered).state 1 1 = some [0] ∧
    (∃ y, interpolate (fit solver cubicRegistered).state (1 / 2) 0 = some [y] ∧
      0 < y ∧ y < 1) ∧
    (∀ t, interpolate (fit solver cubicRegistered).state t 0 = some [3 * t ^ 2 - 2 * t ^ 3]) := by
  have hgen : ∀ t, interpolate (fit solver cubicRegistered).state t 0
      = some [3 * t ^ 2 - 2 * t ^ 3] := by
    intro t
    have h := cubic_interpolate solver hexact t 0 (by decide)
    rw [Nat.cast_zero] at h
    rw [h]
    simp [derivativeWeights]
    ring
  have hder : ∀ t, interpolate (fit solver cubicRegistered).state t 1
      = some [6 * t - 6 * t ^ 2] := by
    intro t
    have h := cubic_interpolate solver hexact t 1 (by decide)
    rw [Nat.cast_one] at h
    rw [h]
    simp [derivativeWeights, Nat.descFactorial]
    ring
  refine ⟨rfl, rfl, by decide, by decide, ?_, fit_violation_of_full solver _ (by decide),
    ?_, ?_, ?_, ?_, ⟨1 / 2, ?_, by norm_num, by norm_num⟩, hgen⟩
  · apply det_ne_zero_of_kernel_trivial
    intro x hx c hc
    obtain ⟨r0, r1, r2, r3⟩ := cubicRegistered_rows x
    have e0 := hx 0 (by decide)
    have e1 := hx 1 (by decide)
    have e2 := hx 2 (by decide)
    have e3 := hx 3 (by decide)
    rw [r0] at e0
    rw [r1] at e1
    rw [r2] at e2
    rw [r3] at e3
    interval_cases c <;> linarith
  · rw [hgen 0]
    norm_num
  · rw [hgen 1]
    norm_num
  · rw [hder 0]
    norm_num
  · rw [hder 1]
    norm_num
  · rw [hgen (1 / 2)]
    norm_num

/-- The coefficients `0, 0, 3, -2` solve the system of the clamped cubic. -/
theorem solvesExactly_cubicRegistered : SolvesExactly cubicSolver cubicRegistered := by
  intro o ho r hr
  have ho1 : o < 1 := ho
  have hr4 : r < 4 := hr
  have ho0 : o = 0 := by omega
  subst ho0
  obtain ⟨r0, r1, r2, r3⟩ := cubicRegistered_rows
    (cubicSolver cubicRegistered.mDimension cubicRegistered.mA (fun i => cubicRegistered.mB i 0))
  obtain ⟨b0, b1, b2, b3⟩ := cubicRegistered_rhs
  have hN : cubicRegistered.mDimension = 4 := by decide
  rw [hN] at r0 r1 r2 r3 ⊢
  interval_cases r
  · rw [r0, b0]
    norm_num [cubicSolver]
  · rw [r1, b1]
    norm_num [cubicSolver]
  · rw [r2, b2]
    norm_num [cubicSolver]
  · rw [r3, b3]
    norm_num [cubicSolver]

/-- Witness of C17: the solver that returns `0, 0, 3, -2`. -/
theorem C17_clamped_cubic_witness :
    interpolate (fit cubicSolver cubicRegistered).state 1 0 = some [1] :=
  (C17_clamped_cubic cubicSolver solvesExactly_cubicRegistered).2.2.2.2.2.2.2.1

theorem registerAll_mainConstraints :
    registerAll mainProblem mainConstraints = some mainRegistered := by
  rfl

/-- The homogeneous system of the worked example of `main` only has the zero
solution. -/
theorem mainRegistered_kernel (x : Nat → Scalar)
    (hx : ∀ r, r < 8 → ∑ c in Finset.range 8, mainRegistered.mA r c * x c = 0) :
    ∀ c, c < 8 → x c = 0 := by
  have e0 := hx 0 (by decide)
  have e1 := hx 1 (by decide)
  have e2 := hx 2 (by decide)
  have e3 := hx 3 (by decide)
  have e4 := hx 4 (by decide)
  have e5 := hx 5 (by decide)
  have e6 := hx 6 (by decide)
  have e7 := hx 7 (by decide)
  simp [mainRegistered, mainConstraints, mainProblem, registerAll, Constraint.register,
      addConstantConstraint, addContinuityConstraint, writeConstantRow, setBlock, setRow,
      coeffVector, createTimeVector, createCoefficientMatrix,
      Finset.sum_range_succ] at e0 e1 e2 e3 e4 e5 e6 e7
  intro c hc
  interval_cases c <;> linarith

/-- C18: the worked example of `main`. For knots `0, 1, 3`, `C = 4`, `D = 2` and
the registration sequence of `main` (constant at (0,1), (0,0), (1,0); continuity
at (1,1), (1,2); constant at (2,0), (2,1)) every registration succeeds, the row
cursor equals exactly `N = 8` before `fit()`, the `8 × 8` matrix `A` is
nonsingular, and `fit()` succeeds. -/
theorem C18_worked_example :
    SplineProblem.new [0, 1, 3] 4 2 = some mainProblem ∧
    registerAll mainProblem mainConstraints = some mainRegistered ∧
    mainRegistered.mRowIndex = 8 ∧
    mainRegistered.mNumSegments * mainRegistered.mNumCoefficients = 8 ∧
    mainRegistered.mDimension = 8 ∧
    (systemMatrix 8 mainRegistered).det ≠ 0 ∧
    ∀ solver : Solver, (fit solver mainRegistered).violation = none := by
  refine ⟨rfl, rfl, by decide, by decide, by decide,
    det_ne_zero_of_kernel_trivial 8 mainRegistered mainRegistered_kernel,
    fun solver => fit_violation_of_full solver mainRegistered (by decide)⟩

/-! ## The coefficient-derivative matrix, entry by entry -/

/-! ## The row cursor -/

/-- C20: in every state reachable from a successful construction by any sequence
of `addConstantConstraint`, `addContinuityConstraint` and `fit` calls (whether
each call succeeds or fails), `0 ≤ row cursor ≤ N = S * C`, and every row of `A`
and of `B` from row `N` on still holds the zeros of the construction: no row
outside the preallocated range has been written. -/
theorem C20_row_cursor_invariant (solver : Solver) (times : List Scalar) (C D : Nat)
    (p : SplineProblem) (hreach : Reachable solver times C D p) :
    0 ≤ p.mRowIndex ∧ p.mRowIndex ≤ p.mNumSegments * p.mNumCoefficients ∧
    p.mDimension = p.mNumSegments * p.mNumCoefficients ∧
    p.mNumSegments = times.length - 1 ∧ p.mNumCoefficients = C ∧
    ∀ i, p.mNumSegments * p.mNumCoefficients ≤ i →
      (∀ c, p.mA i c = 0) ∧ (∀ o, p.mB i o = 0) := by
  have hinv := reachable_inv solver times C D p hreach
  have hN : p.mDimension = p.mNumSegments * p.mNumCoefficients := by
    rw [hinv.dimension, hinv.numSegments, hinv.numCoefficients_eq]
  have hle : p.mRowIndex ≤ p.mNumSegments * p.mNumCoefficients := by
    rw [← hN]
    exact hinv.rowIndex_le
  exact ⟨Nat.zero_le _, hle, hN, hinv.numSegments, hinv.numCoefficients_eq,
    fun i hi => ⟨hinv.clearA i (le_trans hle hi), hinv.clearB i (le_trans hle hi)⟩⟩

/-- Witness of C20: the worked example of `main` after its seven registrations. -/
theorem C20_row_cursor_invariant_witness :
    mainRegistered.mRowIndex ≤ mainRegistered.mNumSegments * mainRegistered.mNumCoefficients :=
  (C20_row_cursor_invariant onesSolver [0, 1, 3] 4 2 mainRegistered
    (registerAll_reachable onesSolver [0, 1, 3] 4 2 mainConstraints mainProblem mainRegistered
      (reachable_mainProblem onesSolver) registerAll_mainConstraints)).2.1

/-! ## Construction and the rows that are still free -/

/-- C21: in every reachable state in which the row cursor is less than
`N = (K-1) * C`, row number `cursor` of `A` and every later row of `A` and of `B`
is entirely zero, hence the `N × N` matrix `A` has determinant `0`. -/
theorem C21_fewer_rows_singular (solver : Solver) (times : List Scalar) (C D : Nat)
    (p : SplineProblem) (hreach : Reachable solver times C D p)
    (hlt : p.mRowIndex < (times.length - 1) * C) :
    (∀ c, p.mA p.mRowIndex c = 0) ∧
    (∀ i, p.mRowIndex ≤ i → (∀ c, p.mA i c = 0) ∧ (∀ o, p.mB i o = 0)) ∧
    p.mDimension = (times.length - 1) * C ∧
    (systemMatrix ((times.length - 1) * C) p).det = 0 := by
  have hinv := reachable_inv solver times C D p hreach
  refine ⟨hinv.clearA p.mRowIndex (le_refl _),
    fun i hi => ⟨hinv.clearA i hi, hinv.clearB i hi⟩, hinv.dimension, ?_⟩
  refine Matrix.det_eq_zero_of_row_eq_zero ⟨p.mRowIndex, hlt⟩ (fun j => ?_)
  simp only [systemMatrix, Matrix.of_apply]
  exact hinv.clearA p.mRowIndex (le_refl _) j.val

/-- Witness of C21: the line example with three of its four rows registered. -/
theorem C21_fewer_rows_singular_witness :
    (systemMatrix ((([0, 1, 2] : List Scalar).length - 1) * 2) lineThreeRows).det = 0 :=
  (C21_fewer_rows_singular onesSolver [0, 1, 2] 2 1 lineThreeRows
    (registerAll_reachable onesSolver [0, 1, 2] 2 1 lineThreeConstraints lineProblem
      lineThreeRows (Reachable.new new_lineProblem) rfl)
    (by decide)).2.2.2

/-- C22 (as stated) fails: the empty knot sequence (`K = 0`) is accepted by the
constructor, and its segment count is `0`, not `K - 1 = -1`. -/
theorem C22_counterexample :
    (SplineProblem.new [] 4 1).isSome = true ∧
    (SplineProblem.new [] 4 1).map (fun p => (p.mNumKnots : ℤ)) = some 0 ∧
    (SplineProblem.new [] 4 1).map (fun p => (p.mNumSegments : ℤ)) = some 0 ∧
    (SplineProblem.new [] 4 1).map (fun p => (p.mNumKnots : ℤ) - 1) = some (-1) := by
  refine ⟨by decide, by decide, by decide, by decide⟩

/-- C22 (amended): for every successful construction from `K` knot times,
coefficient count `C` and output dimensionality `D`: the segment count is
`S = max(K - 1, 0)` (so `S = K - 1` whenever `K ≥ 1`), the unknown count is
`N = S * C`, every entry of `A` and of `B` is zero, the row cursor is `0`, and the
sizes that shape the solution are `S` segments, `D` outputs and `C` coefficients. -/
theorem C22_construction_state (times : List Scalar) (C D : Nat) (p : SplineProblem)
    (hnew : SplineProblem.new times C D = some p) :
    p.mNumKnots = times.length ∧ p.mTimes = times ∧
    (p.mNumSegments : ℤ) = max ((times.length : ℤ) - 1) 0 ∧
    (1 ≤ times.length → (p.mNumSegments : ℤ) = (times.length : ℤ) - 1) ∧
    p.mDimension = p.mNumSegments * C ∧
    (∀ i c, p.mA i c = 0) ∧ (∀ i o, p.mB i o = 0) ∧
    p.mRowIndex = 0 ∧
    p.mNumOutputs = D ∧ p.mNumCoefficients = C ∧
    p.mCoefficientMatrix = createCoefficientMatrix C := by
  obtain ⟨_, rfl⟩ := new_eq_some times C D p hnew
  refine ⟨rfl, rfl, ?_, fun h => ?_, rfl, fun _ _ => rfl, fun _ _ => rfl, rfl, rfl, rfl, rfl⟩
  · show ((times.length - 1 : ℕ) : ℤ) = max ((times.length : ℤ) - 1) 0
    omega
  · show ((times.length - 1 : ℕ) : ℤ) = (times.length : ℤ) - 1
    omega

/-- Witness of C22 (amended): the construction of `main`. -/
theorem C22_construction_state_witness :
    (mainProblem.mNumSegments : ℤ) = max ((([0, 1, 3] : List Scalar).length : ℤ) - 1) 0 :=
  (C22_construction_state [0, 1, 3] 4 2 mainProblem new_mainProblem).2.2.1

/-! ## Segment lookup on non-decreasing knots -/

theorem getSegmentIndex_single_knot (times : List Scalar) (C D : Nat) (p : SplineProblem)
    (h : Inv times C D p) (hK : times.length = 1) (t : Scalar) (ht : times.getD 0 0 < t) :
    getSegmentIndex p t = some (-1) := by
  unfold getSegmentIndex
  have hlast : times.getD (times.length - 1) 0 ≤ t := by
    rw [hK]
    exact le_of_lt ht
  rw [h.times_eq, h.numKnots, h.numSegments, if_neg (by omega), if_neg (not_le.2 ht),
    if_pos hlast]
  congr 1
  show (_ : ℤ) = _
  omega

theorem interpolate_isSome (times : List Scalar) (C D : Nat) (p : SplineProblem)
    (h : Inv times C D p) (hK : 2 ≤ times.length) (t : Scalar) (d : ℤ)
    (hd : 0 ≤ d ∧ d < (C : ℤ)) : (interpolate p t d).isSome = true := by
  obtain ⟨i, hi, hlt⟩ := getSegmentIndex_in_range times C D p h hK t
  have hdC : 0 ≤ d ∧ d < (p.mNumCoefficients : ℤ) := by
    rw [h.numCoefficients_eq]
    exact hd
  have hseg : 0 ≤ (i : ℤ) ∧ (i : ℤ) < (p.mNumSegments : ℤ) := by omega
  unfold interpolate
  rw [if_pos hdC, hi]
  dsimp only
  rw [if_pos hseg]
  rfl

theorem interpolate_of_bad_segment (p : SplineProblem) (t : Scalar) (d i : ℤ)
    (hi : getSegmentIndex p t = some i) (hbad : i < 0) : interpolate p t d = none := by
  unfold interpolate
  by_cases hdC : 0 ≤ d ∧ d < (p.mNumCoefficients : ℤ)
  · have hseg : ¬ (0 ≤ i ∧ i < (p.mNumSegments : ℤ)) := by omega
    rw [if_pos hdC, hi]
    dsimp only
    rw [if_neg hseg]
  · rw [if_neg hdC]

theorem lower_bound_mono (xs : List Scalar) (hs : is_sorted xs = true) (t1 t2 : Scalar)
    (h : t1 ≤ t2) : lower_bound xs t1 ≤ lower_bound xs t2 := by
  obtain ⟨hle1, hlow1, _⟩ := lower_bound_spec xs t1 hs
  obtain ⟨_, _, hhigh2⟩ := lower_bound_spec xs t2 hs
  by_contra hc
  have hlt : lower_bound xs t2 < lower_bound xs t1 := by omega
  have h1 := hlow1 (lower_bound xs t2) hlt
  have h2 := hhigh2 (lower_bound xs t2) (le_refl _) (by omega)
  exact absurd (lt_of_lt_of_le h1 (le_trans h h2)) (lt_irrefl _)

/-- C24: in every reachable state of a problem with `K ≥ 2` (non-decreasing) knots,
for every `t` with `time[0] < t < time[K-1]` the index `i = getSegmentIndex(t)` is
the lower bound of `t` minus one and satisfies `time[i] < t ≤ time[i+1]`, and
`getSegmentIndex` is monotone non-decreasing in `t` over all query times. -/
theorem C24_getSegmentIndex_bracket_and_monotone (solver : Solver) (times : List Scalar)
    (C D : Nat) (p : SplineProblem) (hreach : Reachable solver times C D p)
    (hK : 2 ≤ times.length) :
    (∀ t, times.getD 0 0 < t → t < times.getD (times.length - 1) 0 →
      ∃ i : Nat, getSegmentIndex p t = some (i : ℤ) ∧ i + 1 < times.length ∧
        (i : ℤ) = (lower_bound times t : ℤ) - 1 ∧
        times.getD i 0 < t ∧ t ≤ times.getD (i + 1) 0) ∧
    (∀ t1 t2, t1 ≤ t2 →
      ∃ i1 i2 : ℤ, getSegmentIndex p t1 = some i1 ∧ getSegmentIndex p t2 = some i2 ∧
        i1 ≤ i2) := by
  have hinv := reachable_inv solver times C D p hreach
  constructor
  · intro t ht0 ht
    obtain ⟨i, hi, hlt, hlb, hlow, hhigh⟩ := getSegmentIndex_interior times C D p hinv t ht0 ht
    exact ⟨i, hi, hlt, by omega, hlow, hhigh⟩
  · intro t1 t2 h12
    obtain ⟨i1, hi1, hlt1⟩ := getSegmentIndex_in_range times C D p hinv hK t1
    obtain ⟨i2, hi2, hlt2⟩ := getSegmentIndex_in_range times C D p hinv hK t2
    have hS := hinv.numSegments
    refine ⟨i1, i2, hi1, hi2, ?_⟩
    by_cases ha : t1 ≤ times.getD 0 0
    · have h0 := getSegmentIndex_of_le_first times C D p hinv (by omega) t1 ha
      rw [h0, Option.some.injEq] at hi1
      have e1 : (0 : ℤ) = (i1 : ℤ) := hi1
      omega
    · have ha2 : times.getD 0 0 < t2 := lt_of_lt_of_le (not_le.1 ha) h12
      by_cases hb : times.getD (times.length - 1) 0 ≤ t2
      · have h2 := getSegmentIndex_of_ge_last times C D p hinv (by omega) t2 ha2 hb
        rw [h2, Option.some.injEq] at hi2
        have e2 : (times.length : ℤ) - 2 = (i2 : ℤ) := hi2
        omega
      · have hb1 : t1 < times.getD (times.length - 1) 0 :=
          lt_of_le_of_lt h12 (not_le.1 hb)
        obtain ⟨j1, hj1, _, hlb1, _, _⟩ :=
          getSegmentIndex_interior times C D p hinv t1 (not_le.1 ha) hb1
        obtain ⟨j2, hj2, _, hlb2, _, _⟩ :=
          getSegmentIndex_interior times C D p hinv t2 ha2 (not_le.1 hb)
        have hmono := lower_bound_mono times hinv.sorted t1 t2 h12
        rw [hj1, Option.some.injEq] at hi1
        rw [hj2, Option.some.injEq] at hi2
        have e1 : (j1 : ℤ) = (i1 : ℤ) := hi1
        have e2 : (j2 : ℤ) = (i2 : ℤ) := hi2
        omega

/-- Witness of C24: the problem of `main`, queried at `1/2` and at `2`. -/
theorem C24_getSegmentIndex_bracket_and_monotone_witness :
    ∃ i1 i2 : ℤ, getSegmentIndex mainProblem (1 / 2) = some i1 ∧
      getSegmentIndex mainProblem 2 = some i2 ∧ i1 ≤ i2 :=
  (C24_getSegmentIndex_bracket_and_monotone onesSolver [0, 1, 3] 4 2 mainProblem
    (reachable_mainProblem onesSolver) (by decide)).2 (1 / 2) 2 (by norm_num)

/-! ## What a registration touches -/

theorem onlyRows_refl (p : SplineProblem) : OnlyRows p p :=
  { rowIndex_le := le_refl _, rowsA := fun _ _ _ => rfl, rowsB := fun _ _ _ => rfl,
    times_eq := rfl, coefficientMatrix_eq := rfl, solution_eq := rfl, numKnots_eq := rfl,
    numSegments_eq := rfl, numCoefficients_eq := rfl, numOutputs_eq := rfl,
    dimension_eq := rfl }

theorem onlyRows_trans {p q s : SplineProblem} (h1 : OnlyRows p q) (h2 : OnlyRows q s) :
    OnlyRows p s :=
  { rowIndex_le := le_trans h1.rowIndex_le h2.rowIndex_le
    rowsA := fun i hi c => by
      have hq := h1.rowIndex_le
      have hs := h2.rowIndex_le
      rw [h2.rowsA i (by omega) c, h1.rowsA i (by omega) c]
    rowsB := fun i hi o => by
      have hq := h1.rowIndex_le
      have hs := h2.rowIndex_le
      rw [h2.rowsB i (by omega) o, h1.rowsB i (by omega) o]
    times_eq := h2.times_eq.trans h1.times_eq
    coefficientMatrix_eq := h2.coefficientMatrix_eq.trans h1.coefficientMatrix_eq
    solution_eq := h2.solution_eq.trans h1.solution_eq
    numKnots_eq := h2.numKnots_eq.trans h1.numKnots_eq
    numSegments_eq := h2.numSegments_eq.trans h1.numSegments_eq
    numCoefficients_eq := h2.numCoefficients_eq.trans h1.numCoefficients_eq
    numOutputs_eq := h2.numOutputs_eq.trans h1.numOutputs_eq
    dimension_eq := h2.dimension_eq.trans h1.dimension_eq }

theorem writeConstantRow_onlyRows (p : SplineProblem) (segment : Nat) (v : Nat → Scalar)
    (value : List Scalar) : OnlyRows p (writeConstantRow p segment v value).state := by
  by_cases hr : p.mRowIndex < p.mDimension
  · rw [writeConstantRow_of_lt p segment v value hr]
    refine
      { rowIndex_le := Nat.le_succ _, rowsA := ?_, rowsB := ?_, times_eq := rfl,
        coefficientMatrix_eq := rfl, solution_eq := rfl, numKnots_eq := rfl,
        numSegments_eq := rfl, numCoefficients_eq := rfl, numOutputs_eq := rfl,
        dimension_eq := rfl }
    · intro i hi c
      dsimp only at hi ⊢
      rw [setBlock_of_ne _ _ _ _ _ _ _ (by omega)]
    · intro i hi o
      dsimp only at hi ⊢
      rw [setRow_of_ne _ _ _ _ _ _ (by omega)]
  · rw [writeConstantRow_of_not_lt p segment v value hr]
    exact onlyRows_refl p

theorem addConstantConstraint_onlyRows (p : SplineProblem) (k d : ℤ) (value : List Scalar) :
    OnlyRows p (addConstantConstraint p k d value).state := by
  by_cases hvalid : (0 ≤ k ∧ k < (p.mNumKnots : ℤ)) ∧ (0 ≤ d ∧ d < (p.mNumCoefficients : ℤ)) ∧
      value.length = p.mNumOutputs
  swap
  · have hst : (addConstantConstraint p k d value).state = p :=
      (addConstantConstraint_invalid p k d value (by tauto)).2
    rw [hst]
    exact onlyRows_refl p
  obtain ⟨h1, h2, h3⟩ := hvalid
  rw [addConstantConstraint_of_valid p k d value h1 h2 h3]
  have hb : OnlyRows p
      (if k > 0 then writeConstantRow p (k - 1).toNat (coeffVector p k d) value
        else { state := p, violation := none }).state := by
    by_cases hk : k > 0
    · rw [if_pos hk]
      exact writeConstantRow_onlyRows p _ _ _
    · rw [if_neg hk]
      exact onlyRows_refl p
  split_ifs
  all_goals first
    | exact hb
    | exact onlyRows_trans hb (writeConstantRow_onlyRows _ _ _ _)
    | exact onlyRows_trans (writeConstantRow_onlyRows p _ _ _) (writeConstantRow_onlyRows _ _ _ _)
    | exact writeConstantRow_onlyRows p _ _ _
    | exact onlyRows_refl p

theorem addContinuityConstraint_onlyRows (p : SplineProblem) (k d : ℤ) :
    OnlyRows p (addContinuityConstraint p k d).state := by
  by_cases hok : (addContinuityConstraint p k d).violation = none
  · obtain ⟨_, _, _, hst⟩ := addContinuityConstraint_of_ok p k d hok
    rw [hst]
    refine
      { rowIndex_le := Nat.le_succ _, rowsA := ?_, rowsB := ?_, times_eq := rfl,
        coefficientMatrix_eq := rfl, solution_eq := rfl, numKnots_eq := rfl,
        numSegments_eq := rfl, numCoefficients_eq := rfl, numOutputs_eq := rfl,
        dimension_eq := rfl }
    · intro i hi c
      dsimp only at hi ⊢
      rw [setBlock_of_ne _ _ _ _ _ _ _ (by omega), setBlock_of_ne _ _ _ _ _ _ _ (by omega)]
    · intro i hi o
      dsimp only at hi ⊢
      rw [setRow_of_ne _ _ _ _ _ _ (by omega)]
  · rw [addContinuityConstraint_state_of_fail p k d hok]
    exact onlyRows_refl p

/-- C25: a call of `addConstantConstraint` or `addContinuityConstraint` (every
successful one in particular) that starts at cursor `r` and ends at cursor `r'`
changes only rows `r .. r'-1` of `A` and `B`: every row with index `< r` and
every row with index `≥ r'` of `A` and of `B` is unchanged, and so are the knot
times, the coefficient-derivative matrix, the stored solution and the sizes. -/
theorem C25_registration_touches_only_new_rows (p : SplineProblem) (c : Constraint) :
    p.mRowIndex ≤ (c.register p).state.mRowIndex ∧
    (∀ i, i < p.mRowIndex ∨ (c.register p).state.mRowIndex ≤ i →
      (∀ col, (c.register p).state.mA i col = p.mA i col) ∧
      (∀ o, (c.register p).state.mB i o = p.mB i o)) ∧
    (c.register p).state.mTimes = p.mTimes ∧
    (c.register p).state.mCoefficientMatrix = p.mCoefficientMatrix ∧
    (c.register p).state.mSolution = p.mSolution ∧
    (c.register p).state.mNumKnots = p.mNumKnots ∧
    (c.register p).state.mNumSegments = p.mNumSegments ∧
    (c.register p).state.mNumCoefficients = p.mNumCoefficients ∧
    (c.register p).state.mNumOutputs = p.mNumOutputs ∧
    (c.register p).state.mDimension = p.mDimension := by
  have h : OnlyRows p (c.register p).state := by
    cases c with
    | constant k d v => exact addConstantConstraint_onlyRows p k d v
    | continuity k d => exact addContinuityConstraint_onlyRows p k d
  exact ⟨h.rowIndex_le, fun i hi => ⟨h.rowsA i hi, h.rowsB i hi⟩, h.times_eq,
    h.coefficientMatrix_eq, h.solution_eq, h.numKnots_eq, h.numSegments_eq,
    h.numCoefficients_eq, h.numOutputs_eq, h.dimension_eq⟩

/-! ## Row overflow in `addConstantConstraint` -/

theorem addConstantConstraint_overflow_interior (p : SplineProblem) (k d : ℤ)
    (value : List Scalar)
    (h1 : 0 ≤ k ∧ k < (p.mNumKnots : ℤ)) (h2 : 0 ≤ d ∧ d < (p.mNumCoefficients : ℤ))
    (h3 : value.length = p.mNumOutputs) (hk0 : 0 < k) (hk1 : k + 1 < (p.mNumKnots : ℤ))
    (hr : p.mRowIndex + 1 = p.mDimension) :
    addConstantConstraint p k d value =
      { state :=
          { p with
            mA := setBlock p.mA p.mRowIndex ((k - 1).toNat * p.mNumCoefficients)
              p.mNumCoefficients (coeffVector p k d)
            mB := setRow p.mB p.mRowIndex p.mNumOutputs (fun o => value.getD o 0)
            mRowIndex := p.mRowIndex + 1 }
        violation := some Violation.rowOverflow } := by
  have hlt : p.mRowIndex < p.mDimension := by omega
  rw [addConstantConstraint_of_valid p k d value h1 h2 h3, if_pos hk0,
    writeConstantRow_of_lt p _ _ value hlt]
  simp only [if_true, if_pos hk1]
  rw [writeConstantRow_of_not_lt _ _ _ value (by dsimp only; omega)]

theorem addConstantConstraint_fail_boundary (p : SplineProblem) (k d : ℤ) (value : List Scalar)
    (hk : k = 0 ∨ k + 1 = (p.mNumKnots : ℤ))
    (hfail : (addConstantConstraint p k d value).violation ≠ none) :
    (addConstantConstraint p k d value).state = p := by
  by_cases hvalid : (0 ≤ k ∧ k < (p.mNumKnots : ℤ)) ∧ (0 ≤ d ∧ d < (p.mNumCoefficients : ℤ)) ∧
      value.length = p.mNumOutputs
  swap
  · exact (addConstantConstraint_invalid p k d value (by tauto)).2
  obtain ⟨h1, h2, h3⟩ := hvalid
  rw [addConstantConstraint_of_valid p k d value h1 h2 h3] at hfail ⊢
  by_cases hr : p.mRowIndex < p.mDimension
  · by_cases hk0 : k > 0
    · have hk1 : ¬ k + 1 < (p.mNumKnots : ℤ) := by omega
      rw [if_pos hk0, writeConstantRow_of_lt p _ _ value hr] at hfail
      simp only [if_true, if_neg hk1] at hfail
      exact absurd rfl hfail
    · rw [if_neg hk0] at hfail ⊢
      by_cases hk1 : k + 1 < (p.mNumKnots : ℤ)
      · simp only [if_true, if_pos hk1] at hfail
        rw [writeConstantRow_of_lt p _ _ value hr] at hfail
        exact absurd rfl hfail
      · simp only [if_true, if_neg hk1]
  · by_cases hk0 : k > 0
    · rw [if_pos hk0, writeConstantRow_of_not_lt p _ _ value hr]
      simp
    · rw [if_neg hk0]
      by_cases hk1 : k + 1 < (p.mNumKnots : ℤ)
      · simp only [if_true, if_pos hk1]
        rw [writeConstantRow_of_not_lt p _ _ value hr]
      · simp only [if_true, if_neg hk1]

theorem addConstantConstraint_fail_full (p : SplineProblem) (k d : ℤ) (value : List Scalar)
    (hfull : p.mRowIndex = p.mDimension) :
    (addConstantConstraint p k d value).state = p := by
  have hr : ¬ p.mRowIndex < p.mDimension := by omega
  by_cases hvalid : (0 ≤ k ∧ k < (p.mNumKnots : ℤ)) ∧ (0 ≤ d ∧ d < (p.mNumCoefficients : ℤ)) ∧
      value.length = p.mNumOutputs
  swap
  · exact (addConstantConstraint_invalid p k d value (by tauto)).2
  obtain ⟨h1, h2, h3⟩ := hvalid
  rw [addConstantConstraint_of_valid p k d value h1 h2 h3]
  by_cases hk0 : k > 0
  · rw [if_pos hk0, writeConstantRow_of_not_lt p _ _ value hr]
    simp
  · rw [if_neg hk0]
    by_cases hk1 : k + 1 < (p.mNumKnots : ℤ)
    · simp only [if_true, if_pos hk1]
      rw [writeConstantRow_of_not_lt p _ _ value hr]
    · simp only [if_true, if_neg hk1]

/-- C26: in every reachable state, `addConstantConstraint(k, d, v)` at an interior
knot `0 < k < K-1` with valid derivative and value, called when the row cursor
equals `N - 1`, ends in the row-overflow violation only after it has written row
`N - 1` of `A` and `B` (the row for the segment ending at `k`) and advanced the
cursor to `N`, so the state after the failed call differs from the state before
it; at a boundary knot (`k = 0` or `k = K-1`), or when the cursor is already `N`,
a failing call leaves the state unchanged. -/
theorem C26_constant_constraint_overflow_not_atomic (solver : Solver) (times : List Scalar)
    (C D : Nat) (p : SplineProblem) (hreach : Reachable solver times C D p) (k d : ℤ)
    (v : List Scalar) :
    ((0 < k ∧ k < (times.length : ℤ) - 1) → (0 ≤ d ∧ d < (C : ℤ)) → v.length = D →
      p.mRowIndex + 1 = (times.length - 1) * C →
      (addConstantConstraint p k d v).violation = some Violation.rowOverflow ∧
      (addConstantConstraint p k d v).state.mRowIndex = (times.length - 1) * C ∧
      (addConstantConstraint p k d v).state ≠ p ∧
      (∀ j, j < C →
        (addConstantConstraint p k d v).state.mA p.mRowIndex ((k - 1).toNat * C + j) =
          if d.toNat ≤ j then
            (Nat.descFactorial j d.toNat : Scalar) * (times.getD k.toNat 0) ^ (j - d.toNat)
          else 0) ∧
      (∀ o, o < D → (addConstantConstraint p k d v).state.mB p.mRowIndex o = v.getD o 0) ∧
      (∀ i, i ≠ p.mRowIndex →
        (∀ c, (addConstantConstraint p k d v).state.mA i c = p.mA i c) ∧
        (∀ o, (addConstantConstraint p k d v).state.mB i o = p.mB i o))) ∧
    ((k = 0 ∨ k = (times.length : ℤ) - 1) →
      (addConstantConstraint p k d v).violation ≠ none →
      (addConstantConstraint p k d v).state = p) ∧
    (p.mRowIndex = (times.length - 1) * C →
      (addConstantConstraint p k d v).violation ≠ none →
      (addConstantConstraint p k d v).state = p) := by
  have hinv := reachable_inv solver times C D p hreach
  have hKn := hinv.numKnots
  have hC := hinv.numCoefficients_eq
  have hD := hinv.numOutputs_eq
  have hN := hinv.dimension
  refine ⟨fun hk hd hv hr => ?_, fun hk hfail => ?_, fun hfull _ => ?_⟩
  · have h1 : 0 ≤ k ∧ k < (p.mNumKnots : ℤ) := by omega
    have h2 : 0 ≤ d ∧ d < (p.mNumCoefficients : ℤ) := by omega
    have h3 : v.length = p.mNumOutputs := by omega
    have hst := addConstantConstraint_overflow_interior p k d v h1 h2 h3 hk.1 (by omega)
      (by omega)
    have hw := coeffVector_weights times C D p hinv k d hd.1
    rw [hst]
    dsimp only
    refine ⟨rfl, by omega, fun heq => ?_, fun j hj => ?_, fun o ho => ?_, fun i hi => ⟨fun c => ?_,
      fun o => ?_⟩⟩
    · have hrow := congrArg SplineProblem.mRowIndex heq
      dsimp only at hrow
      omega
    · rw [hC, setBlock_hit _ _ _ _ _ _ hj, hw j hj]
      rfl
    · rw [hD, setRow_hit _ _ _ _ _ ho]
    · rw [setBlock_of_ne _ _ _ _ _ _ _ hi]
    · rw [setRow_of_ne _ _ _ _ _ _ hi]
  · exact addConstantConstraint_fail_boundary p k d v (by omega) hfail
  · exact addConstantConstraint_fail_full p k d v (by omega)

/-- Witness of C26: the line example with three of its four rows registered, and a
constant constraint at its interior knot. -/
theorem C26_constant_constraint_overflow_not_atomic_witness :
    (addConstantConstraint lineThreeRows 1 0 [2]).violation = some Violation.rowOverflow ∧
    (addConstantConstraint lineThreeRows 1 0 [2]).state.mRowIndex
      = (([0, 1, 2] : List Scalar).length - 1) * 2 ∧
    (addConstantConstraint lineThreeRows 1 0 [2]).state ≠ lineThreeRows :=
  ⟨((C26_constant_constraint_overflow_not_atomic onesSolver [0, 1, 2] 2 1 lineThreeRows
      (registerAll_reachable onesSolver [0, 1, 2] 2 1 lineThreeConstraints lineProblem
        lineThreeRows (Reachable.new new_lineProblem) rfl) 1 0 [2]).1
      ⟨by decide, by decide⟩ ⟨by decide, by decide⟩ (by decide) (by decide)).1,
    ((C26_constant_constraint_overflow_not_atomic onesSolver [0, 1, 2] 2 1 lineThreeRows
      (registerAll_reachable onesSolver [0, 1, 2] 2 1 lineThreeConstraints lineProblem
        lineThreeRows (Reachable.new new_lineProblem) rfl) 1 0 [2]).1
      ⟨by decide, by decide⟩ ⟨by decide, by decide⟩ (by decide) (by decide)).2.1,
    ((C26_constant_constraint_overflow_not_atomic onesSolver [0, 1, 2] 2 1 lineThreeRows
      (registerAll_reachable onesSolver [0, 1, 2] 2 1 lineThreeConstraints lineProblem
        lineThreeRows (Reachable.new new_lineProblem) rfl) 1 0 [2]).1
      ⟨by decide, by decide⟩ ⟨by decide, by decide⟩ (by decide) (by decide)).2.2.1⟩

/-! ## Query times that may be NaN -/

theorem lowerBoundLoopDouble_number (xs : List Scalar) (t : Scalar) :
    ∀ fuel first len : Nat,
      lowerBoundLoopDouble xs (Double.number t) fuel first len = lowerBoundLoop xs t fuel first len
  | 0, _, _ => rfl
  | fuel + 1, first, len => by
    rw [lowerBoundLoopDouble, lowerBoundLoop]
    by_cases h0 : len = 0
    · rw [if_pos h0, if_pos h0]
    · rw [if_neg h0, if_neg h0]
      dsimp only
      rw [lowerBoundLoopDouble_number xs t fuel, lowerBoundLoopDouble_number xs t fuel]
      by_cases hlt : xs.getD (first + len / 2) 0 < t
      · have hd : Double.lt (Double.number (xs.getD (first + len / 2) 0)) (Double.number t)
            = true := by
          simp only [Double.lt, decide_eq_true_eq]
          exact hlt
        rw [if_pos hlt, if_pos hd]
      · have hd : ¬ Double.lt (Double.number (xs.getD (first + len / 2) 0)) (Double.number t)
            = true := by
          simp only [Double.lt, decide_eq_true_eq]
          exact hlt
        rw [if_neg hlt, if_neg hd]

/-- On a query time that is a number the lookup on doubles is the lookup on numbers. -/
theorem getSegmentIndexDouble_number (p : SplineProblem) (t : Scalar) :
    getSegmentIndexDouble p (Double.number t) = getSegmentIndex p t := by
  unfold getSegmentIndexDouble getSegmentIndex lower_boundDouble lower_bound
  rw [lowerBoundLoopDouble_number]
  simp only [Double.le, decide_eq_true_eq, ge_iff_le]

theorem lowerBoundLoopDouble_nan (xs : List Scalar) :
    ∀ fuel first len : Nat, lowerBoundLoopDouble xs Double.nan fuel first len = first
  | 0, _, _ => rfl
  | fuel + 1, first, len => by
    rw [lowerBoundLoopDouble]
    by_cases h0 : len = 0
    · rw [if_pos h0]
    · rw [if_neg h0]
      dsimp only
      rw [if_neg (by simp [Double.lt])]
      exact lowerBoundLoopDouble_nan xs fuel first (len / 2)

/-- For the query time NaN both guards fail and the binary search returns the first
position, so the lookup returns `-1`. -/
theorem getSegmentIndexDouble_nan (p : SplineProblem) (h : p.mTimes.length ≠ 0) :
    getSegmentIndexDouble p Double.nan = some (-1) := by
  unfold getSegmentIndexDouble lower_boundDouble
  rw [if_neg h, if_neg (by simp [Double.le]), if_neg (by simp [Double.le]),
    lowerBoundLoopDouble_nan]
  rfl

theorem interpolateDouble_of_bad_segment (p : SplineProblem) (t : Double) (d i : ℤ)
    (hi : getSegmentIndexDouble p t = some i) (hbad : i < 0) :
    interpolateDouble p t d = none := by
  unfold interpolateDouble
  by_cases hdC : 0 ≤ d ∧ d < (p.mNumCoefficients : ℤ)
  · have hseg : ¬ (0 ≤ i ∧ i < (p.mNumSegments : ℤ)) := by omega
    rw [if_pos hdC, hi]
    dsimp only
    rw [if_neg hseg]
  · rw [if_neg hdC]

theorem createTimeVectorDouble_number (p : SplineProblem) (t : Scalar) (i : ℤ) (j : Nat) :
    createTimeVectorDouble p (Double.number t) i j = Double.number (createTimeVector p t i j) := by
  unfold createTimeVectorDouble createTimeVector
  split_ifs <;> rfl

theorem evaluationVectorDouble_number (p : SplineProblem) (t : Scalar) (d : ℤ) (j : Nat) :
    evaluationVectorDouble p (Double.number t) d j = Double.number (evaluationVector p t d j) := by
  unfold evaluationVectorDouble evaluationVector
  rw [createTimeVectorDouble_number]
  rfl

theorem dotDouble_number (u v : Nat → Scalar) :
    ∀ n : Nat, dotDouble n (fun j => Double.number (u j)) (fun j => Double.number (v j))
      = Double.number (∑ j in Finset.range n, u j * v j)
  | 0 => rfl
  | n + 1 => by
    have ih := dotDouble_number u v n
    unfold dotDouble at ih ⊢
    rw [List.range_succ, List.foldl_append, ih, Finset.sum_range_succ]
    rfl

/-- On a query time that is a number `interpolate` on doubles is `interpolate` on
numbers. -/
theorem interpolateDouble_number (p : SplineProblem) (t : Scalar) (d : ℤ) :
    interpolateDouble p (Double.number t) d
      = (interpolate p t d).map (List.map Double.number) := by
  unfold interpolateDouble interpolate
  rw [getSegmentIndexDouble_number]
  by_cases hd : 0 ≤ d ∧ d < (p.mNumCoefficients : ℤ)
  swap
  · rw [if_neg hd, if_neg hd]
    rfl
  rw [if_pos hd, if_pos hd]
  cases hseg : getSegmentIndex p t with
  | none => rfl
  | some i =>
    dsimp only
    by_cases hi : 0 ≤ i ∧ i < (p.mNumSegments : ℤ)
    swap
    · rw [if_neg hi, if_neg hi]
      rfl
    rw [if_pos hi, if_pos hi, Option.map_some', List.map_map]
    refine congrArg some (List.map_congr_left (fun o _ => ?_))
    have hev : evaluationVectorDouble p (Double.number t) d
        = fun j => Double.number (evaluationVector p t d j) :=
      funext (fun j => evaluationVectorDouble_number p t d j)
    rw [hev, dotDouble_number]
    rfl

theorem new_singleKnotProblem : SplineProblem.new [5] 4 1 = some singleKnotProblem := by
  rfl

theorem reachable_lineFitted : Reachable onesSolver [0, 1, 2] 2 1 lineFitted :=
  Reachable.call Call.fit
    (registerAll_reachable onesSolver [0, 1, 2] 2 1 lineConstraints lineProblem lineRegistered
      (Reachable.new new_lineProblem) registerAll_lineConstraints)

/-- The fitted line example evaluates to `1 + t` on its second segment: `5/2` at
`t = 3/2`. -/
theorem interpolate_lineFitted : interpolate lineFitted (3 / 2) 0 = some [5 / 2] := by
  have hinv := reachable_inv onesSolver [0, 1, 2] 2 1 lineFitted reachable_lineFitted
  have hseg : getSegmentIndex lineFitted (3 / 2) = some ((1 : ℕ) : ℤ) := by
    obtain ⟨i, hi, hlt, _, _, hhigh⟩ := getSegmentIndex_interior [0, 1, 2] 2 1 lineFitted hinv
      (3 / 2) (by norm_num) (by norm_num)
    have hlt3 : i + 1 < 3 := hlt
    have hlt2 : i < 2 := by omega
    have hi1 : i = 1 := by
      interval_cases i
      · norm_num at hhigh
      · rfl
    rw [hi, hi1]
  have h := interpolate_of_segment [0, 1, 2] 2 1 lineFitted hinv (3 / 2) 0 (by decide) 1 hseg
    (by decide)
  rw [Nat.cast_zero] at h
  rw [h]
  have hsol : ∀ j, j < 2 → lineFitted.mSolution 1 0 j = 1 := by
    intro j hj
    have hinvr := (registerAll_frame_inv [0, 1, 2] 2 1 lineConstraints lineProblem
      lineRegistered (new_inv [0, 1, 2] 2 1 lineProblem new_lineProblem)
      registerAll_lineConstraints).2
    exact fit_solution_entry onesSolver [0, 1, 2] 2 1 lineRegistered hinvr (by decide) 1 0 j
      (by decide) (by decide) hj
  have hrange : List.range 1 = [0] := rfl
  rw [hrange]
  simp only [List.map_cons, List.map_nil, Finset.sum_range_succ, Finset.sum_range_zero]
  rw [hsol 0 (by decide), hsol 1 (by decide)]
  refine congrArg (fun y => some [y]) ?_
  norm_num [derivativeWeights]

/-- C3 (as stated) fails. In the fitted line example (three knots, both segments
hold the line `1 + t`) the query time NaN passes neither guard of
`getSegmentIndex`, the binary search returns the first position and the lookup
returns `-1`: `interpolate(NaN, 0)` has no segment `-1` to take coefficients
from. In the accepted single-knot problem the query time `6 > time[0] = 5` gives
segment `-1` as well. -/
theorem C3_counterexample :
    registerAll lineProblem lineConstraints = some lineRegistered ∧
    (fit onesSolver lineRegistered).violation = none ∧
    lineFitted = (fit onesSolver lineRegistered).state ∧
    getSegmentIndexDouble lineFitted Double.nan = some (-1) ∧
    interpolateDouble lineFitted Double.nan 0 = none ∧
    SplineProblem.new [5] 4 1 = some singleKnotProblem ∧
    getSegmentIndexDouble singleKnotProblem (Double.number 6) = some (-1) ∧
    interpolateDouble singleKnotProblem (Double.number 6) 0 = none := by
  have h1 := getSegmentIndexDouble_nan lineFitted (by decide)
  have h2 : getSegmentIndexDouble singleKnotProblem (Double.number 6) = some (-1) := by decide
  exact ⟨rfl, by decide, rfl, h1,
    interpolateDouble_of_bad_segment lineFitted Double.nan 0 (-1) h1 (by decide), rfl, h2,
    interpolateDouble_of_bad_segment singleKnotProblem (Double.number 6) 0 (-1) h2 (by decide)⟩

/-- C3 (amended): in every reachable state of a problem with `K ≥ 2` knots, for
every query time `t` that is a number (not NaN), inside or outside the knot range,
and every derivative order `d < C`, `interpolate(t, d)` returns a vector with one
entry per output; in exact arithmetic entry `o` is the dot product of the stored
coefficient row `o` of segment `getSegmentIndex(t)` with the vector whose `j`-th
entry is `factor(d, j) * t^(j - d)` for `j ≥ d` and `0` for `j < d`, which is the
value at the absolute time `t` of the `d`-th derivative of the polynomial with
those coefficients. -/
theorem C3_interpolate_is_segment_derivative (solver : Solver) (times : List Scalar)
    (C D : Nat) (p : SplineProblem) (hreach : Reachable solver times C D p)
    (hK : 2 ≤ times.length) (t : Scalar) (d : Nat) (hd : d < C) :
    ∃ (seg : Nat) (out : List Scalar),
      getSegmentIndexDouble p (Double.number t) = some (seg : ℤ) ∧
      getSegmentIndex p t = some (seg : ℤ) ∧ seg < times.length - 1 ∧
      interpolateDouble p (Double.number t) (d : ℤ) = some (out.map Double.number) ∧
      interpolate p t (d : ℤ) = some out ∧ out.length = D ∧
      ∀ o, o < D →
        out.getD o 0 =
          ∑ j in Finset.range C,
            (if d ≤ j then (Nat.descFactorial j d : Scalar) * t ^ (j - d) else 0)
              * p.mSolution seg o j ∧
        out.getD o 0 =
          Polynomial.eval t (Polynomial.derivative^[d]
            (∑ j in Finset.range C, Polynomial.C (p.mSolution seg o j) * Polynomial.X ^ j)) := by
  have hinv := reachable_inv solver times C D p hreach
  obtain ⟨seg, hseg, hlt⟩ := getSegmentIndex_in_range times C D p hinv hK t
  rw [hinv.numSegments] at hlt
  have hint := interpolate_of_segment times C D p hinv t d hd seg hseg hlt
  refine ⟨seg, _, by rw [getSegmentIndexDouble_number]; exact hseg, hseg, hlt,
    by rw [interpolateDouble_number, hint]; rfl, hint,
    by rw [List.length_map, List.length_range], fun o ho => ?_⟩
  rw [getD_map_range D _ o ho]
  exact ⟨rfl, derivativeWeights_sum_eq_eval (fun j => p.mSolution seg o j) C d t⟩

/-- Witness of C3 (amended): the fitted line example (coefficients `1, 1` on both
segments) queried at `t = 3/2`, where the value is `5/2`. -/
theorem C3_interpolate_is_segment_derivative_witness :
    ∃ (seg : Nat) (out : List Scalar),
      (getSegmentIndexDouble lineFitted (Double.number (3 / 2)) = some (seg : ℤ) ∧
      getSegmentIndex lineFitted (3 / 2) = some (seg : ℤ) ∧
      seg < ([0, 1, 2] : List Scalar).length - 1 ∧
      interpolateDouble lineFitted (Double.number (3 / 2)) ((0 : Nat) : ℤ)
        = some (out.map Double.number) ∧
      interpolate lineFitted (3 / 2) ((0 : Nat) : ℤ) = some out ∧ out.length = 1 ∧
      ∀ o, o < 1 →
        out.getD o 0 =
          ∑ j in Finset.range 2,
            (if 0 ≤ j then (Nat.descFactorial j 0 : Scalar) * (3 / 2) ^ (j - 0) else 0)
              * lineFitted.mSolution seg o j ∧
        out.getD o 0 =
          Polynomial.eval (3 / 2) (Polynomial.derivative^[0]
            (∑ j in Finset.range 2,
              Polynomial.C (lineFitted.mSolution seg o j) * Polynomial.X ^ j))) ∧
      out = [5 / 2] := by
  obtain ⟨seg, out, h⟩ := C3_interpolate_is_segment_derivative onesSolver [0, 1, 2] 2 1
    lineFitted reachable_lineFitted (by decide) (3 / 2) 0 (by decide)
  have hval : interpolate lineFitted (3 / 2) ((0 : Nat) : ℤ) = some [5 / 2] :=
    interpolate_lineFitted
  exact ⟨seg, out, h, Option.some.inj (h.2.2.2.2.1.symm.trans hval)⟩

/-- C23 (as stated) fails: in the problem of `main` (knot times `0, 1, 3`, accepted,
`K = 3`) the query time NaN passes neither guard of `getSegmentIndex`, the binary
search returns the first position and the lookup returns `-1`, which is not in
`[0, S-1]`: `interpolate` has no segment `-1` in the stored solution. -/
theorem C23_counterexample :
    SplineProblem.new [0, 1, 3] 4 2 = some mainProblem ∧
    2 ≤ mainProblem.mNumKnots ∧
    getSegmentIndexDouble mainProblem Double.nan = some (-1) ∧
    ¬ ((0 : ℤ) ≤ -1) ∧
    interpolateDouble mainProblem Double.nan 0 = none := by
  have h1 := getSegmentIndexDouble_nan mainProblem (by decide)
  exact ⟨rfl, by decide, h1, by decide,
    interpolateDouble_of_bad_segment mainProblem Double.nan 0 (-1) h1 (by decide)⟩

/-- C23 (amended): in every reachable state of a problem with `K ≥ 2`
(non-decreasing) knots, for every query time `t` that is a number (not NaN),
`getSegmentIndex(t)` lies in `[0, S-1]`, so that `interpolate` (for a derivative
order in `[0, C)`) finds the segment it looks up; with a single knot (`K = 1`,
which the constructor accepts) a query `t > time[0]` yields `S - 1 = -1`, for
which `interpolate` has no segment. -/
theorem C23_getSegmentIndex_in_stored_range (solver : Solver) (times : List Scalar)
    (C D : Nat) (p : SplineProblem) (hreach : Reachable solver times C D p) :
    (2 ≤ times.length → ∀ t : Scalar,
      (∃ i : ℤ, getSegmentIndexDouble p (Double.number t) = some i ∧ 0 ≤ i ∧
        i ≤ (p.mNumSegments : ℤ) - 1) ∧
      ∀ d : ℤ, 0 ≤ d ∧ d < (C : ℤ) →
        (interpolateDouble p (Double.number t) d).isSome = true) ∧
    (times.length = 1 → ∀ t : Scalar, times.getD 0 0 < t →
      getSegmentIndexDouble p (Double.number t) = some (-1) ∧
      (p.mNumSegments : ℤ) - 1 = -1 ∧
      ∀ d : ℤ, interpolateDouble p (Double.number t) d = none) := by
  have hinv := reachable_inv solver times C D p hreach
  constructor
  · intro hK t
    obtain ⟨i, hi, hlt⟩ := getSegmentIndex_in_range times C D p hinv hK t
    refine ⟨⟨i, by rw [getSegmentIndexDouble_number]; exact hi, by omega, by omega⟩,
      fun d hd => ?_⟩
    have hsome := interpolate_isSome times C D p hinv hK t d hd
    rw [interpolateDouble_number]
    cases hres : interpolate p t d with
    | none =>
      rw [hres] at hsome
      exact absurd hsome (by simp)
    | some out => rfl
  · intro hK t ht
    have hseg := getSegmentIndex_single_knot times C D p hinv hK t ht
    have hsegD : getSegmentIndexDouble p (Double.number t) = some (-1) := by
      rw [getSegmentIndexDouble_number]
      exact hseg
    refine ⟨hsegD, ?_,
      fun d => interpolateDouble_of_bad_segment p (Double.number t) d (-1) hsegD (by decide)⟩
    rw [hinv.numSegments]
    omega

/-- Witness of C23 (amended): the fitted line example, queried between its knots. -/
theorem C23_getSegmentIndex_in_stored_range_witness :
    (∃ i : ℤ, getSegmentIndexDouble lineFitted (Double.number (3 / 2)) = some i ∧ 0 ≤ i ∧
      i ≤ (lineFitted.mNumSegments : ℤ) - 1) ∧
    ∀ d : ℤ, 0 ≤ d ∧ d < ((2 : Nat) : ℤ) →
      (interpolateDouble lineFitted (Double.number (3 / 2)) d).isSome = true :=
  (C23_getSegmentIndex_in_stored_range onesSolver [0, 1, 2] 2 1 lineFitted
    reachable_lineFitted).1 (by decide) (3 / 2)

/-! ## The coefficient-derivative matrix in binary64 -/

/-- An entry of the binary64 table does not depend on the coefficient count, as
long as its column exists. -/
theorem createCoefficientMatrixDouble_column (C : Nat) (j : Nat) (hj : j < C) :
    ∀ d : Nat, createCoefficientMatrixDouble C d j = createCoefficientMatrixDouble (j + 1) d j
  | 0 => by
    rw [createCoefficientMatrixDouble, createCoefficientMatrixDouble, if_pos hj,
      if_pos (Nat.lt_succ_self j)]
  | i + 1 => by
    rw [createCoefficientMatrixDouble, createCoefficientMatrixDouble,
      createCoefficientMatrixDouble_column C j hj i]
    by_cases hij : i + 1 ≤ j
    · rw [if_pos ⟨hij, hj⟩, if_pos ⟨hij, Nat.lt_succ_self j⟩]
    · rw [if_neg (fun h => hij h.1), if_neg (fun h => hij h.1)]

theorem createCoefficientMatrixDouble_below (C d j : Nat) (h : j < d) :
    createCoefficientMatrixDouble C d j = some 0 := by
  cases d with
  | zero => exact absurd h (Nat.not_lt_zero j)
  | succ i =>
    rw [createCoefficientMatrixDouble, if_neg (by omega)]

set_option maxRecDepth 100000 in
set_option exponentiation.threshold 1100 in
/-- The first 23 columns of the binary64 table, computed entry by entry: no
product is rounded. -/
theorem createCoefficientMatrixDouble_exact_columns :
    ∀ j, j < 23 → ∀ d, d < 23 →
      createCoefficientMatrixDouble (j + 1) d j = some (Nat.descFactorial j d) := by
  decide

theorem createCoefficientMatrixDouble_eq (C d j : Nat) (hj : j < C) (hsmall : j ≤ 22) :
    createCoefficientMatrixDouble C d j = some (Nat.descFactorial j d) := by
  by_cases hd : d < 23
  · rw [createCoefficientMatrixDouble_column C j hj d]
    exact createCoefficientMatrixDouble_exact_columns j (by omega) d hd
  · rw [createCoefficientMatrixDouble_below C d j (by omega),
      Nat.descFactorial_of_lt (by omega)]

set_option maxRecDepth 100000 in
set_option exponentiation.threshold 1100 in
/-- C19 (as stated) fails: for `C = 24` the entry `(23, 23)` that binary64
arithmetic builds is `25852016738884978212864`, while the falling factorial
`23 * 22 * ... * 1 = 23!` is `25852016738884976640000` (it needs more than 53
significant bits). -/
theorem C19_counterexample :
    createCoefficientMatrixDouble 24 23 23 = some 25852016738884978212864 ∧
    Nat.descFactorial 23 23 = 25852016738884976640000 ∧
    Nat.factorial 23 = 25852016738884976640000 ∧
    createCoefficientMatrixDouble 24 23 23 ≠ some (Nat.descFactorial 23 23) ∧
    createCoefficientMatrixDouble 24 23 23 ≠ some (Nat.factorial 23) := by
  refine ⟨by decide, by decide, by decide, by decide, by decide⟩

/-- C19 (amended): for every coefficient count `C` and all `d < C`, `j < C`: row 0
of the matrix that `createCoefficientMatrix` builds in binary64 is all ones and
every entry below the diagonal (`j < d`) is `0`; every entry in a column `j ≤ 22`
(so every entry when `C ≤ 23`) equals the falling factorial
`j * (j - 1) * ... * (j - d + 1)` when `j ≥ d` and `0` when `j < d`, with diagonal
entry `(j, j) = j!`, and is the entry of the table computed in exact arithmetic. -/
theorem C19_coefficient_matrix_falling_factorial (C d j : Nat) (hd : d < C) (hj : j < C) :
    createCoefficientMatrixDouble C 0 j = some 1 ∧
    (j < d → createCoefficientMatrixDouble C d j = some 0) ∧
    (j ≤ 22 →
      createCoefficientMatrixDouble C d j =
        some (if d ≤ j then ∏ i in Finset.range d, (j - i) else 0) ∧
      createCoefficientMatrixDouble C d j = some (if d ≤ j then Nat.descFactorial j d else 0) ∧
      createCoefficientMatrixDouble C j j = some (Nat.factorial j) ∧
      createCoefficientMatrix C d j
        = (((if d ≤ j then Nat.descFactorial j d else 0 : ℕ)) : Scalar)) := by
  have hC : 0 < C := Nat.lt_of_le_of_lt (Nat.zero_le d) hd
  refine ⟨?_, fun hlt => createCoefficientMatrixDouble_below C d j hlt, fun hsmall => ?_⟩
  · rw [createCoefficientMatrixDouble, if_pos hj]
  · have hfall : createCoefficientMatrixDouble C d j
        = some (if d ≤ j then Nat.descFactorial j d else 0) := by
      rw [createCoefficientMatrixDouble_eq C d j hj hsmall]
      by_cases hdj : d ≤ j
      · rw [if_pos hdj]
      · rw [if_neg hdj, Nat.descFactorial_of_lt (by omega)]
    refine ⟨?_, hfall, ?_, ?_⟩
    · rw [hfall, Nat.descFactorial_eq_prod_range]
    · rw [createCoefficientMatrixDouble_eq C j j hj hsmall, Nat.descFactorial_self]
    · rw [createCoefficientMatrix_eq, if_pos hj]
      by_cases hdj : d ≤ j
      · rw [if_pos hdj]
      · rw [if_neg hdj, Nat.descFactorial_of_lt (by omega)]

/-- Witness of C19 (amended): entry `(2, 3)` of the matrix for `C = 4` is `3 * 2`. -/
theorem C19_coefficient_matrix_falling_factorial_witness :
    createCoefficientMatrixDouble 4 2 3 =
      some (if 2 ≤ 3 then ∏ i in Finset.range 2, (3 - i) else 0) :=
  ((C19_coefficient_matrix_falling_factorial 4 2 3 (by decide) (by decide)).2.2
    (by decide)).1

end Spline2

namespace ConcreteRobot

/-- C27: `ConcreteRobot::planToConfiguration` never returns a trajectory: whatever
the plan call of the underlying planner returns (a trajectory or null), the value
returned to the caller is the null trajectory. -/
theorem C27_planToConfiguration_returns_null {Problem Trajectory : Type}
    (plan : Problem → TrajectoryPtr Trajectory) (problem : Problem) :
    planToConfiguration plan problem = none := by
  unfold planToConfiguration
  cases h : plan problem with
  | none => rfl
  | some trajectory => rfl

end ConcreteRobot
